import Mathlib

/-!
Verification of the PrediClaw market settlement and event-delivery engine.

The definitions below are a shallow embedding of the Python source in
src/prediclaw/api.py (with storage semantics from src/prediclaw/storage.py).
Floating-point BDC amounts are modelled as exact rationals; Python dicts are
modelled as association lists preserving insertion order, so that the
first-maximal-element semantics of the Python max builtin is reproduced
exactly.  HTTP error paths are modelled as Except values carrying the
status code.
-/

namespace PrediClaw

abbrev BotId := Nat

abbrev MarketId := Nat

abbrev OutcomeId := String

/-- Association-list lookup returning the first binding, mirroring Python
dict access where keys are unique. -/
def alookup {α β : Type} [DecidableEq α] : List (α × β) → α → Option β
  | [], _ => none
  | p :: rest, k => if p.1 = k then some p.2 else alookup rest k

/-- Lookup with a default, mirroring dict.get with a default value. -/
def alookupD {α β : Type} [DecidableEq α] (l : List (α × β)) (k : α) (d : β) : β :=
  (alookup l k).getD d

/-- Dict assignment: replace the binding when the key is present, otherwise
append the new binding at the end (Python dicts preserve insertion order). -/
def dictInsert {α β : Type} [DecidableEq α] (l : List (α × β)) (k : α) (v : β) :
    List (α × β) :=
  if l.any (fun p => p.1 = k) then
    l.map (fun p => if p.1 = k then (k, v) else p)
  else
    l ++ [(k, v)]

/-- A resolution vote, from models.ResolutionVote (evidence omitted: it does
not influence any decision algorithm). -/
structure Vote where
  resolverBotId : BotId
  outcomeId : OutcomeId
deriving DecidableEq

/-- One step of the vote tallies built in resolve_market: adds a contribution
to one outcome bucket, keeping first-encounter insertion order exactly as the
Python dict does.  With contribution 1 this is the majority counter, with the
resolver reputation it is the consensus weight accumulator. -/
def bumpAdd {β : Type} [Add β] (t : List (OutcomeId × β)) (o : OutcomeId)
    (w : β) : List (OutcomeId × β) :=
  match t with
  | [] => [(o, w)]
  | p :: rest => if p.1 = o then (o, p.2 + w) :: rest else p :: bumpAdd rest o w

/-- The per-outcome dict built by the vote loops of resolve_market. -/
def tallyBy {β : Type} [Add β] (votes : List Vote) (f : Vote → β) :
    List (OutcomeId × β) :=
  votes.foldl (fun t v => bumpAdd t v.outcomeId (f v)) []

/-- Sum of the contributions of the votes cast for one outcome. -/
def sumBy {β : Type} [AddCommMonoid β] (votes : List Vote) (f : Vote → β)
    (o : OutcomeId) : β :=
  ((votes.filter (fun v => v.outcomeId = o)).map f).sum

/-- The Python max builtin with key equal to the second component: scans the
list and replaces the current best only on a strictly larger key, hence
returns the first maximal element. -/
def maxBySnd {β : Type} [LinearOrder β] (x : OutcomeId × β)
    (rest : List (OutcomeId × β)) : OutcomeId × β :=
  rest.foldl (fun best item => if best.2 < item.2 then item else best) x

/-- Number of votes cast for one outcome. -/
def countOutcome (votes : List Vote) (o : OutcomeId) : Nat :=
  (votes.filter (fun v => v.outcomeId = o)).length

/-- The winner selection and no-majority check of resolve_market applied to a
built tally: take the outcome with maximal count among the first maximal
entries, fail with 409 unless that count strictly exceeds half the number of
votes.  The empty-tally case answers 400, mirroring the enclosing guard that
rejects requests without votes before the tally is built. -/
def majorityFromTally (tally : List (OutcomeId × Nat)) (n : Nat) :
    Except Nat OutcomeId :=
  match tally with
  | [] => .error 400
  | p :: rest =>
    if ((maxBySnd p rest).2 : ℚ) ≤ (n : ℚ) / 2 then .error 409
    else .ok (maxBySnd p rest).1

/-- The majority-policy decision block of resolve_market (api.py lines
2872-2884). -/
def majorityDecision (votes : List Vote) : Except Nat OutcomeId :=
  majorityFromTally (tallyBy votes (fun _ => 1)) votes.length

/-- Total reputation weight across all votes. -/
def totalWeight (votes : List Vote) (rep : BotId → ℚ) : ℚ :=
  (votes.map (fun v => rep v.resolverBotId)).sum

/-- Reputation weight accumulated by one outcome. -/
def weightOutcome (votes : List Vote) (rep : BotId → ℚ) (o : OutcomeId) : ℚ :=
  sumBy votes (fun v => rep v.resolverBotId) o

/-- The winner selection and no-consensus check of resolve_market applied to
a built weight tally. -/
def consensusFromTally (tally : List (OutcomeId × ℚ)) (total : ℚ) :
    Except Nat OutcomeId :=
  match tally with
  | [] => .error 400
  | p :: rest =>
    if (maxBySnd p rest).2 ≤ total / 2 then .error 409
    else .ok (maxBySnd p rest).1

/-- The consensus-policy decision block of resolve_market (api.py lines
2885-2905): weight each vote by the voting resolver reputation, reject with
400 when the total weight is not positive, take the outcome with maximal
weight, and fail with 409 unless that weight strictly exceeds half the total
weight. -/
def consensusDecision (votes : List Vote) (rep : BotId → ℚ) :
    Except Nat OutcomeId :=
  if totalWeight votes rep ≤ 0 then .error 400
  else
    consensusFromTally (tallyBy votes (fun v => rep v.resolverBotId))
      (totalWeight votes rep)

/-- enforce_stake_requirements (api.py lines 2035-2060): rejects with 403
exactly when the wallet balance is below the minimum balance AND the
reputation score is below the minimum reputation. -/
def enforceStakeRequirements (balance reputation minBalance minReputation : ℚ) :
    Except Nat Unit :=
  if balance < minBalance ∧ reputation < minReputation then .error 403 else .ok ()

/-! ### Webhook delivery (C8, C9) -/

/-- models.OutboxEntry with timestamps as seconds; created_at omitted (it is
never read by delivery). -/
structure OutboxEntry where
  id : Nat
  webhookId : Nat
  eventId : Nat
  eventType : String
  targetUrl : String
  status : String
  attempts : Nat
  lastAttemptAt : Option Nat
  nextAttemptAt : Option Nat
  lastResponseStatus : Option Nat
  lastError : Option String
deriving DecidableEq

/-- models.Event restricted to the fields webhook delivery reads. -/
structure DeliveryEvent where
  id : Nat
  eventType : String
  botId : Option BotId
deriving DecidableEq

/-- A bot as webhook delivery sees it: identity and API key. -/
structure KeyedBot where
  id : BotId
  apiKey : String
deriving DecidableEq

/-- The payload dict built by build_webhook_payload (api.py lines 1679-1687):
fields id, webhook_id, event, event_type, delivered_at. -/
structure WebhookPayload where
  id : Nat
  webhookId : Nat
  event : Option DeliveryEvent
  eventType : String
  deliveredAt : Nat
deriving DecidableEq

/-- An outbound HTTP POST as issued by webhook_delivery_job. -/
structure HttpRequest where
  url : String
  headers : List (String × String)
  body : String
deriving DecidableEq

/-- Store state read by one webhook delivery attempt. -/
structure DeliveryState where
  events : List DeliveryEvent
  bots : List (BotId × KeyedBot)
  now : Nat
deriving DecidableEq

/-- next(item for item in store.events if item.id == entry.event_id). -/
def findEvent (events : List DeliveryEvent) (eventId : Nat) :
    Option DeliveryEvent :=
  events.find? (fun e => e.id = eventId)

/-- build_webhook_payload (api.py lines 1679-1687). -/
def buildWebhookPayload (s : DeliveryState) (entry : OutboxEntry) :
    WebhookPayload :=
  { id := entry.id
    webhookId := entry.webhookId
    event := findEvent s.events entry.eventId
    eventType := entry.eventType
    deliveredAt := s.now }

/-- The POST issued by webhook_delivery_job for one outbox entry (api.py
lines 1728-1754).  hmacSha256Hex abstracts hmac.new(key, message,
sha256).hexdigest() and serialize abstracts json.dumps: the claims are about
which key, which headers and which fields are used, not about the hash
internals.  The signing key is the API key of the bot referenced by the
delivered event (bot_id = event.bot_id, bot = store.bots.get(bot_id)); an
empty-string signature is used when the event or its bot is missing. -/
def deliveryRequest (hmacSha256Hex : String → String → String)
    (serialize : WebhookPayload → String) (s : DeliveryState)
    (entry : OutboxEntry) : HttpRequest :=
  let event := findEvent s.events entry.eventId
  let bot :=
    match event with
    | some e =>
      match e.botId with
      | some bid => alookup s.bots bid
      | none => none
    | none => none
  let payloadJson := serialize (buildWebhookPayload s entry)
  let signature :=
    match bot with
    | some b => hmacSha256Hex b.apiKey payloadJson
    | none => ""
  { url := entry.targetUrl
    headers := [("X-PrediClaw-Signature", signature),
      ("X-PrediClaw-Event", entry.eventType)]
    body := payloadJson }

/-- The environment-configurable delivery constants
WEBHOOK_BASE_BACKOFF_SECONDS and WEBHOOK_MAX_ATTEMPTS. -/
structure WebhookConfig where
  baseBackoff : Nat
  maxAttempts : Nat
deriving DecidableEq

/-- One iteration of the webhook_delivery_job loop body for one outbox entry
(api.py lines 1716-1772): the entry is skipped (second component false) when
its status is neither pending nor retrying or its next_attempt_at lies in
the future; otherwise it is attempted, the response (ok status code, or
error message on httpx.RequestError) is recorded, a 2xx marks it delivered,
and anything else increments attempts, schedules an exponential backoff and
marks the entry retrying, or failed once attempts reaches max_attempts. -/
def skipForFuture (nextAttemptAt : Option Nat) (now : Nat) : Bool :=
  match nextAttemptAt with
  | some t => now < t
  | none => false

/-- The retry bookkeeping after an attempt: a non-delivered entry has its
attempts counter incremented, its next attempt scheduled after
base_backoff times two to the power (attempts minus one) seconds, its status
set to retrying, and is marked failed once attempts reaches max_attempts. -/
def finishAttempt (cfg : WebhookConfig) (now : Nat) (e2 : OutboxEntry) :
    OutboxEntry × Bool :=
  if e2.status ≠ "delivered" then
    let e3 := { e2 with
      attempts := e2.attempts + 1
      nextAttemptAt :=
        some (now + cfg.baseBackoff * 2 ^ (e2.attempts + 1 - 1)) }
    if cfg.maxAttempts ≤ e3.attempts then ({ e3 with status := "failed" }, true)
    else (e3, true)
  else (e2, true)

def webhookStep (cfg : WebhookConfig) (now : Nat) (entry : OutboxEntry)
    (response : Except String Nat) : OutboxEntry × Bool :=
  if ¬ (entry.status = "pending" ∨ entry.status = "retrying") then (entry, false)
  else if skipForFuture entry.nextAttemptAt now then (entry, false)
  else
    finishAttempt cfg now
      (match response with
      | .ok code =>
        { entry with
          lastAttemptAt := some now
          lastResponseStatus := some code
          status :=
            (if 200 ≤ code ∧ code < 300 then "delivered" else "retrying") }
      | .error msg =>
        { entry with
          lastAttemptAt := some now
          lastError := some msg
          status := "retrying" })

/-- Iterated delivery ticks for one entry: folds webhookStep over a list of
(now, response) observations and counts how many times the entry was
actually attempted. -/
def runWebhookTicks (cfg : WebhookConfig) (entry : OutboxEntry)
    (ticks : List (Nat × Except String Nat)) : OutboxEntry × Nat :=
  ticks.foldl
    (fun acc t =>
      let r := webhookStep cfg t.1 acc.1 t.2
      (r.1, acc.2 + (if r.2 then 1 else 0)))
    (entry, 0)

/-! ### The market, ledger and settlement state machine (C1, C4, C5, C6, C7)

State-mutating endpoints are modelled as explicit state-passing functions
returning the final store state together with an Except carrying either the
response value or the HTTP status code of the raised HTTPException; store
mutations performed before a raise persist, exactly as they do on the
in-memory store of the Python service.  Event payload dicts are reduced to
the event type plus the market and bot references (payload contents affect
no claim), and events do not fan out outbox entries here: the outbox and
delivery machinery is modelled separately above. -/

inductive MarketStatus
  | «open» | closed | resolved
deriving DecidableEq

inductive ResolverPolicy
  | single | majority | consensus
deriving DecidableEq

inductive BotStatus
  | inactive | active | paused
deriving DecidableEq

/-- models.Bot (name and owner omitted: they affect no claim). -/
structure Bot where
  id : BotId
  walletBalanceBdc : ℚ
  reputationScore : ℚ
  apiKey : String
  status : BotStatus
deriving DecidableEq

/-- models.BotPolicy (notes omitted). -/
structure BotPolicy where
  status : BotStatus
  maxRequestsPerMinute : Nat
  maxActiveMarkets : Nat
  maxTradeBdc : ℚ
  maxMarketsPerDay : Nat
  maxResolutionsPerDay : Nat
  minBalanceBdcForMarket : ℚ
  minReputationScoreForMarket : ℚ
  minBalanceBdcForResolution : ℚ
  minReputationScoreForResolution : ℚ
  stakeBdcMarket : ℚ
  stakeBdcResolution : ℚ
deriving DecidableEq

/-- models.Market (title, description, category, created_at and stake_bdc
omitted: they affect no claim). -/
structure Market where
  id : MarketId
  creatorBotId : BotId
  status : MarketStatus
  outcomes : List OutcomeId
  closesAt : Nat
  resolvedAt : Option Nat
  resolverPolicy : ResolverPolicy
  outcomePools : List (OutcomeId × ℚ)
deriving DecidableEq

/-- models.Trade (id omitted). -/
structure Trade where
  marketId : MarketId
  botId : BotId
  outcomeId : OutcomeId
  amountBdc : ℚ
  price : ℚ
  timestamp : Nat
deriving DecidableEq

/-- models.LedgerEntry (id omitted). -/
structure LedgerEntry where
  botId : BotId
  marketId : Option MarketId
  deltaBdc : ℚ
  reason : String
  timestamp : Nat
deriving DecidableEq

/-- models.TreasuryLedgerEntry (id omitted). -/
structure TreasuryLedgerEntry where
  marketId : Option MarketId
  deltaBdc : ℚ
  reason : String
  timestamp : Nat
deriving DecidableEq

/-- models.TreasuryConfig. -/
structure TreasuryConfig where
  sendUnpaidToTreasury : Bool
  liquidityBotAllocationPct : ℚ
  liquidityBotWeights : List (BotId × ℚ)
deriving DecidableEq

/-- models.EvidenceItem (id, url, timestamp omitted). -/
structure EvidenceItem where
  source : String
  description : String
deriving DecidableEq

/-- models.Resolution. -/
structure Resolution where
  marketId : MarketId
  resolvedOutcomeId : OutcomeId
  resolverBotIds : List BotId
  evidence : List EvidenceItem
  timestamp : Nat
deriving DecidableEq

/-- models.Event reduced to type plus references. -/
structure Event where
  eventType : String
  marketId : Option MarketId
  botId : Option BotId
  timestamp : Nat
deriving DecidableEq

/-- The in-memory store of storage.InMemoryStore restricted to the state the
modelled endpoints touch.  Python dicts become association lists;
store.now() becomes the now field, constant within one request. -/
structure State where
  bots : List (BotId × Bot)
  botPolicies : List (BotId × BotPolicy)
  markets : List (MarketId × Market)
  trades : List Trade
  ledger : List LedgerEntry
  treasuryBalanceBdc : ℚ
  treasuryLedger : List TreasuryLedgerEntry
  treasuryConfig : TreasuryConfig
  resolutions : List (MarketId × Resolution)
  resolutionVotes : List (MarketId × List Vote)
  events : List Event
  requestLog : List (BotId × List Nat)
  actionLog : List ((BotId × String) × List Nat)
  now : Nat
deriving DecidableEq

def lookupBot (s : State) (id : BotId) : Option Bot := alookup s.bots id

def lookupMarket (s : State) (id : MarketId) : Option Market :=
  alookup s.markets id

def saveBot (s : State) (b : Bot) : State :=
  { s with bots := dictInsert s.bots b.id b }

def saveMarket (s : State) (m : Market) : State :=
  { s with markets := dictInsert s.markets m.id m }

def addLedgerEntry (s : State) (e : LedgerEntry) : State :=
  { s with ledger := s.ledger ++ [e] }

def addTreasuryEntry (s : State) (e : TreasuryLedgerEntry) : State :=
  { s with treasuryLedger := s.treasuryLedger ++ [e] }

def addEvent (s : State) (e : Event) : State :=
  { s with events := s.events ++ [e] }

def addTrade (s : State) (t : Trade) : State :=
  { s with trades := s.trades ++ [t] }

def sumSnd {α : Type} (l : List (α × ℚ)) : ℚ := (l.map Prod.snd).sum

/-- store.close_expired_markets applied to one market: an open market whose
closes_at has passed transitions to closed. -/
def closeOne (nowT : Nat) (m : Market) : Market :=
  if m.status = MarketStatus.«open» ∧ m.closesAt ≤ nowT then
    { m with status := MarketStatus.closed }
  else m

/-- store.close_expired_markets (storage.py lines 216-230): transitions every
expired open market to closed and emits a market_closed event for each. -/
def closeExpiredMarkets (s : State) : State :=
  { s with
    markets := s.markets.map (fun p => (p.1, closeOne s.now p.2))
    events := s.events ++
      ((s.markets.filter
          (fun p => p.2.status = MarketStatus.«open» ∧ p.2.closesAt ≤ s.now)).map
        (fun p =>
          { eventType := "market_closed"
            marketId := some p.1
            botId := some p.2.creatorBotId
            timestamp := s.now })) }

/-- record_alert reduced to its event emission (the alert list itself affects
no claim). -/
def recordAlert (s : State) (botId : Option BotId) : State :=
  addEvent s
    { eventType := "alert_triggered"
      marketId := none
      botId := botId
      timestamp := s.now }

/-- default_bot_policy with the documented environment defaults. -/
def defaultBotPolicy (status : BotStatus) : BotPolicy :=
  { status := status
    maxRequestsPerMinute := 60
    maxActiveMarkets := 5
    maxTradeBdc := 500
    maxMarketsPerDay := 0
    maxResolutionsPerDay := 0
    minBalanceBdcForMarket := 10
    minReputationScoreForMarket := 1
    minBalanceBdcForResolution := 10
    minReputationScoreForResolution := 1
    stakeBdcMarket := 0
    stakeBdcResolution := 0 }

/-- ensure_bot_policy (api.py lines 1951-1956). -/
def ensureBotPolicy (s : State) (bot : Bot) : State × BotPolicy :=
  match alookup s.botPolicies bot.id with
  | some p => (s, p)
  | none =>
    let p := defaultBotPolicy bot.status
    ({ s with botPolicies := dictInsert s.botPolicies bot.id p }, p)

/-- store.prune_bot_requests: drops expired timestamps from the front of the
per-bot request deque.  The Python cutoff test t < now - window is written
in the subtraction-free form t + window < now. -/
def pruneBotRequests (s : State) (botId : BotId) (windowSeconds : Nat) :
    List Nat :=
  (alookupD s.requestLog botId []).dropWhile
    (fun t => t + windowSeconds < s.now)

/-- store.prune_bot_actions with the 86400-second window. -/
def pruneBotActions (s : State) (botId : BotId) (action : String) : List Nat :=
  (alookupD s.actionLog (botId, action) []).dropWhile
    (fun t => t + 86400 < s.now)

/-- authenticate_bot (api.py lines 2128-2146) including enforce_rate_limit
(lines 1992-2007): id mismatch 403, missing bot 404, bad key 401, paused
policy 403, inactive policy 403 when requireActive, then the sliding-window
rate limit with its pruning persisted and the new timestamp appended on
success. -/
def authenticateBot (s : State) (actionBotId requestBotId : BotId)
    (apiKey : String) (requireActive : Bool) : State × Except Nat Bot :=
  if actionBotId ≠ requestBotId then (s, .error 403)
  else
    match lookupBot s actionBotId with
    | none => (s, .error 404)
    | some bot =>
      if bot.apiKey ≠ apiKey then (s, .error 401)
      else
        match ensureBotPolicy s bot with
        | (s1, policy) =>
          if policy.status = BotStatus.paused then (s1, .error 403)
          else if requireActive ∧ policy.status ≠ BotStatus.active then
            (s1, .error 403)
          else
            let entries := pruneBotRequests s1 bot.id 60
            let s2 := { s1 with
              requestLog := dictInsert s1.requestLog bot.id entries }
            if policy.maxRequestsPerMinute ≤ entries.length then
              (recordAlert s2 (some bot.id), .error 429)
            else
              ({ s2 with requestLog :=
                dictInsert s2.requestLog bot.id (entries ++ [s2.now]) },
                .ok bot)

/-- enforce_action_quota (api.py lines 2010-2027); limit zero means
unlimited. -/
def enforceActionQuota (s : State) (bot : Bot) (action : String)
    (maxPerDay : Nat) : State × Except Nat Unit :=
  if maxPerDay = 0 then (s, .ok ())
  else
    let entries := pruneBotActions s bot.id action
    let s1 := { s with
      actionLog := dictInsert s.actionLog (bot.id, action) entries }
    if maxPerDay ≤ entries.length then
      (recordAlert s1 (some bot.id), .error 429)
    else (s1, .ok ())

/-- record_action (api.py lines 2030-2032). -/
def recordAction (s : State) (bot : Bot) (action : String) : State :=
  let entries := pruneBotActions s bot.id action
  { s with
    actionLog := dictInsert s.actionLog (bot.id, action) (entries ++ [s.now]) }

/-- The wallet mutation, save_bot and add_ledger_entry triple used at every
bot balance mutation site of api.py (deposit, trade debit, stake debit,
payout credit, liquidity credit): the entry's delta is applied to the bot's
wallet and the entry is appended to the ledger. -/
def applyLedgerCredit (s : State) (bot : Bot) (entry : LedgerEntry) : State :=
  addLedgerEntry
    (saveBot s
      { bot with walletBalanceBdc := bot.walletBalanceBdc + entry.deltaBdc })
    entry

/-- apply_stake (api.py lines 2063-2101): no-op on a nonpositive stake,
403 on insufficient balance, otherwise debit the bot with a ledger entry and
credit the treasury with a mirrored positive treasury ledger entry. -/
def applyStake (s : State) (bot : Bot) (amountBdc : ℚ) (reason : String)
    (marketId : Option MarketId) : State × Except Nat Unit :=
  if amountBdc ≤ 0 then (s, .ok ())
  else if bot.walletBalanceBdc < amountBdc then
    (recordAlert s (some bot.id), .error 403)
  else
    let s1 := applyLedgerCredit s bot
      { botId := bot.id
        marketId := marketId
        deltaBdc := -amountBdc
        reason := reason
        timestamp := s.now }
    let s2 := { s1 with
      treasuryBalanceBdc := s1.treasuryBalanceBdc + amountBdc }
    (addTreasuryEntry s2
      { marketId := marketId
        deltaBdc := amountBdc
        reason := reason
        timestamp := s2.now }, .ok ())

/-- deposit_bdc (api.py lines 2311-2333). -/
def depositBdc (s : State) (botId : BotId) (amountBdc : ℚ) (reason : String)
    (apiKey : String) (requestBotId : BotId) : State × Except Nat Unit :=
  match authenticateBot s botId requestBotId apiKey false with
  | (s1, .error e) => (s1, .error e)
  | (s1, .ok bot) =>
    (applyLedgerCredit s1 bot
      { botId := bot.id
        marketId := none
        deltaBdc := amountBdc
        reason := reason
        timestamp := s1.now }, .ok ())

/-- create_trade (api.py lines 2540-2601). -/
def createTrade (s0 : State) (marketId : MarketId) (botId : BotId)
    (outcomeId : OutcomeId) (amountBdc : ℚ) (apiKey : String)
    (requestBotId : BotId) : State × Except Nat Trade :=
  let s := closeExpiredMarkets s0
  match lookupMarket s marketId with
  | none => (s, .error 404)
  | some market =>
    if market.status ≠ MarketStatus.«open» then (s, .error 409)
    else
      match authenticateBot s botId requestBotId apiKey true with
      | (s1, .error e) => (s1, .error e)
      | (s1, .ok bot) =>
        match ensureBotPolicy s1 bot with
        | (s2, policy) =>
          if outcomeId ∉ market.outcomes then (s2, .error 400)
          else if bot.walletBalanceBdc < amountBdc then (s2, .error 400)
          else if policy.maxTradeBdc < amountBdc then (s2, .error 403)
          else
            let market2 := { market with
              outcomePools :=
                dictInsert market.outcomePools outcomeId
                  (alookupD market.outcomePools outcomeId 0 + amountBdc) }
            let s3 := saveMarket
              (applyLedgerCredit s2 bot
                { botId := bot.id
                  marketId := some market.id
                  deltaBdc := -amountBdc
                  reason := "trade"
                  timestamp := s2.now })
              market2
            let totalPool := sumSnd market2.outcomePools
            let price := if totalPool ≠ 0 then
                alookupD market2.outcomePools outcomeId 0 / totalPool
              else 0
            let trade : Trade :=
              { marketId := market.id
                botId := bot.id
                outcomeId := outcomeId
                amountBdc := amountBdc
                price := price
                timestamp := s3.now }
            let s4 := addTrade s3 trade
            let s5 := addEvent s4
              { eventType := "price_changed"
                marketId := some market.id
                botId := some bot.id
                timestamp := s4.now }
            (s5, .ok trade)

/-- The payout loop of settle_market_resolution (api.py lines 1815-1832):
for every trade on the winning outcome, credit the trade's bot with
(amount / winning_pool) * total_pool and append a payout LedgerEntry;
get_bot_or_404 raises 404 on a missing bot, keeping prior mutations. -/
def payoutWinningTrades (s : State) (marketId : MarketId)
    (winner : OutcomeId) (winningPool totalPool : ℚ) :
    List Trade → State × Except Nat (List LedgerEntry)
  | [] => (s, .ok [])
  | t :: rest =>
    if t.outcomeId ≠ winner then
      payoutWinningTrades s marketId winner winningPool totalPool rest
    else
      match lookupBot s t.botId with
      | none => (s, .error 404)
      | some bot =>
        let entry : LedgerEntry :=
          { botId := t.botId
            marketId := some marketId
            deltaBdc := t.amountBdc / winningPool * totalPool
            reason := "payout"
            timestamp := s.now }
        match payoutWinningTrades (applyLedgerCredit s bot entry) marketId
            winner winningPool totalPool rest with
        | (s2, .error e) => (s2, .error e)
        | (s2, .ok entries) => (s2, .ok (entry :: entries))

/-- The liquidity distribution loop of settle_market_resolution (api.py
lines 1847-1864): each configured bot with positive weight receives
liquidity_distribution * (weight / weight_sum) when that amount is
positive, with a liquidity_distribution LedgerEntry. -/
def distributeLiquidity (s : State) (marketId : MarketId)
    (liquidityDistribution weightSum : ℚ) :
    List (BotId × ℚ) → State × Except Nat Unit
  | [] => (s, .ok ())
  | (bid, weight) :: rest =>
    if weight ≤ 0 then
      distributeLiquidity s marketId liquidityDistribution weightSum rest
    else
      let amount := liquidityDistribution * (weight / weightSum)
      if amount ≤ 0 then
        distributeLiquidity s marketId liquidityDistribution weightSum rest
      else
        match lookupBot s bid with
        | none => (s, .error 404)
        | some bot =>
          distributeLiquidity
            (applyLedgerCredit s bot
              { botId := bid
                marketId := some marketId
                deltaBdc := amount
                reason := "liquidity_distribution"
                timestamp := s.now })
            marketId liquidityDistribution weightSum rest

/-- Response of settle_market_resolution (market omitted: it is read back
from the state). -/
structure ResolveResponse where
  resolution : Resolution
  payouts : List LedgerEntry
deriving DecidableEq

/-- The recording phase of settle_market_resolution (api.py lines
1784-1810): save the resolved market, persist the Resolution, emit the
market_resolved event, and store the votes when present. -/
def recordResolution (s0 : State) (market2 : Market)
    (resolution : Resolution) (actorBotId : BotId) (votes : List Vote) :
    State :=
  let s1 := saveMarket s0 market2
  let s2 := { s1 with
    resolutions := dictInsert s1.resolutions resolution.marketId resolution }
  let s3 := addEvent s2
    { eventType := "market_resolved"
      marketId := some resolution.marketId
      botId := some actorBotId
      timestamp := s2.now }
  if votes ≠ [] then
    { s3 with
      resolutionVotes :=
        dictInsert s3.resolutionVotes resolution.marketId votes }
  else s3

/-- The monetary phase of settle_market_resolution (api.py lines
1812-1877): pay out winning trades when the winning pool is positive, then
on a positive remainder distribute the configured liquidity share and
credit the treasury with the rest if send_unpaid_to_treasury is set and the
rest is positive. -/
def settlePayouts (s4 : State) (market2 : Market) (resolution : Resolution) :
    State × Except Nat ResolveResponse :=
  let totalPool := sumSnd market2.outcomePools
  let winningPool :=
    alookupD market2.outcomePools resolution.resolvedOutcomeId 0
  let marketTrades :=
    s4.trades.filter (fun t => t.marketId = resolution.marketId)
  match (if 0 < winningPool then
      payoutWinningTrades s4 resolution.marketId
        resolution.resolvedOutcomeId winningPool totalPool marketTrades
    else (s4, .ok [])) with
  | (s5, .error e) => (s5, .error e)
  | (s5, .ok payouts) =>
    let totalPayoutAmount := (payouts.map (fun e => e.deltaBdc)).sum
    let remainder := totalPool - totalPayoutAmount
    if 0 < remainder then
      let config := s5.treasuryConfig
      let weightSum := sumSnd config.liquidityBotWeights
      let enabled := 0 < config.liquidityBotAllocationPct ∧
        config.liquidityBotWeights ≠ []
      let liquidityDistribution := if enabled ∧ 0 < weightSum then
          remainder * config.liquidityBotAllocationPct
        else 0
      match (if enabled ∧ 0 < weightSum then
          distributeLiquidity s5 resolution.marketId liquidityDistribution
            weightSum config.liquidityBotWeights
        else (s5, .ok ())) with
      | (s6, .error e) => (s6, .error e)
      | (s6, .ok _) =>
        let treasuryAmount := remainder - liquidityDistribution
        let s7 := if config.sendUnpaidToTreasury ∧ 0 < treasuryAmount then
            addTreasuryEntry
              { s6 with treasuryBalanceBdc :=
                s6.treasuryBalanceBdc + treasuryAmount }
              { marketId := some resolution.marketId
                deltaBdc := treasuryAmount
                reason := "resolution_remainder"
                timestamp := s6.now }
          else s6
        (s7, .ok { resolution := resolution, payouts := payouts })
    else (s5, .ok { resolution := resolution, payouts := payouts })

/-- settle_market_resolution (api.py lines 1775-1877), the composition of
the recording phase and the monetary phase. -/
def settleMarketResolution (s0 : State) (market : Market)
    (resolvedOutcomeId : OutcomeId) (resolverBotIds : List BotId)
    (actorBotId : BotId) (evidence : List EvidenceItem) (votes : List Vote) :
    State × Except Nat ResolveResponse :=
  let market2 := { market with
    status := MarketStatus.resolved
    resolvedAt := some s0.now }
  let resolution : Resolution :=
    { marketId := market.id
      resolvedOutcomeId := resolvedOutcomeId
      resolverBotIds := resolverBotIds
      evidence := evidence
      timestamp := s0.now }
  settlePayouts (recordResolution s0 market2 resolution actorBotId votes)
    market2 resolution

/-- The dropped settlement remainder of api.py lines 1834-1876: the part of
the remainder path that is credited nowhere, namely remainder minus the
liquidity share when the treasury credit is skipped because
send_unpaid_to_treasury is false or the amount is not positive. -/
def untrackedRemainder (totalPool totalPayout : ℚ) (config : TreasuryConfig) :
    ℚ :=
  let remainder := totalPool - totalPayout
  if 0 < remainder then
    let weightSum := sumSnd config.liquidityBotWeights
    let enabled := 0 < config.liquidityBotAllocationPct ∧
      config.liquidityBotWeights ≠ []
    let liquidityDistribution := if enabled ∧ 0 < weightSum then
        remainder * config.liquidityBotAllocationPct
      else 0
    let treasuryAmount := remainder - liquidityDistribution
    if config.sendUnpaidToTreasury ∧ 0 < treasuryAmount then 0
    else treasuryAmount
  else 0

/-- models.ResolutionRequest; a missing votes field is the empty list (the
code treats None and an empty list alike). -/
structure ResolutionRequest where
  resolverBotIds : List BotId
  resolvedOutcomeId : Option OutcomeId
  evidence : List EvidenceItem
  votes : List Vote
deriving DecidableEq

/-- The policy decision block of resolve_market (api.py lines 2832-2905):
single requires exactly one resolver and a known explicit outcome; majority
and consensus require at least two resolvers and exactly one vote per
listed resolver on known outcomes, then tally (weighted by the stored
reputation scores under consensus). -/
def resolutionDecision (s3 : State) (market : Market)
    (payload : ResolutionRequest) : Except Nat OutcomeId :=
  let rep := fun (rid : BotId) =>
    match lookupBot s3 rid with
    | some b => b.reputationScore
    | none => 0
  match market.resolverPolicy with
  | ResolverPolicy.single =>
    if payload.resolverBotIds.length ≠ 1 then .error 400
    else
      match payload.resolvedOutcomeId with
      | none => .error 400
      | some o =>
        if o ∉ market.outcomes then .error 400 else .ok o
  | _ =>
    if payload.resolverBotIds.length < 2 then .error 400
    else if payload.votes = [] then .error 400
    else if ¬ (payload.votes.map
        (fun v => v.resolverBotId)).Nodup then .error 400
    else if ¬ payload.resolverBotIds.all
        (fun rid => rid ∈ payload.votes.map
          (fun v => v.resolverBotId)) then .error 400
    else if ¬ payload.votes.all
        (fun v => v.resolverBotId ∈ payload.resolverBotIds ∧
          v.outcomeId ∈ market.outcomes) then .error 400
    else if market.resolverPolicy = ResolverPolicy.majority
      then majorityDecision payload.votes
    else consensusDecision payload.votes rep

/-- resolve_market (api.py lines 2786-2930): lazy close transition, already
resolved 409, duplicate resolvers 400, empty resolvers 400, caller not a
resolver 403, authentication with rate limit, stake/reputation gate with its
alert, resolution quota, existence of every resolver bot 404, the
policy-specific decision, the explicit-outcome agreement check 400, the
resolution stake, settlement, and the action record. -/
def resolveMarket (s0 : State) (marketId : MarketId)
    (payload : ResolutionRequest) (apiKey : String) (requestBotId : BotId) :
    State × Except Nat ResolveResponse :=
  let s := closeExpiredMarkets s0
  match lookupMarket s marketId with
  | none => (s, .error 404)
  | some market =>
    if market.status = MarketStatus.resolved then (s, .error 409)
    else if ¬ payload.resolverBotIds.Nodup then (s, .error 400)
    else if payload.resolverBotIds = [] then (s, .error 400)
    else if requestBotId ∉ payload.resolverBotIds then (s, .error 403)
    else
      match authenticateBot s requestBotId requestBotId apiKey true with
      | (s1, .error e) => (s1, .error e)
      | (s1, .ok actorBot) =>
        match ensureBotPolicy s1 actorBot with
        | (s2, policy) =>
          match enforceStakeRequirements actorBot.walletBalanceBdc
              actorBot.reputationScore policy.minBalanceBdcForResolution
              policy.minReputationScoreForResolution with
          | .error e => (recordAlert s2 (some actorBot.id), .error e)
          | .ok _ =>
            match enforceActionQuota s2 actorBot "resolve_market"
                policy.maxResolutionsPerDay with
            | (s3, .error e) => (s3, .error e)
            | (s3, .ok _) =>
              if ¬ payload.resolverBotIds.all
                  (fun rid => (lookupBot s3 rid).isSome) then (s3, .error 404)
              else
                match resolutionDecision s3 market payload with
                | .error e => (s3, .error e)
                | .ok resolvedOutcomeId =>
                  if payload.resolvedOutcomeId.any
                      (fun o => o != resolvedOutcomeId) then (s3, .error 400)
                  else
                    match applyStake s3 actorBot policy.stakeBdcResolution
                        "resolution_stake" (some market.id) with
                    | (s4, .error e) => (s4, .error e)
                    | (s4, .ok _) =>
                      match settleMarketResolution s4 market
                          resolvedOutcomeId payload.resolverBotIds
                          requestBotId payload.evidence
                          (if market.resolverPolicy = ResolverPolicy.single
                            then [] else payload.votes) with
                      | (s5, .error e) => (s5, .error e)
                      | (s5, .ok resp) =>
                        (recordAction s5 actorBot "resolve_market", .ok resp)

/-- The Python max over outcome_pools.items() with key (pool, outcome id):
tuple comparison prefers the larger pool and breaks pool ties towards the
lexicographically larger outcome id. -/
def maxPoolPair (x : OutcomeId × ℚ) (rest : List (OutcomeId × ℚ)) :
    OutcomeId × ℚ :=
  rest.foldl
    (fun best item =>
      if best.2 < item.2 ∨ (best.2 = item.2 ∧ best.1 < item.1) then item
      else best)
    x

/-- select_auto_resolve_outcome (api.py lines 1880-1886): initializes empty
pools to zero for every outcome (a mutation that persists on the market) and
picks the maximal (pool, outcome id) pair; the none case corresponds to the
Python max raising on a market without outcomes. -/
def selectAutoResolveOutcome (market : Market) : Market × Option OutcomeId :=
  let market2 := if market.outcomePools = [] then
      { market with outcomePools := market.outcomes.map (fun o => (o, (0:ℚ))) }
    else market
  match market2.outcomePools with
  | [] => (market2, none)
  | p :: rest => (market2, some (maxPoolPair p rest).1)

/-- The loop body sequence of auto_resolve_markets (api.py lines 1889-1909)
over a list of market ids: closed single-policy markets without a Resolution
are settled on the selected outcome with the creator as sole resolver and a
synthetic system/auto_resolve evidence item; an exception inside settlement
aborts the remaining iterations, keeping prior mutations. -/
def autoResolveList (s : State) : List MarketId → State × Except Nat Unit
  | [] => (s, .ok ())
  | mid :: rest =>
    match lookupMarket s mid with
    | none => autoResolveList s rest
    | some market =>
      if market.status ≠ MarketStatus.closed then autoResolveList s rest
      else if market.resolverPolicy ≠ ResolverPolicy.single then
        autoResolveList s rest
      else if (alookup s.resolutions market.id).isSome then
        autoResolveList s rest
      else
        match selectAutoResolveOutcome market with
        | (_, none) => autoResolveList s rest
        | (market2, some outcomeId) =>
          match settleMarketResolution s market2 outcomeId
              [market2.creatorBotId] market2.creatorBotId
              [{ source := "system", description := "auto_resolve" }] [] with
          | (s1, .error e) => (s1, .error e)
          | (s1, .ok _) => autoResolveList s1 rest

/-- auto_resolve_markets iterating over the stored markets. -/
def autoResolveMarkets (s : State) : State × Except Nat Unit :=
  autoResolveList s (s.markets.map Prod.fst)

/-- The stake ledger entries of a ledger: those appended by apply_stake
(reasons market_stake and resolution_stake). -/
def stakeEntries (l : List LedgerEntry) : List LedgerEntry :=
  l.filter (fun e => e.reason = "market_stake" ∨ e.reason = "resolution_stake")

/-- Store well-formedness: every trade's bot and every liquidity-weight bot
exists, liquidity weights are positive, and every stored market sits under
its own id as key. Settlement never raises under these assumptions. -/
def autoInv (s : State) : Prop :=
  (∀ t ∈ s.trades, (lookupBot s t.botId).isSome = true) ∧
  (∀ p ∈ s.treasuryConfig.liquidityBotWeights,
    0 < p.2 ∧ (lookupBot s p.1).isSome = true) ∧
  (∀ p ∈ s.markets, p.2.id = p.1)

/-- models.MarketCreateRequest (title, description, category omitted: they
influence no tracked behaviour). -/
structure MarketCreateRequest where
  creatorBotId : BotId
  outcomes : List OutcomeId
  closesAt : Nat
  resolverPolicy : ResolverPolicy
deriving DecidableEq

/-- create_market (api.py lines 2435-2489): authentication, stake and
reputation gate with its alert, daily quota, active-market limit, the
market-creation stake, then the market insertion, the market_created event
and the action record.  The fresh uuid4 id is an explicit parameter. -/
def createMarket (s : State) (payload : MarketCreateRequest)
    (apiKey : String) (requestBotId : BotId) (newId : MarketId) :
    State × Except Nat Market :=
  match authenticateBot s payload.creatorBotId requestBotId apiKey true with
  | (s1, .error e) => (s1, .error e)
  | (s1, .ok creator) =>
    match ensureBotPolicy s1 creator with
    | (s2, policy) =>
      match enforceStakeRequirements creator.walletBalanceBdc
          creator.reputationScore policy.minBalanceBdcForMarket
          policy.minReputationScoreForMarket with
      | .error e => (recordAlert s2 (some creator.id), .error e)
      | .ok _ =>
        match enforceActionQuota s2 creator "market_create"
            policy.maxMarketsPerDay with
        | (s3, .error e) => (s3, .error e)
        | (s3, .ok _) =>
          let openMarkets := (s3.markets.filter
            (fun p => p.2.creatorBotId = creator.id ∧
              p.2.status = MarketStatus.«open»)).length
          if policy.maxActiveMarkets ≠ 0 ∧
              policy.maxActiveMarkets ≤ openMarkets then
            (s3, .error 403)
          else
            match applyStake s3 creator policy.stakeBdcMarket
                "market_stake" none with
            | (s4, .error e) => (s4, .error e)
            | (s4, .ok _) =>
              let market : Market :=
                { id := newId
                  creatorBotId := creator.id
                  status := MarketStatus.«open»
                  outcomes := payload.outcomes
                  closesAt := payload.closesAt
                  resolvedAt := none
                  resolverPolicy := payload.resolverPolicy
                  outcomePools := [] }
              let s5 := saveMarket s4 market
              let s6 := addEvent s5
                { eventType := "market_created"
                  marketId := some newId
                  botId := some creator.id
                  timestamp := s5.now }
              (recordAction s6 creator "market_create", .ok market)

/-- The running sum of one bot's ledger deltas. -/
def ledgerSum (l : List LedgerEntry) (botId : BotId) : ℚ :=
  ((l.filter (fun e => e.botId = botId)).map (fun e => e.deltaBdc)).sum

/-- The running sum of the treasury ledger deltas. -/
def treasurySum (l : List TreasuryLedgerEntry) : ℚ :=
  (l.map (fun e => e.deltaBdc)).sum

/-- The audited-balance invariant of spec section 8: every stored bot sits
under its own id and its wallet equals the running sum of its ledger
deltas, and the treasury balance equals the running sum of the treasury
ledger deltas. -/
def balanced (s : State) : Prop :=
  (∀ p ∈ s.bots, p.2.id = p.1 ∧
    p.2.walletBalanceBdc = ledgerSum s.ledger p.1) ∧
  s.treasuryBalanceBdc = treasurySum s.treasuryLedger

/-- Two states agree on every money-bearing field. -/
def moneyEq (s s2 : State) : Prop :=
  s2.bots = s.bots ∧ s2.ledger = s.ledger ∧
  s2.treasuryBalanceBdc = s.treasuryBalanceBdc ∧
  s2.treasuryLedger = s.treasuryLedger

/-- One public operation of the service, carrying the request data of the
corresponding endpoint (and the fresh market id for creation). -/
inductive Op where
  | deposit (botId : BotId) (amountBdc : ℚ) (reason : String)
      (apiKey : String) (requestBotId : BotId)
  | trade (marketId : MarketId) (botId : BotId) (outcomeId : OutcomeId)
      (amountBdc : ℚ) (apiKey : String) (requestBotId : BotId)
  | createMkt (payload : MarketCreateRequest) (apiKey : String)
      (requestBotId : BotId) (newId : MarketId)
  | resolve (marketId : MarketId) (payload : ResolutionRequest)
      (apiKey : String) (requestBotId : BotId)
  | autoResolve

/-- The state reached by one public operation, error or not: mutations made
before an HTTP error persist, exactly as in the in-memory store. -/
def applyOp (s : State) : Op → State
  | .deposit b a r k rb => (depositBdc s b a r k rb).1
  | .trade m b o a k rb => (createTrade s m b o a k rb).1
  | .createMkt p k rb nid => (createMarket s p k rb nid).1
  | .resolve m p k rb => (resolveMarket s m p k rb).1
  | .autoResolve => (autoResolveMarkets s).1

/-- The state reached by a sequence of public operations. -/
def applyOps (s : State) (ops : List Op) : State :=
  ops.foldl applyOp s

/-- Fixture: an active trading bot holding 50 BDC. -/
def tradeBot : Bot :=
  { id := 1, walletBalanceBdc := 50, reputationScore := 0, apiKey := "k",
    status := BotStatus.active }

/-- Fixture: an open two-outcome market with empty pools. -/
def tradeMarket : Market :=
  { id := 10, creatorBotId := 1, status := MarketStatus.«open»,
    outcomes := ["YES", "NO"], closesAt := 1000, resolvedAt := none,
    resolverPolicy := ResolverPolicy.single,
    outcomePools := [("YES", 0), ("NO", 0)] }

/-- Fixture: the store holding tradeBot and tradeMarket. -/
def tradeState : State :=
  { bots := [(1, tradeBot)]
    botPolicies := [(1, defaultBotPolicy BotStatus.active)]
    markets := [(10, tradeMarket)]
    trades := []
    ledger := []
    treasuryBalanceBdc := 0
    treasuryLedger := []
    treasuryConfig :=
      { sendUnpaidToTreasury := true
        liquidityBotAllocationPct := 0
        liquidityBotWeights := [] }
    resolutions := []
    resolutionVotes := []
    events := []
    requestLog := []
    actionLog := []
    now := 100 }

/-- Fixture: the market after a 20 BDC YES trade, for the second pricing
example. -/
def tradeState2 : State :=
  { tradeState with
    markets := [(10, { tradeMarket with
      outcomePools := [("YES", 20), ("NO", 0)] })] }

/-- Fixture: the store holding an already resolved market. -/
def resolvedState : State :=
  { tradeState with
    markets := [(10, { tradeMarket with
      status := MarketStatus.resolved
      resolvedAt := some 50 })] }

/-- Fixture: a closed single-resolver market whose pools tie at 5 on
outcomes A and B. -/
def tieMarket : Market :=
  { id := 20, creatorBotId := 1, status := MarketStatus.closed,
    outcomes := ["A", "B"], closesAt := 50, resolvedAt := none,
    resolverPolicy := ResolverPolicy.single,
    outcomePools := [("A", 5), ("B", 5)] }

/-- Fixture: a well-formed store holding only the tied market. -/
def tieState : State :=
  { bots := []
    botPolicies := []
    markets := [(20, tieMarket)]
    trades := []
    ledger := []
    treasuryBalanceBdc := 0
    treasuryLedger := []
    treasuryConfig :=
      { sendUnpaidToTreasury := true
        liquidityBotAllocationPct := 0
        liquidityBotWeights := [] }
    resolutions := []
    resolutionVotes := []
    events := []
    requestLog := []
    actionLog := []
    now := 100 }

/-- Fixture: a settled bot holding the winning trade. -/
def settleBot1 : Bot :=
  { id := 1, walletBalanceBdc := 0, reputationScore := 0, apiKey := "k1",
    status := BotStatus.active }

/-- Fixture: the bot holding the losing trade. -/
def settleBot2 : Bot :=
  { id := 2, walletBalanceBdc := 0, reputationScore := 0, apiKey := "k2",
    status := BotStatus.active }

/-- Fixture: a closed market with 20 BDC on YES and 10 BDC on NO. -/
def settleMarketFx : Market :=
  { id := 30, creatorBotId := 1, status := MarketStatus.closed,
    outcomes := ["YES", "NO"], closesAt := 50, resolvedAt := none,
    resolverPolicy := ResolverPolicy.single,
    outcomePools := [("YES", 20), ("NO", 10)] }

/-- Fixture: the winning trade backing the YES pool. -/
def settleTrade1 : Trade :=
  { marketId := 30, botId := 1, outcomeId := "YES", amountBdc := 20,
    price := 1, timestamp := 10 }

/-- Fixture: the losing trade backing the NO pool. -/
def settleTrade2 : Trade :=
  { marketId := 30, botId := 2, outcomeId := "NO", amountBdc := 10,
    price := 1/3, timestamp := 11 }

/-- Fixture: the store holding the settlement scenario. -/
def settleStateFx : State :=
  { bots := [(1, settleBot1), (2, settleBot2)], botPolicies := [],
    markets := [(30, settleMarketFx)],
    trades := [settleTrade1, settleTrade2],
    ledger := [], treasuryBalanceBdc := 0, treasuryLedger := [],
    treasuryConfig :=
      { sendUnpaidToTreasury := true, liquidityBotAllocationPct := 0,
        liquidityBotWeights := [] },
    resolutions := [], resolutionVotes := [], events := [], requestLog := [],
    actionLog := [], now := 100 }

/-- Fixture: the active bot of the balanced store. -/
def balancedBotFx : Bot :=
  { id := 1, walletBalanceBdc := 0, reputationScore := 0, apiKey := "kb",
    status := BotStatus.active }

/-- Fixture: a balanced store holding one active bot with an empty ledger. -/
def balancedStateFx : State :=
  { bots := [(1, balancedBotFx)],
    botPolicies := [], markets := [], trades := [], ledger := [],
    treasuryBalanceBdc := 0, treasuryLedger := [],
    treasuryConfig :=
      { sendUnpaidToTreasury := true, liquidityBotAllocationPct := 0,
        liquidityBotWeights := [] },
    resolutions := [], resolutionVotes := [], events := [], requestLog := [],
    actionLog := [], now := 0 }

/-! ### Lemmas about association lists, tallies and the max scan -/

theorem alookup_mem {α β : Type} [DecidableEq α] (l : List (α × β)) (k : α)
    (v : β) (h : alookup l k = some v) : (k, v) ∈ l := by
  induction l with
  | nil => simp [alookup] at h
  | cons p rest ih =>
    by_cases hp : p.1 = k
    · simp only [alookup, if_pos hp, Option.some.injEq] at h
      rw [List.mem_cons]
      left
      rw [← hp, ← h]
    · simp only [alookup, if_neg hp] at h
      exact List.mem_cons_of_mem _ (ih h)

theorem alookup_eq_of_mem {α β : Type} [DecidableEq α] (l : List (α × β))
    (h : (l.map Prod.fst).Nodup) {k : α} {v : β} (hm : (k, v) ∈ l) :
    alookup l k = some v := by
  induction l with
  | nil => simp at hm
  | cons p rest ih =>
    simp only [List.map_cons, List.nodup_cons] at h
    rw [List.mem_cons] at hm
    rcases hm with hm | hm
    · rw [← hm]
      simp [alookup]
    · have hk : ¬ p.1 = k := by
        intro hc
        apply h.1
        rw [hc]
        exact List.mem_map_of_mem Prod.fst hm
      simp only [alookup, if_neg hk]
      exact ih h.2 hm

theorem maxBySnd_step {β : Type} [LinearOrder β] (x y : OutcomeId × β)
    (ys : List (OutcomeId × β)) :
    maxBySnd x (y :: ys) = maxBySnd (if x.2 < y.2 then y else x) ys := by
  simp only [maxBySnd, List.foldl_cons]

theorem maxBySnd_mem {β : Type} [LinearOrder β] (x : OutcomeId × β)
    (rest : List (OutcomeId × β)) : maxBySnd x rest ∈ x :: rest := by
  induction rest generalizing x with
  | nil => simp [maxBySnd]
  | cons y ys ih =>
    rw [maxBySnd_step]
    have h1 := ih (if x.2 < y.2 then y else x)
    rw [List.mem_cons] at h1
    rcases h1 with h1 | h1
    · rw [h1]
      by_cases h : x.2 < y.2
      · simp [h]
      · simp [h]
    · simp only [List.mem_cons]
      right; right; exact h1

theorem maxBySnd_ge {β : Type} [LinearOrder β] (x : OutcomeId × β)
    (rest : List (OutcomeId × β)) :
    ∀ q ∈ x :: rest, q.2 ≤ (maxBySnd x rest).2 := by
  induction rest generalizing x with
  | nil =>
    intro q hq
    rw [List.mem_cons] at hq
    rcases hq with hq | hq
    · rw [hq]; simp [maxBySnd]
    · simp at hq
  | cons y ys ih =>
    intro q hq
    rw [maxBySnd_step]
    rw [List.mem_cons, List.mem_cons] at hq
    by_cases h : x.2 < y.2
    · simp only [if_pos h]
      rcases hq with hq | hq | hq
      · rw [hq]
        exact le_trans (le_of_lt h) (ih y y (List.mem_cons_self y ys))
      · rw [hq]
        exact ih y y (List.mem_cons_self y ys)
      · exact ih y q (List.mem_cons_of_mem y hq)
    · simp only [if_neg h]
      rcases hq with hq | hq | hq
      · rw [hq]
        exact ih x x (List.mem_cons_self x ys)
      · rw [hq]
        exact le_trans (le_of_not_lt h) (ih x x (List.mem_cons_self x ys))
      · exact ih x q (List.mem_cons_of_mem x hq)

theorem alookupD_bumpAdd {β : Type} [AddCommMonoid β]
    (t : List (OutcomeId × β)) (o k : OutcomeId) (w : β) :
    alookupD (bumpAdd t o w) k 0 =
      alookupD t k 0 + (if k = o then w else 0) := by
  induction t with
  | nil =>
    by_cases h : k = o
    · rw [h]
      simp [bumpAdd, alookupD, alookup]
    · have h2 : ¬ o = k := fun hc => h hc.symm
      simp [bumpAdd, alookupD, alookup, h, h2]
  | cons p rest ih =>
    by_cases hp : p.1 = o
    · simp only [bumpAdd, if_pos hp]
      by_cases hk : k = o
      · rw [hk]
        have hpk : p.1 = k := by rw [hp, hk]
        simp [alookupD, alookup, hp, ← hk, hpk]
      · have h2 : ¬ o = k := fun hc => hk hc.symm
        have h3 : ¬ p.1 = k := by rw [hp]; exact h2
        simp [alookupD, alookup, h2, h3, hk]
    · simp only [bumpAdd, if_neg hp]
      by_cases hk : p.1 = k
      · have h2 : ¬ k = o := by rw [← hk]; exact hp
        simp [alookupD, alookup, hk, h2]
      · simp only [alookupD, alookup, if_neg hk] at ih ⊢
        exact ih

theorem sumBy_cons {β : Type} [AddCommMonoid β] (v : Vote) (rest : List Vote)
    (f : Vote → β) (o : OutcomeId) :
    sumBy (v :: rest) f o =
      (if v.outcomeId = o then f v else 0) + sumBy rest f o := by
  by_cases h : v.outcomeId = o <;> simp [sumBy, List.filter_cons, h]

theorem alookupD_tallyBy {β : Type} [AddCommMonoid β] (votes : List Vote)
    (f : Vote → β) (k : OutcomeId) :
    alookupD (tallyBy votes f) k 0 = sumBy votes f k := by
  suffices h : ∀ t : List (OutcomeId × β),
      alookupD (votes.foldl (fun t v => bumpAdd t v.outcomeId (f v)) t) k 0 =
        alookupD t k 0 + sumBy votes f k by
    have h2 := h []
    simpa [tallyBy, alookupD, alookup] using h2
  induction votes with
  | nil => intro t; simp [sumBy]
  | cons v rest ih =>
    intro t
    simp only [List.foldl_cons]
    rw [ih, alookupD_bumpAdd, sumBy_cons]
    by_cases h : k = v.outcomeId
    · have h2 : v.outcomeId = k := h.symm
      rw [if_pos h, if_pos h2, add_assoc]
    · have h2 : ¬ v.outcomeId = k := fun hc => h hc.symm
      rw [if_neg h, if_neg h2, add_zero, zero_add]

theorem bumpAdd_keys_sub {β : Type} [Add β] (t : List (OutcomeId × β))
    (o : OutcomeId) (w : β) :
    ∀ p ∈ bumpAdd t o w, p.1 ∈ t.map Prod.fst ∨ p.1 = o := by
  induction t with
  | nil =>
    intro p hp
    simp only [bumpAdd, List.mem_singleton] at hp
    right; rw [hp]
  | cons q rest ih =>
    intro p hp
    by_cases hq : q.1 = o
    · simp only [bumpAdd, if_pos hq] at hp
      rw [List.mem_cons] at hp
      rcases hp with hp | hp
      · right; rw [hp]
      · left
        simp only [List.map_cons, List.mem_cons]
        right
        exact List.mem_map_of_mem Prod.fst hp
    · simp only [bumpAdd, if_neg hq] at hp
      rw [List.mem_cons] at hp
      rcases hp with hp | hp
      · left
        simp only [List.map_cons, List.mem_cons]
        left; rw [hp]
      · rcases ih p hp with h | h
        · left
          simp only [List.map_cons, List.mem_cons]
          right; exact h
        · right; exact h

theorem bumpAdd_keys_nodup {β : Type} [Add β] (t : List (OutcomeId × β))
    (o : OutcomeId) (w : β) (h : (t.map Prod.fst).Nodup) :
    ((bumpAdd t o w).map Prod.fst).Nodup := by
  induction t with
  | nil => simp [bumpAdd]
  | cons q rest ih =>
    simp only [List.map_cons, List.nodup_cons] at h
    by_cases hq : q.1 = o
    · simp only [bumpAdd, if_pos hq, List.map_cons, List.nodup_cons]
      constructor
      · rw [← hq]; exact h.1
      · exact h.2
    · simp only [bumpAdd, if_neg hq, List.map_cons, List.nodup_cons]
      constructor
      · intro hc
        rw [List.mem_map] at hc
        obtain ⟨p, hp, hpk⟩ := hc
        rcases bumpAdd_keys_sub rest o w p hp with hmem | heq
        · exact h.1 (hpk ▸ hmem)
        · exact hq (hpk.symm.trans heq)
      · exact ih h.2

theorem tallyBy_keys_nodup {β : Type} [Add β] (votes : List Vote)
    (f : Vote → β) : ((tallyBy votes f).map Prod.fst).Nodup := by
  suffices h : ∀ t : List (OutcomeId × β), (t.map Prod.fst).Nodup →
      (((votes.foldl (fun t v => bumpAdd t v.outcomeId (f v)) t)).map
        Prod.fst).Nodup by
    exact h [] (by simp)
  induction votes with
  | nil => intro t ht; simpa using ht
  | cons v rest ih =>
    intro t ht
    simp only [List.foldl_cons]
    exact ih _ (bumpAdd_keys_nodup t v.outcomeId (f v) ht)

theorem mem_tallyBy {β : Type} [AddCommMonoid β] (votes : List Vote)
    (f : Vote → β) (p : OutcomeId × β) (hp : p ∈ tallyBy votes f) :
    p.2 = sumBy votes f p.1 := by
  have h1 : alookup (tallyBy votes f) p.1 = some p.2 :=
    alookup_eq_of_mem _ (tallyBy_keys_nodup votes f) hp
  have h2 := alookupD_tallyBy votes f p.1
  rw [alookupD, h1] at h2
  simpa using h2

theorem bumpAdd_ne_nil {β : Type} [Add β] (t : List (OutcomeId × β))
    (o : OutcomeId) (w : β) : bumpAdd t o w ≠ [] := by
  cases t with
  | nil => simp [bumpAdd]
  | cons p rest => by_cases h : p.1 = o <;> simp [bumpAdd, h]

theorem tallyBy_ne_nil {β : Type} [Add β] (votes : List Vote) (f : Vote → β)
    (hne : votes ≠ []) : tallyBy votes f ≠ [] := by
  obtain ⟨v, rest, rfl⟩ : ∃ v rest, votes = v :: rest := by
    cases votes with
    | nil => exact absurd rfl hne
    | cons v rest => exact ⟨v, rest, rfl⟩
  suffices h : ∀ (l : List Vote) (t : List (OutcomeId × β)), t ≠ [] →
      l.foldl (fun t v => bumpAdd t v.outcomeId (f v)) t ≠ [] by
    simp only [tallyBy, List.foldl_cons]
    exact h rest _ (bumpAdd_ne_nil [] _ _)
  intro l
  induction l with
  | nil => intro t ht; simpa using ht
  | cons u us ih =>
    intro t ht
    simp only [List.foldl_cons]
    exact ih _ (bumpAdd_ne_nil t _ _)

theorem countOutcome_cons (v : Vote) (rest : List Vote) (o : OutcomeId) :
    countOutcome (v :: rest) o =
      (if v.outcomeId = o then 1 else 0) + countOutcome rest o := by
  by_cases h : v.outcomeId = o <;>
    simp [countOutcome, List.filter_cons, h, Nat.add_comm]

theorem sumBy_one_eq_count (votes : List Vote) (o : OutcomeId) :
    sumBy votes (fun _ => (1 : Nat)) o = countOutcome votes o := by
  induction votes with
  | nil => simp [sumBy, countOutcome]
  | cons v rest ih =>
    rw [sumBy_cons, countOutcome_cons, ih]

theorem countOutcome_add_le (votes : List Vote) {o o2 : OutcomeId}
    (h : o ≠ o2) :
    countOutcome votes o + countOutcome votes o2 ≤ votes.length := by
  induction votes with
  | nil => simp [countOutcome]
  | cons v rest ih =>
    rw [countOutcome_cons, countOutcome_cons, List.length_cons]
    by_cases h1 : v.outcomeId = o
    · have h2 : ¬ v.outcomeId = o2 := fun hc => h (h1.symm.trans hc)
      rw [if_pos h1, if_neg h2]
      omega
    · rw [if_neg h1]
      by_cases h2 : v.outcomeId = o2
      · rw [if_pos h2]; omega
      · rw [if_neg h2]; omega

theorem weightOutcome_le_total (votes : List Vote) (rep : BotId → ℚ)
    (hrep : ∀ b, 0 ≤ rep b) (o : OutcomeId) :
    weightOutcome votes rep o ≤ totalWeight votes rep := by
  induction votes with
  | nil => simp [weightOutcome, sumBy, totalWeight]
  | cons v rest ih =>
    simp only [weightOutcome, totalWeight] at ih ⊢
    rw [sumBy_cons]
    simp only [List.map_cons, List.sum_cons]
    by_cases h : v.outcomeId = o
    · rw [if_pos h]
      exact add_le_add_left ih _
    · rw [if_neg h, zero_add]
      have := hrep v.resolverBotId
      linarith

theorem weightOutcome_add_le (votes : List Vote) (rep : BotId → ℚ)
    (hrep : ∀ b, 0 ≤ rep b) {o o2 : OutcomeId} (h : o ≠ o2) :
    weightOutcome votes rep o + weightOutcome votes rep o2 ≤
      totalWeight votes rep := by
  induction votes with
  | nil => simp [weightOutcome, sumBy, totalWeight]
  | cons v rest ih =>
    simp only [weightOutcome, totalWeight] at ih ⊢
    rw [sumBy_cons, sumBy_cons]
    simp only [List.map_cons, List.sum_cons]
    have hw := hrep v.resolverBotId
    by_cases h1 : v.outcomeId = o
    · have h2 : ¬ v.outcomeId = o2 := fun hc => h (h1.symm.trans hc)
      rw [if_pos h1, if_neg h2]
      linarith
    · rw [if_neg h1]
      by_cases h2 : v.outcomeId = o2
      · rw [if_pos h2]
        linarith
      · rw [if_neg h2]
        linarith

/-! ### C2: majority policy -/

/-- C2 theorem. Majority policy decision: with a nonempty vote list, any
outcome holding strictly more votes than half the total vote count is the
decided winner, and when no outcome has strictly more votes than half the
total vote count (ties included) the decision fails with status 409 and no
outcome is produced. -/
theorem majority_decision_correct (votes : List Vote) (hne : votes ≠ []) :
    (∀ o : OutcomeId, votes.length < 2 * countOutcome votes o →
        majorityDecision votes = .ok o) ∧
      ((∀ o : OutcomeId, 2 * countOutcome votes o ≤ votes.length) →
        majorityDecision votes = .error 409) := by
  obtain ⟨p, rest, htally⟩ :
      ∃ p rest, tallyBy votes (fun _ => (1 : Nat)) = p :: rest := by
    cases h : tallyBy votes (fun _ => (1 : Nat)) with
    | nil => exact absurd h (tallyBy_ne_nil votes _ hne)
    | cons p rest => exact ⟨p, rest, rfl⟩
  have hmcount :
      (maxBySnd p rest).2 = countOutcome votes (maxBySnd p rest).1 := by
    have hmem : maxBySnd p rest ∈ tallyBy votes (fun _ => (1 : Nat)) := by
      rw [htally]; exact maxBySnd_mem p rest
    rw [mem_tallyBy votes _ _ hmem, sumBy_one_eq_count]
  constructor
  · intro o ho
    have hl : alookup (tallyBy votes (fun _ => (1 : Nat))) o =
        some (countOutcome votes o) := by
      have hd := alookupD_tallyBy votes (fun _ => (1 : Nat)) o
      rw [sumBy_one_eq_count] at hd
      cases hl2 : alookup (tallyBy votes (fun _ => (1 : Nat))) o with
      | none =>
        exfalso
        rw [alookupD, hl2] at hd
        simp at hd
        omega
      | some c =>
        rw [alookupD, hl2] at hd
        simp at hd
        rw [hd]
    have hmem : (o, countOutcome votes o) ∈ tallyBy votes (fun _ => (1 : Nat)) :=
      alookup_mem _ _ _ hl
    rw [htally] at hmem
    have hge : countOutcome votes o ≤ (maxBySnd p rest).2 :=
      maxBySnd_ge p rest _ hmem
    rw [hmcount] at hge
    have hwin : (maxBySnd p rest).1 = o := by
      by_contra hneq
      have hsum := countOutcome_add_le votes hneq
      omega
    have hnat : votes.length < (maxBySnd p rest).2 * 2 := by
      rw [hmcount, hwin]; omega
    have hnotle : ¬ (((maxBySnd p rest).2 : ℚ) ≤ (votes.length : ℚ) / 2) := by
      rw [not_le, div_lt_iff₀ (by norm_num : (0:ℚ) < 2)]
      exact_mod_cast hnat
    rw [majorityDecision, htally, majorityFromTally, if_neg hnotle, hwin]
  · intro hall
    have hle : (((maxBySnd p rest).2 : ℚ) ≤ (votes.length : ℚ) / 2) := by
      rw [le_div_iff₀ (by norm_num : (0:ℚ) < 2)]
      have := hall (maxBySnd p rest).1
      rw [← hmcount] at this
      exact_mod_cast by omega
    rw [majorityDecision, htally, majorityFromTally, if_pos hle]

/-- C2 witness: the spec examples. Votes A three, B two among five resolvers
decide A; two votes on A, two on B and one on C fail with 409. -/
theorem majority_decision_correct_witness :
    majorityDecision
        [⟨1, "A"⟩, ⟨2, "A"⟩, ⟨3, "A"⟩, ⟨4, "B"⟩, ⟨5, "B"⟩] = .ok "A" ∧
      majorityDecision
        [⟨1, "A"⟩, ⟨2, "A"⟩, ⟨3, "B"⟩, ⟨4, "B"⟩, ⟨5, "C"⟩] = .error 409 := by
  constructor
  · exact (majority_decision_correct _ (by decide)).1 "A" (by decide)
  · refine (majority_decision_correct _ (by decide)).2 ?_
    intro o
    have hc : countOutcome
        [⟨1, "A"⟩, ⟨2, "A"⟩, ⟨3, "B"⟩, ⟨4, "B"⟩, ⟨5, "C"⟩] o ≤ 2 := by
      by_cases hA : "A" = o
      · rw [← hA]; decide
      · by_cases hB : "B" = o
        · rw [← hB]; decide
        · by_cases hC : "C" = o
          · rw [← hC]; decide
          · have hz : countOutcome
                [⟨1, "A"⟩, ⟨2, "A"⟩, ⟨3, "B"⟩, ⟨4, "B"⟩, ⟨5, "C"⟩] o = 0 := by
              simp [countOutcome, List.filter_cons, hA, hB, hC]
            omega
    simp only [List.length_cons, List.length_nil]
    omega

/-! ### C3: consensus policy -/

/-- C3 theorem. Consensus policy decision: votes are weighted by the voting
resolver reputation score; with nonnegative reputations, an outcome whose
summed weight strictly exceeds half the total weight is the decided winner;
when the total weight is not positive the decision fails with 400; when the
total weight is positive but no outcome strictly exceeds half of it the
decision fails with 409. -/
theorem consensus_decision_correct (votes : List Vote) (rep : BotId → ℚ)
    (hrep : ∀ b, 0 ≤ rep b) :
    (totalWeight votes rep ≤ 0 → consensusDecision votes rep = .error 400) ∧
      (∀ o : OutcomeId,
        totalWeight votes rep < 2 * weightOutcome votes rep o →
          consensusDecision votes rep = .ok o) ∧
      (0 < totalWeight votes rep →
        (∀ o : OutcomeId,
            2 * weightOutcome votes rep o ≤ totalWeight votes rep) →
          consensusDecision votes rep = .error 409) := by
  refine ⟨?_, ?_, ?_⟩
  · intro h
    rw [consensusDecision, if_pos h]
  · intro o ho
    have hwo : weightOutcome votes rep o ≤ totalWeight votes rep :=
      weightOutcome_le_total votes rep hrep o
    have hpos : 0 < totalWeight votes rep := by linarith
    have hne : votes ≠ [] := by
      intro hnil
      rw [hnil] at hpos
      simp [totalWeight] at hpos
    obtain ⟨p, rest, htally⟩ :
        ∃ p rest, tallyBy votes (fun v => rep v.resolverBotId) = p :: rest := by
      cases h : tallyBy votes (fun v => rep v.resolverBotId) with
      | nil => exact absurd h (tallyBy_ne_nil votes _ hne)
      | cons p rest => exact ⟨p, rest, rfl⟩
    have hmw : (maxBySnd p rest).2
        = weightOutcome votes rep (maxBySnd p rest).1 := by
      have hmem : maxBySnd p rest ∈ tallyBy votes (fun v => rep v.resolverBotId) := by
        rw [htally]; exact maxBySnd_mem p rest
      exact mem_tallyBy votes _ _ hmem
    have hl : alookup (tallyBy votes (fun v => rep v.resolverBotId)) o =
        some (weightOutcome votes rep o) := by
      have hd := alookupD_tallyBy votes (fun v => rep v.resolverBotId) o
      cases hl2 : alookup (tallyBy votes (fun v => rep v.resolverBotId)) o with
      | none =>
        exfalso
        rw [alookupD, hl2] at hd
        simp at hd
        rw [weightOutcome] at ho
        rw [← hd] at ho
        linarith
      | some c =>
        rw [alookupD, hl2] at hd
        simp at hd
        rw [hd]
        rfl
    have hmem : (o, weightOutcome votes rep o) ∈
        tallyBy votes (fun v => rep v.resolverBotId) := alookup_mem _ _ _ hl
    rw [htally] at hmem
    have hge : weightOutcome votes rep o ≤ (maxBySnd p rest).2 :=
      maxBySnd_ge p rest _ hmem
    rw [hmw] at hge
    have hwin : (maxBySnd p rest).1 = o := by
      by_contra hneq
      have hsum := weightOutcome_add_le votes rep hrep hneq
      linarith
    have hnotle : ¬ ((maxBySnd p rest).2 ≤ totalWeight votes rep / 2) := by
      rw [not_le, hmw, hwin]
      linarith
    rw [consensusDecision, if_neg (by linarith : ¬ totalWeight votes rep ≤ 0),
      htally, consensusFromTally, if_neg hnotle, hwin]
  · intro hpos hall
    have hne : votes ≠ [] := by
      intro hnil
      rw [hnil] at hpos
      simp [totalWeight] at hpos
    obtain ⟨p, rest, htally⟩ :
        ∃ p rest, tallyBy votes (fun v => rep v.resolverBotId) = p :: rest := by
      cases h : tallyBy votes (fun v => rep v.resolverBotId) with
      | nil => exact absurd h (tallyBy_ne_nil votes _ hne)
      | cons p rest => exact ⟨p, rest, rfl⟩
    have hmw : (maxBySnd p rest).2
        = weightOutcome votes rep (maxBySnd p rest).1 := by
      have hmem : maxBySnd p rest ∈ tallyBy votes (fun v => rep v.resolverBotId) := by
        rw [htally]; exact maxBySnd_mem p rest
      exact mem_tallyBy votes _ _ hmem
    have hle : (maxBySnd p rest).2 ≤ totalWeight votes rep / 2 := by
      rw [hmw]
      have := hall (maxBySnd p rest).1
      linarith
    rw [consensusDecision, if_neg (by linarith : ¬ totalWeight votes rep ≤ 0),
      htally, consensusFromTally, if_pos hle]

/-- C3 witness: a resolver with reputation 2 voting NO outweighs a resolver
with reputation 1 voting YES, so the decision is NO. -/
theorem consensus_decision_correct_witness :
    consensusDecision [⟨1, "NO"⟩, ⟨2, "YES"⟩]
      (fun b => if b = 1 then 2 else 1) = .ok "NO" := by
  refine ((consensus_decision_correct _ _ ?_).2.1) "NO" ?_
  · intro b
    by_cases h : b = 1 <;> simp [h]
  · have hYN : ¬ ("YES" : String) = "NO" := by decide
    norm_num [totalWeight, weightOutcome, sumBy, List.filter_cons, hYN]

/-! ### C10: threshold gate conjunction -/

/-- C10 theorem. The minimum balance / minimum reputation gate used by market
creation and resolution rejects with 403 exactly when the wallet balance is
below the minimum balance AND the reputation score is below the minimum
reputation; a bot meeting either one of the two thresholds passes the gate. -/
theorem enforce_stake_requirements_conjunction
    (balance reputation minBalance minReputation : ℚ) :
    (enforceStakeRequirements balance reputation minBalance minReputation =
        .error 403 ↔ balance < minBalance ∧ reputation < minReputation) ∧
      (minBalance ≤ balance ∨ minReputation ≤ reputation →
        enforceStakeRequirements balance reputation minBalance minReputation =
          .ok ()) := by
  constructor
  · constructor
    · intro h
      by_contra hc
      rw [enforceStakeRequirements, if_neg hc] at h
      exact absurd h (by simp)
    · intro h
      rw [enforceStakeRequirements, if_pos h]
  · intro h
    have hc : ¬ (balance < minBalance ∧ reputation < minReputation) := by
      rcases h with h | h
      · intro hc; exact absurd hc.1 (not_lt.mpr h)
      · intro hc; exact absurd hc.2 (not_lt.mpr h)
    rw [enforceStakeRequirements, if_neg hc]

/-- C10 witness: a bot below both thresholds is rejected with 403, while a
bot with zero balance but sufficient reputation passes the gate. -/
theorem enforce_stake_requirements_conjunction_witness :
    enforceStakeRequirements 5 0 10 1 = .error 403 ∧
      enforceStakeRequirements 0 5 10 1 = .ok () :=
  ⟨(enforce_stake_requirements_conjunction 5 0 10 1).1.mpr
      ⟨by norm_num, by norm_num⟩,
    (enforce_stake_requirements_conjunction 0 5 10 1).2
      (Or.inr (by norm_num))⟩

/-- A failed entry is skipped untouched by a single tick. -/
theorem webhookStep_failed (cfg : WebhookConfig) (now : Nat)
    (entry : OutboxEntry) (response : Except String Nat)
    (h : entry.status = "failed") :
    webhookStep cfg now entry response = (entry, false) := by
  rw [webhookStep.eq_def, if_pos]
  rw [h]
  refine fun hc => ?_
  rcases hc with hc | hc <;> simp at hc

/-- C9 theorem. Webhook retry discipline: an eligible entry (pending or
retrying, next_attempt_at not in the future) that receives a non-2xx
response or a transport error has its attempts counter incremented and
next_attempt_at set to now plus base_backoff times two to the power
(attempts minus one), with status retrying, or failed as soon as the new
attempts count reaches max_attempts; and an entry whose status is failed is
never attempted again on any sequence of later delivery ticks. -/
theorem webhook_retry_discipline (cfg : WebhookConfig) (now : Nat)
    (entry : OutboxEntry) (response : Except String Nat)
    (hstatus : entry.status = "pending" ∨ entry.status = "retrying")
    (hready : match entry.nextAttemptAt with
      | some t => t ≤ now
      | none => True)
    (hfail : match response with
      | .ok code => code < 200 ∨ 300 ≤ code
      | .error _ => True) :
    ((webhookStep cfg now entry response).1.attempts = entry.attempts + 1 ∧
      (webhookStep cfg now entry response).1.nextAttemptAt =
        some (now + cfg.baseBackoff * 2 ^ entry.attempts) ∧
      (webhookStep cfg now entry response).1.status =
        (if cfg.maxAttempts ≤ entry.attempts + 1 then "failed"
          else "retrying") ∧
      (webhookStep cfg now entry response).2 = true) ∧
      (∀ (failedEntry : OutboxEntry), failedEntry.status = "failed" →
        ∀ ticks : List (Nat × Except String Nat),
          runWebhookTicks cfg failedEntry ticks = (failedEntry, 0)) := by
  have hne : ("retrying" : String) ≠ "delivered" := by decide
  constructor
  · have hnotskip : ¬ ¬ (entry.status = "pending" ∨ entry.status = "retrying") :=
      not_not_intro hstatus
    have hskip : skipForFuture entry.nextAttemptAt now = false := by
      cases hna : entry.nextAttemptAt with
      | none => simp [skipForFuture]
      | some t =>
        rw [hna] at hready
        simp only [skipForFuture]
        rw [decide_eq_false_iff_not]
        exact not_lt.mpr hready
    rw [webhookStep.eq_def, if_neg hnotskip,
      if_neg (by simp [hskip] : ¬ skipForFuture entry.nextAttemptAt now = true)]
    cases response with
    | ok code =>
      have hcode : ¬ (200 ≤ code ∧ code < 300) := by
        simp only at hfail
        omega
      simp only [if_neg hcode]
      by_cases hmax : cfg.maxAttempts ≤ entry.attempts + 1
      · simp [finishAttempt, hmax, hne]
      · simp [finishAttempt, hmax, hne]
    | error msg =>
      by_cases hmax : cfg.maxAttempts ≤ entry.attempts + 1
      · simp [finishAttempt, hmax, hne]
      · simp [finishAttempt, hmax, hne]
  · intro failedEntry hfe ticks
    induction ticks with
    | nil => rfl
    | cons t rest ih =>
      rw [runWebhookTicks, List.foldl_cons,
        webhookStep_failed cfg t.1 failedEntry t.2 hfe]
      simpa [runWebhookTicks] using ih

/-- C9 witness: a retrying entry on its fifth and final allowed attempt
receives a 500 and transitions to failed with the expected backoff, and a
failed entry survives two further ticks unattempted. -/
theorem webhook_retry_discipline_witness :
    ((webhookStep ⟨30, 5⟩ 100
        ⟨7, 1, 2, "price_changed", "http://t", "retrying", 4, none,
          some 90, none, none⟩ (.ok 500)).1.attempts = 4 + 1 ∧
      (webhookStep ⟨30, 5⟩ 100
        ⟨7, 1, 2, "price_changed", "http://t", "retrying", 4, none,
          some 90, none, none⟩ (.ok 500)).1.nextAttemptAt =
          some (100 + 30 * 2 ^ 4) ∧
      (webhookStep ⟨30, 5⟩ 100
        ⟨7, 1, 2, "price_changed", "http://t", "retrying", 4, none,
          some 90, none, none⟩ (.ok 500)).1.status =
          (if (5:Nat) ≤ 4 + 1 then "failed" else "retrying") ∧
      (webhookStep ⟨30, 5⟩ 100
        ⟨7, 1, 2, "price_changed", "http://t", "retrying", 4, none,
          some 90, none, none⟩ (.ok 500)).2 = true) ∧
      (∀ (failedEntry : OutboxEntry), failedEntry.status = "failed" →
        ∀ ticks : List (Nat × Except String Nat),
          runWebhookTicks ⟨30, 5⟩ failedEntry ticks = (failedEntry, 0)) :=
  webhook_retry_discipline ⟨30, 5⟩ 100
    ⟨7, 1, 2, "price_changed", "http://t", "retrying", 4, none,
      some 90, none, none⟩ (.ok 500)
    (Or.inr rfl) (by decide) (by decide)

/-- C8 counterexample. The delivery attempt carries no header named
X-Signature (the code uses X-PrediClaw-Signature), and the signature is
keyed by the API key of the bot referenced by the event, not by the API key
of the bot that owns the webhook registration: with the event bot holding
key eventkey and the registration owner holding key ownerkey, instantiating
the abstract HMAC with a function returning its key shows the value used is
eventkey. -/
theorem webhook_wire_contract_counterexample :
    (∀ h ∈ (deliveryRequest (fun k _ => k) (fun _ => "")
        ⟨[⟨2, "price_changed", some 1⟩],
          [(1, ⟨1, "eventkey"⟩), (5, ⟨5, "ownerkey"⟩)], 100⟩
        ⟨7, 9, 2, "price_changed", "http://t", "pending", 0, none, none,
          none, none⟩).headers, h.1 ≠ "X-Signature") ∧
      alookup (deliveryRequest (fun k _ => k) (fun _ => "")
        ⟨[⟨2, "price_changed", some 1⟩],
          [(1, ⟨1, "eventkey"⟩), (5, ⟨5, "ownerkey"⟩)], 100⟩
        ⟨7, 9, 2, "price_changed", "http://t", "pending", 0, none, none,
          none, none⟩).headers "X-PrediClaw-Signature" = some "eventkey" ∧
      ("eventkey" : String) ≠ "ownerkey" := by
  refine ⟨?_, by decide, by decide⟩
  intro h hh
  fin_cases hh <;> decide

/-- C8 theorem (amended). Webhook wire contract: every delivery attempt
POSTs to the outbox entry target URL with a header named
X-PrediClaw-Signature whose value is the hex HMAC-SHA256 of the serialized
JSON body keyed by the API key of the bot referenced by the delivered event,
alongside an X-PrediClaw-Event header, and the JSON body is the payload
carrying id, webhook_id, event, event_type and delivered_at. -/
theorem webhook_wire_contract (hmacSha256Hex : String → String → String)
    (serialize : WebhookPayload → String) (s : DeliveryState)
    (entry : OutboxEntry) (e : DeliveryEvent)
    (he : findEvent s.events entry.eventId = some e) (bid : BotId)
    (hbid : e.botId = some bid) (b : KeyedBot)
    (hb : alookup s.bots bid = some b) :
    deliveryRequest hmacSha256Hex serialize s entry =
      { url := entry.targetUrl
        headers := [("X-PrediClaw-Signature",
            hmacSha256Hex b.apiKey (serialize (buildWebhookPayload s entry))),
          ("X-PrediClaw-Event", entry.eventType)]
        body := serialize (buildWebhookPayload s entry) } ∧
      buildWebhookPayload s entry =
        { id := entry.id
          webhookId := entry.webhookId
          event := some e
          eventType := entry.eventType
          deliveredAt := s.now } := by
  constructor
  · rw [deliveryRequest]
    simp only [he, hbid, hb]
  · rw [buildWebhookPayload, he]

/-- C8 witness: the amended wire contract evaluated on the concrete state of
the counterexample. -/
theorem webhook_wire_contract_witness :
    deliveryRequest (fun k _ => k) (fun _ => "body")
      ⟨[⟨2, "price_changed", some 1⟩], [(1, ⟨1, "eventkey"⟩)], 100⟩
      ⟨7, 9, 2, "price_changed", "http://t", "pending", 0, none, none,
        none, none⟩ =
      { url := "http://t"
        headers := [("X-PrediClaw-Signature", "eventkey"),
          ("X-PrediClaw-Event", "price_changed")]
        body := "body" } :=
  ((webhook_wire_contract (fun k _ => k) (fun _ => "body")
    ⟨[⟨2, "price_changed", some 1⟩], [(1, ⟨1, "eventkey"⟩)], 100⟩
    ⟨7, 9, 2, "price_changed", "http://t", "pending", 0, none, none,
      none, none⟩
    ⟨2, "price_changed", some 1⟩ (by decide) 1 rfl
    ⟨1, "eventkey"⟩ (by decide)).1)

/-! ### Association list and state lemmas -/

theorem alookup_eq_none_of_not_any {α β : Type} [DecidableEq α]
    (l : List (α × β)) (k : α) (h : ¬ l.any (fun p => p.1 = k)) :
    alookup l k = none := by
  induction l with
  | nil => rfl
  | cons p rest ih =>
    have hp : ¬ p.1 = k := by
      intro hc
      exact h (by simp [List.any_cons, hc])
    rw [alookup, if_neg hp]
    apply ih
    intro hc
    apply h
    simp only [List.any_cons, Bool.or_eq_true]
    right
    exact hc

theorem map_replace_eq_self {α β : Type} [DecidableEq α]
    (l : List (α × β)) (k : α) (x : α × β)
    (h : ¬ l.any (fun p => p.1 = k)) :
    l.map (fun p => if p.1 = k then x else p) = l := by
  induction l with
  | nil => rfl
  | cons p rest ih =>
    have hp : ¬ p.1 = k := by
      intro hc
      exact h (by simp [List.any_cons, hc])
    rw [List.map_cons, if_neg hp]
    rw [ih (by
      intro hc
      apply h
      simp only [List.any_cons, Bool.or_eq_true]
      right
      exact hc)]

theorem alookup_dictInsert_self {α β : Type} [DecidableEq α]
    (l : List (α × β)) (k : α) (v : β) :
    alookup (dictInsert l k v) k = some v := by
  rw [dictInsert]
  by_cases h : l.any (fun p => p.1 = k)
  · rw [if_pos h]
    induction l with
    | nil => simp at h
    | cons p rest ih =>
      by_cases hp : p.1 = k
      · simp [alookup, hp]
      · rw [List.map_cons, if_neg hp, alookup, if_neg hp]
        apply ih
        simp only [List.any_cons, Bool.or_eq_true] at h
        rcases h with h | h
        · exact absurd (by simpa using h) hp
        · exact h
  · rw [if_neg h]
    induction l with
    | nil => simp [alookup]
    | cons p rest ih =>
      have hp : ¬ p.1 = k := by
        intro hc
        exact h (by simp [List.any_cons, hc])
      rw [List.cons_append, alookup, if_neg hp]
      apply ih
      intro hc
      apply h
      simp only [List.any_cons, Bool.or_eq_true]
      right
      exact hc

theorem alookup_dictInsert_other {α β : Type} [DecidableEq α]
    (l : List (α × β)) (k k2 : α) (v : β) (hk : k2 ≠ k) :
    alookup (dictInsert l k v) k2 = alookup l k2 := by
  rw [dictInsert]
  by_cases h : l.any (fun p => p.1 = k)
  · rw [if_pos h]
    induction l with
    | nil => rfl
    | cons p rest ih =>
      by_cases hp : p.1 = k
      · have hp2 : ¬ k = k2 := fun hc => hk hc.symm
        have hp3 : ¬ p.1 = k2 := by rw [hp]; exact hp2
        rw [List.map_cons, if_pos hp, alookup, if_neg hp2, alookup,
          if_neg hp3]
        by_cases hrest : rest.any (fun p => p.1 = k)
        · exact ih hrest
        · rw [map_replace_eq_self rest k (k, v) hrest]
      · rw [List.map_cons, if_neg hp, alookup, alookup]
        by_cases hpk2 : p.1 = k2
        · rw [if_pos hpk2, if_pos hpk2]
        · rw [if_neg hpk2, if_neg hpk2]
          by_cases hrest : rest.any (fun p => p.1 = k)
          · exact ih hrest
          · rw [map_replace_eq_self rest k (k, v) hrest]
  · rw [if_neg h]
    induction l with
    | nil =>
      have hkv : ¬ ((k, v).1 = k2) := fun hc => hk hc.symm
      simp [alookup, hkv]
    | cons p rest ih =>
      rw [List.cons_append, alookup, alookup]
      by_cases hpk2 : p.1 = k2
      · rw [if_pos hpk2, if_pos hpk2]
      · rw [if_neg hpk2, if_neg hpk2]
        apply ih
        intro hc
        apply h
        simp only [List.any_cons, Bool.or_eq_true]
        right
        exact hc

theorem sumSnd_nonneg {α : Type} (l : List (α × ℚ))
    (h : ∀ p ∈ l, 0 ≤ p.2) : 0 ≤ sumSnd l := by
  induction l with
  | nil => simp [sumSnd]
  | cons p rest ih =>
    rw [sumSnd, List.map_cons, List.sum_cons]
    have h1 := h p (List.mem_cons_self p rest)
    have h2 : 0 ≤ sumSnd rest := ih (fun q hq => h q (List.mem_cons_of_mem p hq))
    rw [sumSnd] at h2
    linarith

theorem sumSnd_dictInsert_bump {α : Type} [DecidableEq α]
    (l : List (α × ℚ)) (k : α) (a : ℚ)
    (hnodup : (l.map Prod.fst).Nodup) :
    sumSnd (dictInsert l k (alookupD l k 0 + a)) = sumSnd l + a := by
  rw [dictInsert]
  by_cases h : l.any (fun p => p.1 = k)
  · rw [if_pos h]
    induction l with
    | nil => simp at h
    | cons p rest ih =>
      simp only [List.map_cons, List.nodup_cons] at hnodup
      by_cases hp : p.1 = k
      · have hrest : ¬ rest.any (fun q => q.1 = k) := by
          intro hc
          simp only [List.any_eq_true, decide_eq_true_eq] at hc
          obtain ⟨q, hq, hqk⟩ := hc
          exact hnodup.1 (by
            rw [hp, ← hqk]
            exact List.mem_map_of_mem Prod.fst hq)
        rw [List.map_cons, if_pos hp,
          map_replace_eq_self rest k _ hrest]
        rw [alookupD, alookup, if_pos hp]
        simp only [Option.getD_some]
        rw [sumSnd, sumSnd, List.map_cons, List.map_cons, List.sum_cons,
          List.sum_cons]
        ring
      · rw [List.map_cons, if_neg hp]
        rw [alookupD, alookup, if_neg hp]
        have hrest : rest.any (fun q => q.1 = k) := by
          simp only [List.any_cons, Bool.or_eq_true] at h
          rcases h with h | h
          · exact absurd (by simpa using h) hp
          · exact h
        have ihr := ih hnodup.2 hrest
        rw [alookupD] at ihr
        rw [sumSnd, List.map_cons, List.sum_cons, ← sumSnd, ihr]
        simp only [sumSnd, List.map_cons, List.sum_cons]
        ring
  · rw [if_neg h]
    rw [alookupD, alookup_eq_none_of_not_any l k h]
    simp only [Option.getD_none]
    rw [sumSnd, sumSnd, List.map_append, List.sum_append]
    simp

theorem lookupBot_closeExpired (s : State) (botId : BotId) :
    lookupBot (closeExpiredMarkets s) botId = lookupBot s botId := rfl

theorem alookup_map_value {α β : Type} [DecidableEq α]
    (l : List (α × β)) (f : β → β) (k : α) :
    alookup (l.map (fun p => (p.1, f p.2))) k = (alookup l k).map f := by
  induction l with
  | nil => rfl
  | cons p rest ih =>
    by_cases hp : p.1 = k
    · simp [alookup, hp]
    · simp only [List.map_cons, alookup, if_neg hp]
      exact ih

theorem lookupMarket_closeExpired (s : State) (mid : MarketId) :
    lookupMarket (closeExpiredMarkets s) mid =
      (lookupMarket s mid).map (closeOne s.now) := by
  rw [lookupMarket, lookupMarket, closeExpiredMarkets]
  exact alookup_map_value s.markets (closeOne s.now) mid

theorem closeOne_pools (t : Nat) (m : Market) :
    (closeOne t m).outcomePools = m.outcomePools := by
  rw [closeOne]
  by_cases h : m.status = MarketStatus.«open» ∧ m.closesAt ≤ t
  · rw [if_pos h]
  · rw [if_neg h]

theorem closeOne_resolved (t : Nat) (m : Market)
    (h : m.status = MarketStatus.resolved) : closeOne t m = m := by
  rw [closeOne, if_neg]
  intro hc
  rw [h] at hc
  exact absurd hc.1 (by simp)

/-- authenticate_bot on the successful path: matching ids and key, existing
policy neither paused nor blocking, rate limit not exceeded; the state
change is the pruned request log with the new timestamp appended. -/
theorem authenticateBot_ok (s : State) (botId : BotId) (apiKey : String)
    (requireActive : Bool) (bot : Bot) (policy : BotPolicy)
    (hb : lookupBot s botId = some bot)
    (hkey : bot.apiKey = apiKey)
    (hpol : alookup s.botPolicies bot.id = some policy)
    (hnotpaused : policy.status ≠ BotStatus.paused)
    (hact : requireActive → policy.status = BotStatus.active)
    (hrate : (pruneBotRequests s bot.id 60).length <
      policy.maxRequestsPerMinute) :
    authenticateBot s botId botId apiKey requireActive =
      ({ s with
          requestLog :=
            dictInsert
              (dictInsert s.requestLog bot.id (pruneBotRequests s bot.id 60))
              bot.id (pruneBotRequests s bot.id 60 ++ [s.now]) },
        .ok bot) := by
  rw [authenticateBot.eq_def]
  rw [if_neg (by simp : ¬ (botId ≠ botId))]
  simp only [hb]
  rw [if_neg (by rw [hkey]; simp)]
  have hens : ensureBotPolicy s bot = (s, policy) := by
    rw [ensureBotPolicy, hpol]
  simp only [hens]
  rw [if_neg hnotpaused]
  rw [if_neg (by
    intro hc
    exact hc.2 (hact hc.1))]
  rw [if_neg (not_le.mpr hrate)]

/-! ### C4: trade postcondition and after-update pricing -/

/-- C4 theorem. Trade postcondition: on an open market with a valid outcome,
an authenticated active bot with sufficient balance and an amount within the
per-trade policy limit, create_trade debits the bot's wallet by the amount,
adds the amount to the outcome pool, records a Trade whose price equals the
updated outcome pool divided by the sum of all pools computed after the
update, emits a price_changed event, and appends a ledger entry with delta
minus the amount and reason trade. -/
theorem create_trade_correct (s0 : State) (marketId : MarketId)
    (botId : BotId) (outcomeId : OutcomeId) (amountBdc : ℚ) (apiKey : String)
    (market : Market) (bot : Bot) (policy : BotPolicy)
    (hm : lookupMarket (closeExpiredMarkets s0) marketId = some market)
    (hmid : market.id = marketId)
    (hopen : market.status = MarketStatus.«open»)
    (hb : lookupBot s0 botId = some bot)
    (hbid : bot.id = botId)
    (hkey : bot.apiKey = apiKey)
    (hpol : alookup s0.botPolicies botId = some policy)
    (hactive : policy.status = BotStatus.active)
    (hrate : (pruneBotRequests (closeExpiredMarkets s0) botId 60).length <
      policy.maxRequestsPerMinute)
    (houtcome : outcomeId ∈ market.outcomes)
    (hbal : amountBdc ≤ bot.walletBalanceBdc)
    (hlimit : amountBdc ≤ policy.maxTradeBdc)
    (hamt : 0 < amountBdc)
    (hpools : ∀ p ∈ market.outcomePools, 0 ≤ p.2)
    (hnodup : (market.outcomePools.map Prod.fst).Nodup) :
    ∃ trade : Trade,
      (createTrade s0 marketId botId outcomeId amountBdc apiKey botId).2 =
        .ok trade ∧
      trade.price =
        alookupD (dictInsert market.outcomePools outcomeId
            (alookupD market.outcomePools outcomeId 0 + amountBdc))
          outcomeId 0 /
          sumSnd (dictInsert market.outcomePools outcomeId
            (alookupD market.outcomePools outcomeId 0 + amountBdc)) ∧
      trade.amountBdc = amountBdc ∧
      trade.outcomeId = outcomeId ∧
      trade.botId = botId ∧
      trade.marketId = marketId ∧
      lookupBot
          (createTrade s0 marketId botId outcomeId amountBdc apiKey botId).1
          botId =
        some { bot with
          walletBalanceBdc := bot.walletBalanceBdc - amountBdc } ∧
      lookupMarket
          (createTrade s0 marketId botId outcomeId amountBdc apiKey botId).1
          marketId =
        some { market with
          outcomePools := dictInsert market.outcomePools outcomeId
            (alookupD market.outcomePools outcomeId 0 + amountBdc) } ∧
      (createTrade s0 marketId botId outcomeId amountBdc apiKey botId).1.trades
        = (closeExpiredMarkets s0).trades ++ [trade] ∧
      (createTrade s0 marketId botId outcomeId amountBdc apiKey botId).1.events
        = (closeExpiredMarkets s0).events ++
          [{ eventType := "price_changed"
             marketId := some marketId
             botId := some botId
             timestamp := s0.now }] ∧
      (createTrade s0 marketId botId outcomeId amountBdc apiKey botId).1.ledger
        = s0.ledger ++
          [{ botId := botId
             marketId := some marketId
             deltaBdc := -amountBdc
             reason := "trade"
             timestamp := s0.now }] := by
  have hauth := authenticateBot_ok (closeExpiredMarkets s0) botId apiKey true
    bot policy hb hkey (by rw [hbid]; exact hpol)
    (by rw [hactive]; simp) (fun _ => hactive) (by rw [hbid]; exact hrate)
  rw [createTrade.eq_def]
  simp only [hm]
  rw [if_neg (by rw [hopen]; simp)]
  simp only [hauth]
  have hens : ensureBotPolicy
      { closeExpiredMarkets s0 with
        requestLog :=
          dictInsert
            (dictInsert (closeExpiredMarkets s0).requestLog bot.id
              (pruneBotRequests (closeExpiredMarkets s0) bot.id 60))
            bot.id
            (pruneBotRequests (closeExpiredMarkets s0) bot.id 60 ++
              [(closeExpiredMarkets s0).now]) } bot =
      ({ closeExpiredMarkets s0 with
        requestLog :=
          dictInsert
            (dictInsert (closeExpiredMarkets s0).requestLog bot.id
              (pruneBotRequests (closeExpiredMarkets s0) bot.id 60))
            bot.id
            (pruneBotRequests (closeExpiredMarkets s0) bot.id 60 ++
              [(closeExpiredMarkets s0).now]) }, policy) := by
    rw [ensureBotPolicy]
    have : alookup (closeExpiredMarkets s0).botPolicies bot.id = some policy := by
      rw [hbid]
      exact hpol
    rw [show ({ closeExpiredMarkets s0 with
        requestLog :=
          dictInsert
            (dictInsert (closeExpiredMarkets s0).requestLog bot.id
              (pruneBotRequests (closeExpiredMarkets s0) bot.id 60))
            bot.id
            (pruneBotRequests (closeExpiredMarkets s0) bot.id 60 ++
              [(closeExpiredMarkets s0).now]) } : State).botPolicies =
        (closeExpiredMarkets s0).botPolicies from rfl]
    rw [this]
  simp only [hens]
  rw [if_neg (by simp [houtcome])]
  rw [if_neg (not_lt.mpr hbal)]
  rw [if_neg (not_lt.mpr hlimit)]
  have hsum : sumSnd (dictInsert market.outcomePools outcomeId
      (alookupD market.outcomePools outcomeId 0 + amountBdc)) =
      sumSnd market.outcomePools + amountBdc :=
    sumSnd_dictInsert_bump market.outcomePools outcomeId amountBdc hnodup
  have htot : sumSnd (dictInsert market.outcomePools outcomeId
      (alookupD market.outcomePools outcomeId 0 + amountBdc)) ≠ 0 := by
    rw [hsum]
    have := sumSnd_nonneg market.outcomePools hpools
    linarith
  refine ⟨_, rfl, ?_, rfl, rfl, hbid, hmid, ?_, ?_, rfl, ?_, ?_⟩
  · simp only [if_pos htot]
  · rw [← hbid]
    simp only [lookupBot, addEvent, addTrade, saveMarket, applyLedgerCredit,
      addLedgerEntry, saveBot]
    rw [alookup_dictInsert_self, sub_eq_add_neg]
  · rw [← hmid]
    simp only [lookupMarket, addEvent, addTrade, saveMarket,
      applyLedgerCredit, addLedgerEntry, saveBot]
    rw [alookup_dictInsert_self]
  · rw [← hbid, ← hmid]
    rfl
  · rw [← hbid, ← hmid]
    rfl

/-- C4 witness: a first trade of 20 BDC on YES in an empty market is priced
1.0, and a 10 BDC trade on NO against a 20 BDC YES pool is priced 10/30. -/
theorem create_trade_correct_witness :
    (∃ t : Trade, (createTrade tradeState 10 1 "YES" 20 "k" 1).2 = .ok t ∧
      t.price = 1) ∧
    (∃ t : Trade, (createTrade tradeState2 10 1 "NO" 10 "k" 1).2 = .ok t ∧
      t.price = 10 / 30) := by
  constructor
  · obtain ⟨t, h1, h2, -⟩ := create_trade_correct tradeState 10 1 "YES" 20 "k"
      tradeMarket tradeBot (defaultBotPolicy BotStatus.active)
      (by decide) (by decide) (by decide) (by decide) (by decide) (by decide)
      (by decide) (by decide) (by decide) (by decide) (by decide) (by decide)
      (by decide) (by decide) (by decide)
    refine ⟨t, h1, ?_⟩
    have hNY : ¬ ("NO" : String) = "YES" := by decide
    have hYN : ¬ ("YES" : String) = "NO" := by decide
    rw [h2]
    norm_num [tradeMarket, alookupD, alookup, dictInsert, sumSnd, hNY, hYN]
  · obtain ⟨t, h1, h2, -⟩ := create_trade_correct tradeState2 10 1 "NO" 10 "k"
      { tradeMarket with outcomePools := [("YES", 20), ("NO", 0)] }
      tradeBot (defaultBotPolicy BotStatus.active)
      (by decide) (by decide) (by decide) (by decide) (by decide) (by decide)
      (by decide) (by decide) (by decide) (by decide) (by decide) (by decide)
      (by decide) (by decide) (by decide)
    refine ⟨t, h1, ?_⟩
    have hNY : ¬ ("NO" : String) = "YES" := by decide
    have hYN : ¬ ("YES" : String) = "NO" := by decide
    rw [h2]
    norm_num [tradeMarket, alookupD, alookup, dictInsert, sumSnd, hNY, hYN]

/-! ### C5: at-most-one resolution with conflict atomicity -/

/-- C5 theorem. Resolving an already-resolved market fails with 409 for any
payload, key and caller; the failed call performs only the lazy
close-expired sweep, which leaves every bot balance, the ledger, the
treasury, every stored Resolution, the resolved market itself, and the
outcome pools of every market unchanged, and charges no resolution stake. -/
theorem resolve_already_resolved (s0 : State) (marketId : MarketId)
    (payload : ResolutionRequest) (apiKey : String) (requestBotId : BotId)
    (market : Market) (hm : lookupMarket s0 marketId = some market)
    (hres : market.status = MarketStatus.resolved) :
    resolveMarket s0 marketId payload apiKey requestBotId =
      (closeExpiredMarkets s0, .error 409) ∧
    (closeExpiredMarkets s0).bots = s0.bots ∧
    (closeExpiredMarkets s0).ledger = s0.ledger ∧
    (closeExpiredMarkets s0).resolutions = s0.resolutions ∧
    (closeExpiredMarkets s0).treasuryBalanceBdc = s0.treasuryBalanceBdc ∧
    (closeExpiredMarkets s0).treasuryLedger = s0.treasuryLedger ∧
    lookupMarket (closeExpiredMarkets s0) marketId = some market ∧
    (∀ (mid2 : MarketId) (m2 : Market), lookupMarket s0 mid2 = some m2 →
      ∃ m3 : Market, lookupMarket (closeExpiredMarkets s0) mid2 = some m3 ∧
        m3.outcomePools = m2.outcomePools) := by
  have hclose : lookupMarket (closeExpiredMarkets s0) marketId =
      some market := by
    rw [lookupMarket_closeExpired, hm]
    simp [closeOne_resolved _ _ hres]
  refine ⟨?_, rfl, rfl, rfl, rfl, rfl, hclose, ?_⟩
  · rw [resolveMarket.eq_def]
    simp only [hclose]
    rw [if_pos hres]
  · intro mid2 m2 hm2
    refine ⟨closeOne s0.now m2, ?_, closeOne_pools s0.now m2⟩
    rw [lookupMarket_closeExpired, hm2]
    rfl

/-- C5 witness: a resolve call on a resolved market answers 409 and leaves
the store as the close-expired sweep left it. -/
theorem resolve_already_resolved_witness :
    resolveMarket resolvedState 10
        { resolverBotIds := [1]
          resolvedOutcomeId := some "YES"
          evidence := []
          votes := [] } "k" 1 =
      (closeExpiredMarkets resolvedState, .error 409) ∧
    (closeExpiredMarkets resolvedState).bots = resolvedState.bots ∧
    (closeExpiredMarkets resolvedState).ledger = resolvedState.ledger := by
  have h := resolve_already_resolved resolvedState 10
    { resolverBotIds := [1]
      resolvedOutcomeId := some "YES"
      evidence := []
      votes := [] } "k" 1
    { tradeMarket with
      status := MarketStatus.resolved
      resolvedAt := some 50 } (by decide) (by decide)
  exact ⟨h.1, h.2.1, h.2.2.1⟩

/-! ### C7: auto-resolve selection -/

theorem maxPoolPair_step (x y : OutcomeId × ℚ) (ys : List (OutcomeId × ℚ)) :
    maxPoolPair x (y :: ys) =
      maxPoolPair (if x.2 < y.2 ∨ (x.2 = y.2 ∧ x.1 < y.1) then y else x) ys := by
  simp only [maxPoolPair, List.foldl_cons]

theorem maxPoolPair_mem (x : OutcomeId × ℚ) (rest : List (OutcomeId × ℚ)) :
    maxPoolPair x rest ∈ x :: rest := by
  induction rest generalizing x with
  | nil => simp [maxPoolPair]
  | cons y ys ih =>
    rw [maxPoolPair_step]
    have h1 := ih (if x.2 < y.2 ∨ (x.2 = y.2 ∧ x.1 < y.1) then y else x)
    rw [List.mem_cons] at h1
    rcases h1 with h1 | h1
    · rw [h1]
      by_cases h : x.2 < y.2 ∨ (x.2 = y.2 ∧ x.1 < y.1)
      · rw [if_pos h]
        exact List.mem_cons_of_mem x (List.mem_cons_self y ys)
      · rw [if_neg h]
        exact List.mem_cons_self x (y :: ys)
    · simp only [List.mem_cons]
      right; right; exact h1

theorem maxPoolPair_ge (x : OutcomeId × ℚ) (rest : List (OutcomeId × ℚ)) :
    ∀ q ∈ x :: rest, q.2 ≤ (maxPoolPair x rest).2 := by
  induction rest generalizing x with
  | nil =>
    intro q hq
    rw [List.mem_cons] at hq
    rcases hq with hq | hq
    · rw [hq]; simp [maxPoolPair]
    · simp at hq
  | cons y ys ih =>
    intro q hq
    rw [maxPoolPair_step]
    rw [List.mem_cons, List.mem_cons] at hq
    by_cases h : x.2 < y.2 ∨ (x.2 = y.2 ∧ x.1 < y.1)
    · simp only [if_pos h]
      have hxy : x.2 ≤ y.2 := by
        rcases h with h | h
        · exact le_of_lt h
        · exact le_of_eq h.1
      rcases hq with hq | hq | hq
      · rw [hq]
        exact le_trans hxy (ih y y (List.mem_cons_self y ys))
      · rw [hq]
        exact ih y y (List.mem_cons_self y ys)
      · exact ih y q (List.mem_cons_of_mem y hq)
    · simp only [if_neg h]
      have hyx : y.2 ≤ x.2 := by
        by_contra hc
        exact h (Or.inl (lt_of_not_le hc))
      rcases hq with hq | hq | hq
      · rw [hq]
        exact ih x x (List.mem_cons_self x ys)
      · rw [hq]
        exact le_trans hyx (ih x x (List.mem_cons_self x ys))
      · exact ih x q (List.mem_cons_of_mem x hq)

theorem maxPoolPair_tiebreak (x : OutcomeId × ℚ)
    (rest : List (OutcomeId × ℚ)) :
    ∀ q ∈ x :: rest, q.2 = (maxPoolPair x rest).2 →
      q.1 ≤ (maxPoolPair x rest).1 := by
  induction rest generalizing x with
  | nil =>
    intro q hq _
    rw [List.mem_cons] at hq
    rcases hq with hq | hq
    · rw [hq]; simp [maxPoolPair]
    · simp at hq
  | cons y ys ih =>
    intro q hq heq
    rw [maxPoolPair_step] at heq ⊢
    rw [List.mem_cons, List.mem_cons] at hq
    by_cases h : x.2 < y.2 ∨ (x.2 = y.2 ∧ x.1 < y.1)
    · simp only [if_pos h] at heq ⊢
      rcases hq with hq | hq | hq
      · rw [hq] at heq ⊢
        rcases h with h | h
        · exfalso
          have := maxPoolPair_ge y ys y (List.mem_cons_self y ys)
          rw [← heq] at this
          linarith
        · have hy := ih y y (List.mem_cons_self y ys) (by rw [← h.1, heq])
          exact le_of_lt (lt_of_lt_of_le h.2 hy)
      · rw [hq] at heq ⊢
        exact ih y y (List.mem_cons_self y ys) heq
      · exact ih y q (List.mem_cons_of_mem y hq) heq
    · simp only [if_neg h] at heq ⊢
      have hyx : y.2 ≤ x.2 := by
        by_contra hc
        exact h (Or.inl (lt_of_not_le hc))
      rcases hq with hq | hq | hq
      · rw [hq] at heq ⊢
        exact ih x x (List.mem_cons_self x ys) heq
      · rw [hq] at heq ⊢
        have hx2 : x.2 ≤ (maxPoolPair x ys).2 :=
          maxPoolPair_ge x ys x (List.mem_cons_self x ys)
        rw [← heq] at hx2
        have hxy2 : x.2 = y.2 := le_antisymm hx2 hyx
        have hyx1 : y.1 ≤ x.1 := by
          by_contra hc
          exact h (Or.inr ⟨hxy2, lt_of_not_le hc⟩)
        have hx1 := ih x x (List.mem_cons_self x ys) (by rw [hxy2]; exact heq)
        exact le_trans hyx1 hx1
      · exact ih x q (List.mem_cons_of_mem x hq) heq

/-- Selection specification for a market with nonempty pools: the market is
untouched and the chosen outcome belongs to the pools, carries a maximal
pool, and among pool ties carries the largest outcome id. -/
theorem selectAutoResolveOutcome_spec (market : Market)
    (p : OutcomeId × ℚ) (rest : List (OutcomeId × ℚ))
    (hpools : market.outcomePools = p :: rest) :
    (selectAutoResolveOutcome market).1 = market ∧
    ∃ w : OutcomeId × ℚ,
      (selectAutoResolveOutcome market).2 = some w.1 ∧
      w ∈ market.outcomePools ∧
      (∀ q ∈ market.outcomePools, q.2 ≤ w.2) ∧
      (∀ q ∈ market.outcomePools, q.2 = w.2 → q.1 ≤ w.1) := by
  have hne : market.outcomePools ≠ [] := by rw [hpools]; simp
  rw [selectAutoResolveOutcome, if_neg hne]
  constructor
  · simp [hpools]
  · refine ⟨maxPoolPair p rest, ?_, ?_, ?_, ?_⟩
    · simp [hpools]
    · rw [hpools]; exact maxPoolPair_mem p rest
    · rw [hpools]; exact maxPoolPair_ge p rest
    · rw [hpools]; exact maxPoolPair_tiebreak p rest

/-- C7 counterexample. With pools A and B tied at 5 BDC, the auto-resolve
selection picks B, the lexicographically larger outcome id, whereas the
claim prescribes the lexicographically smallest (A): the Python max over
(pool, outcome id) tuples breaks pool ties towards the larger id. -/
theorem auto_resolve_tiebreak_counterexample :
    (selectAutoResolveOutcome tieMarket).2 = some "B" ∧
      alookupD tieMarket.outcomePools "A" 0 = 5 ∧
      alookupD tieMarket.outcomePools "B" 0 = 5 ∧
      ("A" : String) < "B" := by
  have hAB : ("A" : String) < "B" := by
    rw [String.lt_iff_toList_lt]
    decide
  have h2 : maxPoolPair ("A", (5:ℚ)) [("B", 5)] = ("B", 5) := by
    rw [maxPoolPair_step, if_pos (Or.inr ⟨rfl, hAB⟩)]
    rfl
  refine ⟨?_, by decide, by decide, hAB⟩
  simp [selectAutoResolveOutcome, tieMarket, h2]

/-! ### Settlement specification lemmas -/

theorem lookupBot_applyLedgerCredit_isSome (s : State) (b : Bot)
    (e : LedgerEntry) (x : BotId) (h : (lookupBot s x).isSome = true) :
    (lookupBot (applyLedgerCredit s b e) x).isSome = true := by
  simp only [applyLedgerCredit, addLedgerEntry, saveBot, lookupBot]
  by_cases hx : x = b.id
  · rw [hx]
    rw [show ({ b with walletBalanceBdc := b.walletBalanceBdc + e.deltaBdc }
      : Bot).id = b.id from rfl, alookup_dictInsert_self]
    rfl
  · rw [alookup_dictInsert_other _ _ _ _ hx]
    exact h

theorem payoutWinningTrades_ok (mid : MarketId) (winner : OutcomeId)
    (wp tp : ℚ) (ts : List Trade) : ∀ (s : State),
    (∀ t ∈ ts, t.outcomeId = winner → (lookupBot s t.botId).isSome = true) →
    ∃ s2 entries,
      payoutWinningTrades s mid winner wp tp ts = (s2, .ok entries) ∧
      s2.ledger = s.ledger ++ entries ∧
      entries.map (fun e => e.deltaBdc) =
        (ts.filter (fun t => t.outcomeId = winner)).map
          (fun t => t.amountBdc / wp * tp) ∧
      (∀ e ∈ entries, e.reason = "payout") ∧
      s2.botPolicies = s.botPolicies ∧
      s2.markets = s.markets ∧
      s2.trades = s.trades ∧
      s2.treasuryBalanceBdc = s.treasuryBalanceBdc ∧
      s2.treasuryLedger = s.treasuryLedger ∧
      s2.treasuryConfig = s.treasuryConfig ∧
      s2.resolutions = s.resolutions ∧
      s2.resolutionVotes = s.resolutionVotes ∧
      s2.events = s.events ∧
      s2.requestLog = s.requestLog ∧
      s2.actionLog = s.actionLog ∧
      s2.now = s.now ∧
      (∀ x, (lookupBot s x).isSome = true →
        (lookupBot s2 x).isSome = true) := by
  induction ts with
  | nil =>
    intro s _
    refine ⟨s, [], rfl, by simp, by simp, by simp, rfl, rfl, rfl, rfl, rfl,
      rfl, rfl, rfl, rfl, rfl, rfl, rfl, fun x h => h⟩
  | cons t rest ih =>
    intro s hb
    by_cases ht : t.outcomeId ≠ winner
    · obtain ⟨s2, entries, heq, hrest⟩ := ih s
        (fun u hu hw => hb u (List.mem_cons_of_mem t hu) hw)
      refine ⟨s2, entries, ?_, ?_⟩
      · rw [payoutWinningTrades, if_pos ht]
        exact heq
      · have hfilter : (t :: rest).filter (fun u => u.outcomeId = winner) =
            rest.filter (fun u => u.outcomeId = winner) := by
          simp [List.filter_cons, ht]
        rw [hfilter]
        exact hrest
    · have htw : t.outcomeId = winner := not_not.mp ht
      obtain ⟨bot, hbot⟩ := Option.isSome_iff_exists.mp
        (hb t (List.mem_cons_self t rest) htw)
      set entry : LedgerEntry :=
        { botId := t.botId
          marketId := some mid
          deltaBdc := t.amountBdc / wp * tp
          reason := "payout"
          timestamp := s.now } with hentry
      obtain ⟨s2, entries, heq, hled, hmap, hreason, hrest⟩ :=
        ih (applyLedgerCredit s bot entry)
          (fun u hu hw => lookupBot_applyLedgerCredit_isSome _ _ _ _
            (hb u (List.mem_cons_of_mem t hu) hw))
      refine ⟨s2, entry :: entries, ?_, ?_, ?_, ?_, ?_⟩
      · simp only [payoutWinningTrades, if_neg ht, hbot, ← hentry, heq]
      · rw [hled]
        rw [show (applyLedgerCredit s bot entry).ledger =
          s.ledger ++ [entry] from rfl]
        rw [List.append_assoc]
        rfl
      · have hfilter : (t :: rest).filter (fun u => u.outcomeId = winner) =
            t :: rest.filter (fun u => u.outcomeId = winner) := by
          simp [List.filter_cons, htw]
        rw [hfilter, List.map_cons, List.map_cons, hmap]
      · intro e he
        rw [List.mem_cons] at he
        rcases he with he | he
        · rw [he]
        · exact hreason e he
      · obtain ⟨h1, h2, h3, h4, h5, h6, h7, h8, h9, h10, h11, h12, h13⟩ :=
          hrest
        exact ⟨h1, h2, h3, h4, h5, h6, h7, h8, h9, h10, h11, h12,
          fun x hx => h13 x (lookupBot_applyLedgerCredit_isSome _ _ _ _ hx)⟩

theorem distributeLiquidity_ok (mid : MarketId) (liq wS : ℚ)
    (hliq : 0 ≤ liq) (hwS : 0 < wS) : ∀ (ws : List (BotId × ℚ)) (s : State),
    (∀ p ∈ ws, 0 < p.2) →
    (∀ p ∈ ws, (lookupBot s p.1).isSome = true) →
    ∃ s2 entries,
      distributeLiquidity s mid liq wS ws = (s2, .ok ()) ∧
      s2.ledger = s.ledger ++ entries ∧
      (entries.map (fun e => e.deltaBdc)).sum = liq * sumSnd ws / wS ∧
      (∀ e ∈ entries, e.reason = "liquidity_distribution") ∧
      s2.botPolicies = s.botPolicies ∧
      s2.markets = s.markets ∧
      s2.trades = s.trades ∧
      s2.treasuryBalanceBdc = s.treasuryBalanceBdc ∧
      s2.treasuryLedger = s.treasuryLedger ∧
      s2.treasuryConfig = s.treasuryConfig ∧
      s2.resolutions = s.resolutions ∧
      s2.resolutionVotes = s.resolutionVotes ∧
      s2.events = s.events ∧
      s2.requestLog = s.requestLog ∧
      s2.actionLog = s.actionLog ∧
      s2.now = s.now ∧
      (∀ x, (lookupBot s x).isSome = true →
        (lookupBot s2 x).isSome = true) := by
  intro ws
  induction ws with
  | nil =>
    intro s _ _
    refine ⟨s, [], rfl, by simp, by simp [sumSnd], by simp, rfl, rfl, rfl,
      rfl, rfl, rfl, rfl, rfl, rfl, rfl, rfl, rfl, fun x h => h⟩
  | cons p rest ih =>
    obtain ⟨bid, w⟩ := p
    intro s hpos hbots
    have hw : 0 < w := hpos (bid, w) (List.mem_cons_self _ _)
    have hwdiv : 0 < w / wS := div_pos hw hwS
    by_cases hamt : liq * (w / wS) ≤ 0
    · have hliq0 : liq = 0 := by
        rcases lt_or_eq_of_le hliq with h | h
        · exfalso
          have : 0 < liq * (w / wS) := mul_pos h hwdiv
          linarith
        · exact h.symm
      obtain ⟨s2, entries, heq, hled, hsum, hreason, hrest⟩ :=
        ih s (fun q hq => hpos q (List.mem_cons_of_mem _ hq))
          (fun q hq => hbots q (List.mem_cons_of_mem _ hq))
      refine ⟨s2, entries, ?_, hled, ?_, hreason, hrest⟩
      · simp only [distributeLiquidity, if_neg (not_le.mpr hw),
          if_pos hamt, heq]
      · rw [hsum, hliq0]
        simp
    · obtain ⟨bot, hbot⟩ := Option.isSome_iff_exists.mp
        (hbots (bid, w) (List.mem_cons_self _ _))
      set entry : LedgerEntry :=
        { botId := bid
          marketId := some mid
          deltaBdc := liq * (w / wS)
          reason := "liquidity_distribution"
          timestamp := s.now } with hentry
      obtain ⟨s2, entries, heq, hled, hsum, hreason, hrest⟩ :=
        ih (applyLedgerCredit s bot entry)
          (fun q hq => hpos q (List.mem_cons_of_mem _ hq))
          (fun q hq => lookupBot_applyLedgerCredit_isSome _ _ _ _
            (hbots q (List.mem_cons_of_mem _ hq)))
      refine ⟨s2, entry :: entries, ?_, ?_, ?_, ?_, ?_⟩
      · simp only [distributeLiquidity, if_neg (not_le.mpr hw),
          if_neg hamt, hbot, ← hentry, heq]
      · rw [hled]
        rw [show (applyLedgerCredit s bot entry).ledger =
          s.ledger ++ [entry] from rfl]
        rw [List.append_assoc]
        rfl
      · rw [List.map_cons, List.sum_cons, hsum]
        rw [show entry.deltaBdc = liq * (w / wS) from rfl]
        rw [show sumSnd ((bid, w) :: rest) = w + sumSnd rest from by
          simp [sumSnd]]
        field_simp
        ring
      · intro e he
        rw [List.mem_cons] at he
        rcases he with he | he
        · rw [he]
        · exact hreason e he
      · obtain ⟨h1, h2, h3, h4, h5, h6, h7, h8, h9, h10, h11, h12, h13⟩ :=
          hrest
        exact ⟨h1, h2, h3, h4, h5, h6, h7, h8, h9, h10, h11, h12,
          fun x hx => h13 x (lookupBot_applyLedgerCredit_isSome _ _ _ _ hx)⟩

theorem recordResolution_spec (s0 : State) (market2 : Market)
    (resolution : Resolution) (actor : BotId) (votes : List Vote) :
    (recordResolution s0 market2 resolution actor votes).bots = s0.bots ∧
    (recordResolution s0 market2 resolution actor votes).botPolicies =
      s0.botPolicies ∧
    (recordResolution s0 market2 resolution actor votes).markets =
      dictInsert s0.markets market2.id market2 ∧
    (recordResolution s0 market2 resolution actor votes).trades =
      s0.trades ∧
    (recordResolution s0 market2 resolution actor votes).ledger =
      s0.ledger ∧
    (recordResolution s0 market2 resolution actor votes).treasuryBalanceBdc =
      s0.treasuryBalanceBdc ∧
    (recordResolution s0 market2 resolution actor votes).treasuryLedger =
      s0.treasuryLedger ∧
    (recordResolution s0 market2 resolution actor votes).treasuryConfig =
      s0.treasuryConfig ∧
    (recordResolution s0 market2 resolution actor votes).resolutions =
      dictInsert s0.resolutions resolution.marketId resolution ∧
    (recordResolution s0 market2 resolution actor votes).requestLog =
      s0.requestLog ∧
    (recordResolution s0 market2 resolution actor votes).actionLog =
      s0.actionLog ∧
    (recordResolution s0 market2 resolution actor votes).now = s0.now := by
  by_cases hv : votes ≠ [] <;>
    simp [recordResolution, saveMarket, addEvent, hv]

theorem settlePayouts_ok (s4 : State) (market2 : Market)
    (resolution : Resolution)
    (hb : ∀ t ∈ s4.trades, (lookupBot s4 t.botId).isSome = true)
    (hw : ∀ p ∈ s4.treasuryConfig.liquidityBotWeights,
      0 < p.2 ∧ (lookupBot s4 p.1).isSome = true) :
    ∃ s7 payouts,
      settlePayouts s4 market2 resolution =
        (s7, .ok { resolution := resolution, payouts := payouts }) ∧
      s7.botPolicies = s4.botPolicies ∧
      s7.markets = s4.markets ∧
      s7.trades = s4.trades ∧
      s7.treasuryConfig = s4.treasuryConfig ∧
      s7.resolutions = s4.resolutions ∧
      s7.resolutionVotes = s4.resolutionVotes ∧
      s7.requestLog = s4.requestLog ∧
      s7.actionLog = s4.actionLog ∧
      s7.now = s4.now ∧
      (∃ es, s7.ledger = s4.ledger ++ es ∧
        ∀ e ∈ es, e.reason = "payout" ∨
          e.reason = "liquidity_distribution") ∧
      (∀ x, (lookupBot s4 x).isSome = true →
        (lookupBot s7 x).isSome = true) := by
  have hpay : ∃ s5 entries,
      (if 0 < alookupD market2.outcomePools resolution.resolvedOutcomeId 0
        then payoutWinningTrades s4 resolution.marketId
          resolution.resolvedOutcomeId
          (alookupD market2.outcomePools resolution.resolvedOutcomeId 0)
          (sumSnd market2.outcomePools)
          (s4.trades.filter (fun t => t.marketId = resolution.marketId))
        else (s4, .ok [])) = (s5, .ok entries) ∧
      s5.ledger = s4.ledger ++ entries ∧
      (∀ e ∈ entries, e.reason = "payout") ∧
      s5.botPolicies = s4.botPolicies ∧
      s5.markets = s4.markets ∧
      s5.trades = s4.trades ∧
      s5.treasuryBalanceBdc = s4.treasuryBalanceBdc ∧
      s5.treasuryLedger = s4.treasuryLedger ∧
      s5.treasuryConfig = s4.treasuryConfig ∧
      s5.resolutions = s4.resolutions ∧
      s5.resolutionVotes = s4.resolutionVotes ∧
      s5.events = s4.events ∧
      s5.requestLog = s4.requestLog ∧
      s5.actionLog = s4.actionLog ∧
      s5.now = s4.now ∧
      (∀ x, (lookupBot s4 x).isSome = true →
        (lookupBot s5 x).isSome = true) := by
    by_cases hwin :
        0 < alookupD market2.outcomePools resolution.resolvedOutcomeId 0
    · obtain ⟨s5, entries, heq, hled, _, hreason, hrest⟩ :=
        payoutWinningTrades_ok resolution.marketId
          resolution.resolvedOutcomeId
          (alookupD market2.outcomePools resolution.resolvedOutcomeId 0)
          (sumSnd market2.outcomePools)
          (s4.trades.filter (fun t => t.marketId = resolution.marketId)) s4
          (fun t ht _ => hb t (List.mem_of_mem_filter ht))
      exact ⟨s5, entries, by rw [if_pos hwin, heq], hled, hreason, hrest⟩
    · exact ⟨s4, [], by rw [if_neg hwin], by simp, by simp, rfl, rfl, rfl,
        rfl, rfl, rfl, rfl, rfl, rfl, rfl, rfl, rfl, fun x h => h⟩
  obtain ⟨s5, payoutEntries, hpayeq, hled5, hreason5, hpol5, hmar5, htr5,
    htb5, htl5, hcfg5, hres5, hrv5, hev5, hrq5, hac5, hnow5, hlook5⟩ := hpay
  rw [settlePayouts]
  simp only [hpayeq]
  by_cases hrem : 0 < sumSnd market2.outcomePools -
      (payoutEntries.map (fun e => e.deltaBdc)).sum
  · rw [if_pos hrem]
    have hdist : ∃ s6 les,
        (if (0 < s5.treasuryConfig.liquidityBotAllocationPct ∧
              s5.treasuryConfig.liquidityBotWeights ≠ []) ∧
            0 < sumSnd s5.treasuryConfig.liquidityBotWeights then
          distributeLiquidity s5 resolution.marketId
            (if (0 < s5.treasuryConfig.liquidityBotAllocationPct ∧
                s5.treasuryConfig.liquidityBotWeights ≠ []) ∧
              0 < sumSnd s5.treasuryConfig.liquidityBotWeights then
              (sumSnd market2.outcomePools -
                (payoutEntries.map (fun e => e.deltaBdc)).sum) *
                s5.treasuryConfig.liquidityBotAllocationPct
            else 0)
            (sumSnd s5.treasuryConfig.liquidityBotWeights)
            s5.treasuryConfig.liquidityBotWeights
        else (s5, .ok ())) = (s6, .ok ()) ∧
        s6.ledger = s5.ledger ++ les ∧
        (∀ e ∈ les, e.reason = "liquidity_distribution") ∧
        s6.botPolicies = s5.botPolicies ∧
        s6.markets = s5.markets ∧
        s6.trades = s5.trades ∧
        s6.treasuryBalanceBdc = s5.treasuryBalanceBdc ∧
        s6.treasuryLedger = s5.treasuryLedger ∧
        s6.treasuryConfig = s5.treasuryConfig ∧
        s6.resolutions = s5.resolutions ∧
        s6.resolutionVotes = s5.resolutionVotes ∧
        s6.requestLog = s5.requestLog ∧
        s6.actionLog = s5.actionLog ∧
        s6.now = s5.now ∧
        (∀ x, (lookupBot s5 x).isSome = true →
          (lookupBot s6 x).isSome = true) := by
      by_cases hen : (0 < s5.treasuryConfig.liquidityBotAllocationPct ∧
          s5.treasuryConfig.liquidityBotWeights ≠ []) ∧
          0 < sumSnd s5.treasuryConfig.liquidityBotWeights
      · have hw5 : ∀ p ∈ s5.treasuryConfig.liquidityBotWeights,
            0 < p.2 ∧ (lookupBot s5 p.1).isSome = true := by
          intro p hp
          rw [hcfg5] at hp
          exact ⟨(hw p hp).1, hlook5 _ (hw p hp).2⟩
        obtain ⟨s6, les, heq, hled, hsum, hreason, hrest⟩ :=
          distributeLiquidity_ok resolution.marketId
            ((sumSnd market2.outcomePools -
              (payoutEntries.map (fun e => e.deltaBdc)).sum) *
              s5.treasuryConfig.liquidityBotAllocationPct)
            (sumSnd s5.treasuryConfig.liquidityBotWeights)
            (le_of_lt (mul_pos hrem hen.1.1)) hen.2
            s5.treasuryConfig.liquidityBotWeights s5
            (fun p hp => (hw5 p hp).1) (fun p hp => (hw5 p hp).2)
        refine ⟨s6, les, ?_, hled, hreason, ?_⟩
        · rw [if_pos hen, if_pos hen, heq]
        · obtain ⟨h1, h2, h3, h4, h5, h6, h7, h8, h9, h10, h11, h12, h13⟩ :=
            hrest
          exact ⟨h1, h2, h3, h4, h5, h6, h7, h8, h10, h11, h12, h13⟩
      · exact ⟨s5, [], by rw [if_neg hen], by simp, by simp, rfl, rfl, rfl,
          rfl, rfl, rfl, rfl, rfl, rfl, rfl, rfl, fun x h => h⟩
    obtain ⟨s6, liqEntries, hdisteq, hled6, hreason6, hpol6, hmar6, htr6,
      htb6, htl6, hcfg6, hres6, hrv6, hrq6, hac6, hnow6, hlook6⟩ := hdist
    simp only [hdisteq]
    by_cases hsend : s5.treasuryConfig.sendUnpaidToTreasury = true ∧
        0 < sumSnd market2.outcomePools -
          (payoutEntries.map (fun e => e.deltaBdc)).sum -
          (if (0 < s5.treasuryConfig.liquidityBotAllocationPct ∧
              s5.treasuryConfig.liquidityBotWeights ≠ []) ∧
            0 < sumSnd s5.treasuryConfig.liquidityBotWeights then
            (sumSnd market2.outcomePools -
              (payoutEntries.map (fun e => e.deltaBdc)).sum) *
              s5.treasuryConfig.liquidityBotAllocationPct
          else 0)
    · rw [if_pos hsend]
      refine ⟨_, payoutEntries, rfl, ?_⟩
      refine ⟨by simp only [addTreasuryEntry]; rw [hpol6, hpol5],
        by simp only [addTreasuryEntry]; rw [hmar6, hmar5],
        by simp only [addTreasuryEntry]; rw [htr6, htr5],
        by simp only [addTreasuryEntry]; rw [hcfg6, hcfg5],
        by simp only [addTreasuryEntry]; rw [hres6, hres5],
        by simp only [addTreasuryEntry]; rw [hrv6, hrv5],
        by simp only [addTreasuryEntry]; rw [hrq6, hrq5],
        by simp only [addTreasuryEntry]; rw [hac6, hac5],
        by simp only [addTreasuryEntry]; rw [hnow6, hnow5],
        ⟨payoutEntries ++ liqEntries, ?_, ?_⟩, ?_⟩
      · simp only [addTreasuryEntry]
        rw [hled6, hled5, List.append_assoc]
      · intro e he
        rw [List.mem_append] at he
        rcases he with he | he
        · exact Or.inl (hreason5 e he)
        · exact Or.inr (hreason6 e he)
      · intro x hx
        have h6 : (lookupBot s6 x).isSome = true :=
          hlook6 x (hlook5 x hx)
        simpa [lookupBot, addTreasuryEntry] using h6
    · rw [if_neg hsend]
      refine ⟨s6, payoutEntries, rfl, by rw [hpol6, hpol5],
        by rw [hmar6, hmar5], by rw [htr6, htr5], by rw [hcfg6, hcfg5],
        by rw [hres6, hres5], by rw [hrv6, hrv5], by rw [hrq6, hrq5],
        by rw [hac6, hac5], by rw [hnow6, hnow5],
        ⟨payoutEntries ++ liqEntries, ?_, ?_⟩,
        fun x hx => hlook6 x (hlook5 x hx)⟩
      · rw [hled6, hled5, List.append_assoc]
      · intro e he
        rw [List.mem_append] at he
        rcases he with he | he
        · exact Or.inl (hreason5 e he)
        · exact Or.inr (hreason6 e he)
  · rw [if_neg hrem]
    exact ⟨s5, payoutEntries, rfl, hpol5, hmar5, htr5, hcfg5, hres5, hrv5,
      hrq5, hac5, hnow5, ⟨payoutEntries, hled5,
        fun e he => Or.inl (hreason5 e he)⟩, hlook5⟩

theorem settleMarketResolution_ok (s : State) (market : Market)
    (winner : OutcomeId) (resolvers : List BotId) (actor : BotId)
    (ev : List EvidenceItem) (votes : List Vote)
    (hb : ∀ t ∈ s.trades, (lookupBot s t.botId).isSome = true)
    (hw : ∀ p ∈ s.treasuryConfig.liquidityBotWeights,
      0 < p.2 ∧ (lookupBot s p.1).isSome = true) :
    ∃ s7 payouts,
      settleMarketResolution s market winner resolvers actor ev votes =
        (s7, .ok { resolution :=
          { marketId := market.id
            resolvedOutcomeId := winner
            resolverBotIds := resolvers
            evidence := ev
            timestamp := s.now }, payouts := payouts }) ∧
      s7.resolutions = dictInsert s.resolutions market.id
        { marketId := market.id
          resolvedOutcomeId := winner
          resolverBotIds := resolvers
          evidence := ev
          timestamp := s.now } ∧
      s7.markets = dictInsert s.markets market.id
        { market with
          status := MarketStatus.resolved
          resolvedAt := some s.now } ∧
      alookup s7.resolutions market.id = some
        { marketId := market.id
          resolvedOutcomeId := winner
          resolverBotIds := resolvers
          evidence := ev
          timestamp := s.now } ∧
      (∀ x, x ≠ market.id →
        alookup s7.resolutions x = alookup s.resolutions x) ∧
      (∀ x, x ≠ market.id → alookup s7.markets x = alookup s.markets x) ∧
      s7.trades = s.trades ∧
      s7.actionLog = s.actionLog ∧
      s7.requestLog = s.requestLog ∧
      s7.treasuryConfig = s.treasuryConfig ∧
      s7.now = s.now ∧
      (∃ es, s7.ledger = s.ledger ++ es ∧
        ∀ e ∈ es, e.reason = "payout" ∨
          e.reason = "liquidity_distribution") ∧
      (∀ x, (lookupBot s x).isSome = true →
        (lookupBot s7 x).isSome = true) := by
  obtain ⟨hb0, hp0, hm0, ht0, hl0, htb0, htl0, hcfg0, hr0, hrq0, hac0, hn0⟩ :=
    recordResolution_spec s
      { market with
        status := MarketStatus.resolved
        resolvedAt := some s.now }
      { marketId := market.id
        resolvedOutcomeId := winner
        resolverBotIds := resolvers
        evidence := ev
        timestamp := s.now }
      actor votes
  have hlookup4 : ∀ x, lookupBot (recordResolution s
      { market with
        status := MarketStatus.resolved
        resolvedAt := some s.now }
      { marketId := market.id
        resolvedOutcomeId := winner
        resolverBotIds := resolvers
        evidence := ev
        timestamp := s.now } actor votes) x = lookupBot s x := by
    intro x
    rw [lookupBot, lookupBot, hb0]
  obtain ⟨s7, payouts, heq, hpol, hmar, htr, hcfg, hres, hrv, hrq, hac,
    hnow, hledx, hlook⟩ :=
    settlePayouts_ok (recordResolution s
      { market with
        status := MarketStatus.resolved
        resolvedAt := some s.now }
      { marketId := market.id
        resolvedOutcomeId := winner
        resolverBotIds := resolvers
        evidence := ev
        timestamp := s.now } actor votes)
      { market with
        status := MarketStatus.resolved
        resolvedAt := some s.now }
      { marketId := market.id
        resolvedOutcomeId := winner
        resolverBotIds := resolvers
        evidence := ev
        timestamp := s.now }
      (by
        rw [ht0]
        intro t ht
        rw [hlookup4]
        exact hb t ht)
      (by
        rw [hcfg0]
        intro p hp
        rw [hlookup4]
        exact hw p hp)
  refine ⟨s7, payouts, ?_, ?_, ?_, ?_, ?_, ?_, ?_, ?_, ?_, ?_, ?_, ?_, ?_⟩
  · rw [settleMarketResolution]
    exact heq
  · rw [hres]
    exact hr0
  · rw [hmar]
    exact hm0
  · rw [hres, hr0]
    exact alookup_dictInsert_self _ _ _
  · intro x hx
    rw [hres, hr0, alookup_dictInsert_other _ _ _ _ hx]
  · intro x hx
    rw [hmar, hm0, alookup_dictInsert_other _ _ _ _ hx]
  · rw [htr, ht0]
  · rw [hac, hac0]
  · rw [hrq, hrq0]
  · rw [hcfg, hcfg0]
  · rw [hnow, hn0]
  · obtain ⟨es, hes, hreason⟩ := hledx
    exact ⟨es, by rw [hes, hl0], hreason⟩
  · intro x hx
    apply hlook
    rw [hlookup4]
    exact hx

/-! ### Auto-resolve fold lemmas -/

theorem mem_dictInsert {α β : Type} [DecidableEq α] {l : List (α × β)}
    {k : α} {v : β} {p : α × β} (hp : p ∈ dictInsert l k v) :
    p = (k, v) ∨ p ∈ l := by
  rw [dictInsert] at hp
  by_cases h : l.any (fun q => q.1 = k)
  · rw [if_pos h, List.mem_map] at hp
    obtain ⟨q, hq, hqe⟩ := hp
    by_cases hqk : q.1 = k
    · rw [if_pos hqk] at hqe
      exact Or.inl hqe.symm
    · rw [if_neg hqk] at hqe
      exact Or.inr (hqe ▸ hq)
  · rw [if_neg h, List.mem_append] at hp
    rcases hp with hp | hp
    · exact Or.inr hp
    · rw [List.mem_singleton] at hp
      exact Or.inl hp

theorem stakeEntries_eq_nil (es : List LedgerEntry) :
    (∀ e ∈ es, e.reason = "payout" ∨ e.reason = "liquidity_distribution") →
    stakeEntries es = [] := by
  induction es with
  | nil => intro _; rfl
  | cons e rest ih =>
    intro h
    have he := h e (List.mem_cons_self e rest)
    have h1 : ¬ e.reason = "market_stake" := by
      rcases he with he | he <;> rw [he] <;> decide
    have h2 : ¬ e.reason = "resolution_stake" := by
      rcases he with he | he <;> rw [he] <;> decide
    have hrest := ih (fun x hx => h x (List.mem_cons_of_mem e hx))
    rw [stakeEntries] at hrest ⊢
    rw [List.filter_cons, if_neg (by simp [h1, h2]), hrest]

theorem stakeEntries_append (l es : List LedgerEntry)
    (h : ∀ e ∈ es, e.reason = "payout" ∨
      e.reason = "liquidity_distribution") :
    stakeEntries (l ++ es) = stakeEntries l := by
  have hnil := stakeEntries_eq_nil es h
  rw [stakeEntries] at hnil ⊢
  rw [List.filter_append, hnil, List.append_nil, ← stakeEntries]

theorem selectAutoResolveOutcome_fst (m : Market) :
    (selectAutoResolveOutcome m).1 =
      (if m.outcomePools = [] then
        { m with outcomePools := m.outcomes.map (fun o => (o, (0:ℚ))) }
      else m) := by
  simp only [selectAutoResolveOutcome]
  split <;> rfl

theorem selectAutoResolveOutcome_id (m : Market) :
    (selectAutoResolveOutcome m).1.id = m.id := by
  rw [selectAutoResolveOutcome_fst]
  by_cases h : m.outcomePools = [] <;> simp [h]

theorem selectAutoResolveOutcome_creator (m : Market) :
    (selectAutoResolveOutcome m).1.creatorBotId = m.creatorBotId := by
  rw [selectAutoResolveOutcome_fst]
  by_cases h : m.outcomePools = [] <;> simp [h]

theorem selectAutoResolveOutcome_isSome (m : Market)
    (h : m.outcomePools ≠ [] ∨ m.outcomes ≠ []) :
    ∃ o, (selectAutoResolveOutcome m).2 = some o := by
  simp only [selectAutoResolveOutcome]
  split
  · rename_i heq
    exfalso
    by_cases hp : m.outcomePools = []
    · rw [if_pos hp] at heq
      simp only [List.map_eq_nil_iff] at heq
      rcases h with h | h
      · exact h hp
      · exact h heq
    · rw [if_neg hp] at heq
      exact hp heq
  · rename_i p rest heq
    exact ⟨(maxPoolPair p rest).1, rfl⟩

set_option maxRecDepth 4000 in
theorem autoResolveList_spec (mid : MarketId) :
    ∀ (l : List MarketId) (s : State), autoInv s →
    ∃ s2, autoResolveList s l = (s2, Except.ok ()) ∧
      autoInv s2 ∧
      s2.trades = s.trades ∧
      s2.actionLog = s.actionLog ∧
      s2.requestLog = s.requestLog ∧
      s2.treasuryConfig = s.treasuryConfig ∧
      s2.now = s.now ∧
      stakeEntries s2.ledger = stakeEntries s.ledger ∧
      (∀ x, (lookupBot s x).isSome = true →
        (lookupBot s2 x).isSome = true) ∧
      (∀ r, alookup s.resolutions mid = some r →
        alookup s2.resolutions mid = some r) ∧
      (∀ market : Market, mid ∈ l →
        alookup s.markets mid = some market →
        market.status = MarketStatus.closed →
        market.resolverPolicy = ResolverPolicy.single →
        alookup s.resolutions mid = none →
        (market.outcomePools ≠ [] ∨ market.outcomes ≠ []) →
        ∃ res : Resolution,
          alookup s2.resolutions mid = some res ∧
          some res.resolvedOutcomeId = (selectAutoResolveOutcome market).2 ∧
          res.resolverBotIds = [market.creatorBotId] ∧
          res.evidence =
            [{ source := "system", description := "auto_resolve" }] ∧
          res.marketId = mid ∧
          res.timestamp = s.now) := by
  intro l
  induction l with
  | nil =>
    intro s hInv
    refine ⟨s, rfl, hInv, rfl, rfl, rfl, rfl, rfl, rfl, fun x h => h,
      fun r hr => hr, ?_⟩
    intro market hmem
    simp at hmem
  | cons mid2 rest ih =>
    intro s hInv
    obtain ⟨hb, hw, hcoh⟩ := hInv
    cases hm2 : lookupMarket s mid2 with
    | none =>
      obtain ⟨s2, heq, hInv2, htr2, hac2, hrq2, hcfg2, hnow2, hstk2, hlk2,
        hpres2, hproc2⟩ := ih s ⟨hb, hw, hcoh⟩
      refine ⟨s2, ?_, hInv2, htr2, hac2, hrq2, hcfg2, hnow2, hstk2, hlk2,
        hpres2, ?_⟩
      · simp only [autoResolveList, hm2]
        exact heq
      · intro market hmem hma hclosed hpolS hnores houtc
        rcases List.mem_cons.mp hmem with hmm | hmm
        · exfalso
          rw [lookupMarket] at hm2
          rw [hmm] at hma
          rw [hma] at hm2
          exact Option.noConfusion hm2
        · exact hproc2 market hmm hma hclosed hpolS hnores houtc
    | some mk =>
      have hmk : alookup s.markets mid2 = some mk := by
        rw [← hm2]
        rfl
      have hmkid : mk.id = mid2 := hcoh (mid2, mk) (alookup_mem _ _ _ hmk)
      by_cases hst : mk.status ≠ MarketStatus.closed
      · obtain ⟨s2, heq, hInv2, htr2, hac2, hrq2, hcfg2, hnow2, hstk2, hlk2,
          hpres2, hproc2⟩ := ih s ⟨hb, hw, hcoh⟩
        refine ⟨s2, ?_, hInv2, htr2, hac2, hrq2, hcfg2, hnow2, hstk2, hlk2,
          hpres2, ?_⟩
        · simp only [autoResolveList, hm2, if_pos hst]
          exact heq
        · intro market hmem hma hclosed hpolS hnores houtc
          rcases List.mem_cons.mp hmem with hmm | hmm
          · exfalso
            rw [hmm] at hma
            have hem : mk = market := Option.some.inj (hmk.symm.trans hma)
            exact hst (by rw [hem]; exact hclosed)
          · exact hproc2 market hmm hma hclosed hpolS hnores houtc
      · by_cases hpl : mk.resolverPolicy ≠ ResolverPolicy.single
        · obtain ⟨s2, heq, hInv2, htr2, hac2, hrq2, hcfg2, hnow2, hstk2,
            hlk2, hpres2, hproc2⟩ := ih s ⟨hb, hw, hcoh⟩
          refine ⟨s2, ?_, hInv2, htr2, hac2, hrq2, hcfg2, hnow2, hstk2,
            hlk2, hpres2, ?_⟩
          · simp only [autoResolveList, hm2, if_neg hst, if_pos hpl]
            exact heq
          · intro market hmem hma hclosed hpolS hnores houtc
            rcases List.mem_cons.mp hmem with hmm | hmm
            · exfalso
              rw [hmm] at hma
              have hem : mk = market := Option.some.inj (hmk.symm.trans hma)
              exact hpl (by rw [hem]; exact hpolS)
            · exact hproc2 market hmm hma hclosed hpolS hnores houtc
        · by_cases hnr : (alookup s.resolutions mk.id).isSome = true
          · obtain ⟨s2, heq, hInv2, htr2, hac2, hrq2, hcfg2, hnow2, hstk2,
              hlk2, hpres2, hproc2⟩ := ih s ⟨hb, hw, hcoh⟩
            refine ⟨s2, ?_, hInv2, htr2, hac2, hrq2, hcfg2, hnow2, hstk2,
              hlk2, hpres2, ?_⟩
            · simp only [autoResolveList, hm2, if_neg hst, if_neg hpl,
                if_pos hnr]
              exact heq
            · intro market hmem hma hclosed hpolS hnores houtc
              rcases List.mem_cons.mp hmem with hmm | hmm
              · exfalso
                rw [hmkid, ← hmm, hnores] at hnr
                simp at hnr
              · exact hproc2 market hmm hma hclosed hpolS hnores houtc
          · cases hsel : (selectAutoResolveOutcome mk).2 with
            | none =>
              have hps : selectAutoResolveOutcome mk =
                  ((selectAutoResolveOutcome mk).1, none) := by
                rw [← hsel]
              obtain ⟨s2, heq, hInv2, htr2, hac2, hrq2, hcfg2, hnow2, hstk2,
                hlk2, hpres2, hproc2⟩ := ih s ⟨hb, hw, hcoh⟩
              refine ⟨s2, ?_, hInv2, htr2, hac2, hrq2, hcfg2, hnow2, hstk2,
                hlk2, hpres2, ?_⟩
              · simp only [autoResolveList, hm2, if_neg hst, if_neg hpl,
                  if_neg hnr]
                rw [hps]
                exact heq
              · intro market hmem hma hclosed hpolS hnores houtc
                rcases List.mem_cons.mp hmem with hmm | hmm
                · exfalso
                  rw [hmm] at hma
                  have hem : mk = market :=
                    Option.some.inj (hmk.symm.trans hma)
                  obtain ⟨o, ho⟩ := selectAutoResolveOutcome_isSome mk
                    (by rw [hem]; exact houtc)
                  rw [hsel] at ho
                  exact Option.noConfusion ho
                · exact hproc2 market hmm hma hclosed hpolS hnores houtc
            | some o =>
              have hps : selectAutoResolveOutcome mk =
                  ((selectAutoResolveOutcome mk).1, some o) := by
                rw [← hsel]
              obtain ⟨s7, payouts, heq7, hresEq, hmarEq, hresSelf, hresO,
                hmarO, htr7, hac7, hrq7, hcfg7, hnow7, hled7, hlk7⟩ :=
                settleMarketResolution_ok s (selectAutoResolveOutcome mk).1 o
                  [(selectAutoResolveOutcome mk).1.creatorBotId]
                  (selectAutoResolveOutcome mk).1.creatorBotId
                  [{ source := "system", description := "auto_resolve" }] []
                  hb hw
              have hb7 : ∀ t ∈ s7.trades,
                  (lookupBot s7 t.botId).isSome = true := by
                rw [htr7]
                intro t ht
                exact hlk7 t.botId (hb t ht)
              have hw7 : ∀ p ∈ s7.treasuryConfig.liquidityBotWeights,
                  0 < p.2 ∧ (lookupBot s7 p.1).isSome = true := by
                rw [hcfg7]
                intro p hp
                exact ⟨(hw p hp).1, hlk7 p.1 (hw p hp).2⟩
              have hcoh7 : ∀ p ∈ s7.markets, p.2.id = p.1 := by
                rw [hmarEq]
                intro p hp
                rcases mem_dictInsert hp with hp | hp
                · rw [hp]
                · exact hcoh p hp
              obtain ⟨s2, heq2, hInv2, htr2, hac2, hrq2, hcfg2, hnow2, hstk2,
                hlk2, hpres2, hproc2⟩ := ih s7 ⟨hb7, hw7, hcoh7⟩
              refine ⟨s2, ?_, hInv2, ?_, ?_, ?_, ?_, ?_, ?_, ?_, ?_, ?_⟩
              · simp only [autoResolveList, hm2, if_neg hst, if_neg hpl,
                  if_neg hnr]
                rw [hps]
                simp only [heq7]
                exact heq2
              · rw [htr2, htr7]
              · rw [hac2, hac7]
              · rw [hrq2, hrq7]
              · rw [hcfg2, hcfg7]
              · rw [hnow2, hnow7]
              · obtain ⟨es, hes, hreason⟩ := hled7
                rw [hstk2, hes, stakeEntries_append _ es hreason]
              · intro x hx
                exact hlk2 x (hlk7 x hx)
              · intro r hr
                have hne : mid ≠ (selectAutoResolveOutcome mk).1.id := by
                  rw [selectAutoResolveOutcome_id]
                  intro hcontra
                  rw [← hcontra, hr] at hnr
                  exact hnr rfl
                exact hpres2 r (by rw [hresO mid hne]; exact hr)
              · intro market hmem hma hclosed hpolS hnores houtc
                by_cases hmm : mid = mid2
                · have hem : mk = market := by
                    rw [hmm] at hma
                    exact Option.some.inj (hmk.symm.trans hma)
                  have hmid : mid = (selectAutoResolveOutcome mk).1.id := by
                    rw [selectAutoResolveOutcome_id, hmkid]
                    exact hmm
                  refine ⟨{ marketId := (selectAutoResolveOutcome mk).1.id
                            resolvedOutcomeId := o
                            resolverBotIds :=
                              [(selectAutoResolveOutcome mk).1.creatorBotId]
                            evidence :=
                              [{ source := "system"
                                 description := "auto_resolve" }]
                            timestamp := s.now },
                    ?_, ?_, ?_, rfl, ?_, rfl⟩
                  · exact hpres2 _ (by rw [hmid]; exact hresSelf)
                  · rw [← hem]
                    exact hsel.symm
                  · show [(selectAutoResolveOutcome mk).1.creatorBotId] =
                      [market.creatorBotId]
                    rw [selectAutoResolveOutcome_creator, hem]
                  · show (selectAutoResolveOutcome mk).1.id = mid
                    exact hmid.symm
                · have hmr : mid ∈ rest := by
                    rcases List.mem_cons.mp hmem with h | h
                    · exact absurd h hmm
                    · exact h
                  have hne : mid ≠ (selectAutoResolveOutcome mk).1.id := by
                    rw [selectAutoResolveOutcome_id, hmkid]
                    exact hmm
                  obtain ⟨res, hres2, hsel2, hrb2, hev2, hmid2, hts2⟩ :=
                    hproc2 market hmr (by rw [hmarO mid hne]; exact hma)
                      hclosed hpolS (by rw [hresO mid hne]; exact hnores)
                      houtc
                  exact ⟨res, hres2, hsel2, hrb2, hev2, hmid2,
                    by rw [hts2, hnow7]⟩

/-- C7 (amended): on a well-formed store, the auto-resolve sweep gives every
closed single-policy market with nonempty pools and no stored Resolution a
Resolution whose outcome carries a maximal pool, breaking pool ties towards
the lexicographically largest outcome id (not the smallest, as witnessed by
the tie counterexample), with the market creator as sole resolver and the
synthetic system/auto_resolve evidence item, while leaving the rate-limit
request log, the action-quota log, and the set of stake ledger entries
untouched. -/
theorem auto_resolve_selection (s : State) (mid : MarketId) (market : Market)
    (hInv : autoInv s)
    (hm : alookup s.markets mid = some market)
    (hclosed : market.status = MarketStatus.closed)
    (hpolS : market.resolverPolicy = ResolverPolicy.single)
    (hnores : alookup s.resolutions mid = none)
    (p : OutcomeId × ℚ) (rest : List (OutcomeId × ℚ))
    (hpools : market.outcomePools = p :: rest) :
    ∃ res : Resolution,
      alookup (autoResolveMarkets s).1.resolutions mid = some res ∧
      (∃ w : OutcomeId × ℚ,
        res.resolvedOutcomeId = w.1 ∧ w ∈ market.outcomePools ∧
        (∀ q ∈ market.outcomePools, q.2 ≤ w.2) ∧
        (∀ q ∈ market.outcomePools, q.2 = w.2 → q.1 ≤ w.1)) ∧
      res.resolverBotIds = [market.creatorBotId] ∧
      res.evidence =
        [{ source := "system", description := "auto_resolve" }] ∧
      res.marketId = mid ∧
      (autoResolveMarkets s).1.actionLog = s.actionLog ∧
      (autoResolveMarkets s).1.requestLog = s.requestLog ∧
      stakeEntries (autoResolveMarkets s).1.ledger =
        stakeEntries s.ledger := by
  obtain ⟨s2, heq, hInv2, htr2, hac2, hrq2, hcfg2, hnow2, hstk2, hlk2,
    hpres2, hproc2⟩ :=
    autoResolveList_spec mid (s.markets.map Prod.fst) s hInv
  have hmem : mid ∈ s.markets.map Prod.fst :=
    List.mem_map.mpr ⟨(mid, market), alookup_mem _ _ _ hm, rfl⟩
  have houtc : market.outcomePools ≠ [] ∨ market.outcomes ≠ [] :=
    Or.inl (by rw [hpools]; simp)
  obtain ⟨res, hres, hselR, hrb, hev, hmid, hts⟩ :=
    hproc2 market hmem hm hclosed hpolS hnores houtc
  obtain ⟨hfst, w, hw2, hwmem, hwge, hwtie⟩ :=
    selectAutoResolveOutcome_spec market p rest hpools
  have hout : res.resolvedOutcomeId = w.1 := by
    rw [hw2] at hselR
    exact Option.some.inj hselR
  have heqfst : (autoResolveMarkets s).1 = s2 := by
    rw [autoResolveMarkets, heq]
  refine ⟨res, ?_, ⟨w, hout, hwmem, hwge, hwtie⟩, hrb, hev, hmid, ?_, ?_, ?_⟩
  · rw [heqfst]
    exact hres
  · rw [heqfst]
    exact hac2
  · rw [heqfst]
    exact hrq2
  · rw [heqfst]
    exact hstk2

/-! ### C1: conservation at settlement -/

theorem sum_map_div_mul (w tp : ℚ) (l : List Trade) :
    (l.map (fun u => u.amountBdc / w * tp)).sum =
      (l.map (fun u => u.amountBdc)).sum / w * tp := by
  induction l with
  | nil => simp
  | cons u rest ih =>
    simp only [List.map_cons, List.sum_cons, ih]
    ring

theorem settlePayouts_conservation (s4 : State) (market2 : Market)
    (resolution : Resolution)
    (hb : ∀ t ∈ s4.trades, (lookupBot s4 t.botId).isSome = true)
    (hw : ∀ p ∈ s4.treasuryConfig.liquidityBotWeights,
      0 < p.2 ∧ (lookupBot s4 p.1).isSome = true)
    (hT : 0 ≤ sumSnd market2.outcomePools)
    (hsum : (((s4.trades.filter
        (fun t => t.marketId = resolution.marketId)).filter
        (fun t => t.outcomeId = resolution.resolvedOutcomeId)).map
        (fun t => t.amountBdc)).sum =
      alookupD market2.outcomePools resolution.resolvedOutcomeId 0) :
    ∃ s7 payouts liqEntries,
      settlePayouts s4 market2 resolution =
        (s7, .ok { resolution := resolution, payouts := payouts }) ∧
      s7.ledger = s4.ledger ++ payouts ++ liqEntries ∧
      (∀ e ∈ payouts, e.reason = "payout") ∧
      (∀ e ∈ liqEntries, e.reason = "liquidity_distribution") ∧
      sumSnd market2.outcomePools =
        (payouts.map (fun e => e.deltaBdc)).sum +
        (liqEntries.map (fun e => e.deltaBdc)).sum +
        (s7.treasuryBalanceBdc - s4.treasuryBalanceBdc) +
        untrackedRemainder (sumSnd market2.outcomePools)
          ((payouts.map (fun e => e.deltaBdc)).sum) s4.treasuryConfig ∧
      (¬ 0 < alookupD market2.outcomePools resolution.resolvedOutcomeId 0 →
        payouts = []) := by
  by_cases hwin :
      0 < alookupD market2.outcomePools resolution.resolvedOutcomeId 0
  · obtain ⟨s5, entries, heq, hled, hmap, hreason, hpol5, hmar5, htr5, htb5,
      htl5, hcfg5, hres5, hrv5, hev5, hrq5, hac5, hnow5, hlook5⟩ :=
      payoutWinningTrades_ok resolution.marketId resolution.resolvedOutcomeId
        (alookupD market2.outcomePools resolution.resolvedOutcomeId 0)
        (sumSnd market2.outcomePools)
        (s4.trades.filter (fun t => t.marketId = resolution.marketId)) s4
        (fun t ht _ => hb t (List.mem_of_mem_filter ht))
    have hP : (entries.map (fun e => e.deltaBdc)).sum =
        sumSnd market2.outcomePools := by
      rw [hmap, sum_map_div_mul, hsum, div_self (ne_of_gt hwin), one_mul]
    have hrem : ¬ 0 < sumSnd market2.outcomePools -
        (entries.map (fun e => e.deltaBdc)).sum := by
      rw [hP]
      simp
    rw [settlePayouts]
    simp only [if_pos hwin, heq]
    rw [if_neg hrem]
    refine ⟨s5, entries, [], rfl, ?_, hreason, ?_, ?_, ?_⟩
    · rw [List.append_nil]
      exact hled
    · intro e he
      exact absurd he (List.not_mem_nil e)
    · rw [hP, htb5]
      simp [untrackedRemainder]
    · intro h
      exact absurd hwin h
  · rw [settlePayouts]
    simp only [if_neg hwin, List.map_nil, List.sum_nil, sub_zero]
    by_cases hrem : 0 < sumSnd market2.outcomePools
    · rw [if_pos hrem]
      have hdist : ∃ s6 les,
          (if (0 < s4.treasuryConfig.liquidityBotAllocationPct ∧
                s4.treasuryConfig.liquidityBotWeights ≠ []) ∧
              0 < sumSnd s4.treasuryConfig.liquidityBotWeights then
            distributeLiquidity s4 resolution.marketId
              (if (0 < s4.treasuryConfig.liquidityBotAllocationPct ∧
                  s4.treasuryConfig.liquidityBotWeights ≠ []) ∧
                0 < sumSnd s4.treasuryConfig.liquidityBotWeights then
                sumSnd market2.outcomePools *
                  s4.treasuryConfig.liquidityBotAllocationPct
              else 0)
              (sumSnd s4.treasuryConfig.liquidityBotWeights)
              s4.treasuryConfig.liquidityBotWeights
          else (s4, .ok ())) = (s6, .ok ()) ∧
          s6.ledger = s4.ledger ++ les ∧
          (les.map (fun e => e.deltaBdc)).sum =
            (if (0 < s4.treasuryConfig.liquidityBotAllocationPct ∧
                s4.treasuryConfig.liquidityBotWeights ≠ []) ∧
              0 < sumSnd s4.treasuryConfig.liquidityBotWeights then
              sumSnd market2.outcomePools *
                s4.treasuryConfig.liquidityBotAllocationPct
            else 0) ∧
          (∀ e ∈ les, e.reason = "liquidity_distribution") ∧
          s6.treasuryBalanceBdc = s4.treasuryBalanceBdc := by
        by_cases hen : (0 < s4.treasuryConfig.liquidityBotAllocationPct ∧
            s4.treasuryConfig.liquidityBotWeights ≠ []) ∧
            0 < sumSnd s4.treasuryConfig.liquidityBotWeights
        · obtain ⟨s6, les, heq6, hled6, hsum6, hreason6, hpol6, hmar6, htr6,
            htb6, htl6, hcfg6, hres6, hrv6, hev6, hrq6, hac6, hnow6,
            hlook6⟩ :=
            distributeLiquidity_ok resolution.marketId
              (sumSnd market2.outcomePools *
                s4.treasuryConfig.liquidityBotAllocationPct)
              (sumSnd s4.treasuryConfig.liquidityBotWeights)
              (le_of_lt (mul_pos hrem hen.1.1)) hen.2
              s4.treasuryConfig.liquidityBotWeights s4
              (fun p hp => (hw p hp).1) (fun p hp => (hw p hp).2)
          refine ⟨s6, les, ?_, hled6, ?_, hreason6, htb6⟩
          · rw [if_pos hen, if_pos hen, heq6]
          · rw [if_pos hen, hsum6,
              mul_div_cancel_right₀ _ (ne_of_gt hen.2)]
        · refine ⟨s4, [], by rw [if_neg hen], by simp, ?_, by simp, rfl⟩
          rw [if_neg hen]
          simp
      obtain ⟨s6, les, hdisteq, hled6, hliqsum, hreason6, htb6⟩ := hdist
      simp only [hdisteq]
      by_cases hsend : s4.treasuryConfig.sendUnpaidToTreasury = true ∧
          0 < sumSnd market2.outcomePools -
            (if (0 < s4.treasuryConfig.liquidityBotAllocationPct ∧
                s4.treasuryConfig.liquidityBotWeights ≠ []) ∧
              0 < sumSnd s4.treasuryConfig.liquidityBotWeights then
              sumSnd market2.outcomePools *
                s4.treasuryConfig.liquidityBotAllocationPct
            else 0)
      · rw [if_pos hsend]
        refine ⟨_, [], les, rfl, ?_, ?_, hreason6, ?_, fun _ => rfl⟩
        · simp only [addTreasuryEntry, List.append_nil]
          exact hled6
        · intro e he
          exact absurd he (List.not_mem_nil e)
        · have huntr : untrackedRemainder (sumSnd market2.outcomePools) 0
              s4.treasuryConfig = 0 := by
            simp only [untrackedRemainder, sub_zero]
            rw [if_pos hrem, if_pos hsend]
          simp only [List.map_nil, List.sum_nil, addTreasuryEntry]
          rw [hliqsum, htb6, huntr]
          ring
      · rw [if_neg hsend]
        refine ⟨s6, [], les, rfl, ?_, ?_, hreason6, ?_, fun _ => rfl⟩
        · rw [List.append_nil]
          exact hled6
        · intro e he
          exact absurd he (List.not_mem_nil e)
        · have huntr : untrackedRemainder (sumSnd market2.outcomePools) 0
              s4.treasuryConfig =
              sumSnd market2.outcomePools -
                (if (0 < s4.treasuryConfig.liquidityBotAllocationPct ∧
                    s4.treasuryConfig.liquidityBotWeights ≠ []) ∧
                  0 < sumSnd s4.treasuryConfig.liquidityBotWeights then
                  sumSnd market2.outcomePools *
                    s4.treasuryConfig.liquidityBotAllocationPct
                else 0) := by
            simp only [untrackedRemainder, sub_zero]
            rw [if_pos hrem, if_neg hsend]
          simp only [List.map_nil, List.sum_nil]
          rw [hliqsum, htb6, huntr]
          ring
    · rw [if_neg hrem]
      have hT0 : sumSnd market2.outcomePools = 0 :=
        le_antisymm (not_lt.mp hrem) hT
      refine ⟨s4, [], [], rfl, by simp, ?_, ?_, ?_, fun _ => rfl⟩
      · intro e he
        exact absurd he (List.not_mem_nil e)
      · intro e he
        exact absurd he (List.not_mem_nil e)
      · have huntr : untrackedRemainder (sumSnd market2.outcomePools) 0
            s4.treasuryConfig = 0 := by
          simp only [untrackedRemainder, sub_zero]
          rw [if_neg hrem]
        simp only [List.map_nil, List.sum_nil]
        rw [huntr, hT0]
        ring

/-- C1: money conservation at settlement.  Whenever settle_market_resolution
runs (reached by both the manual resolve endpoint and the auto-resolve
sweep) on a store where every trade's bot and every liquidity-weight bot
exists, liquidity weights are positive, the pools sum is nonnegative, and
the winning pool equals the total amount of the trades on the winning
outcome (the invariant create_trade maintains), settlement succeeds, the
ledger grows by exactly the payout entries followed by the liquidity
entries, and the pools sum splits exactly into payouts plus liquidity
credits plus the treasury credit plus the untracked remainder; with a
non-positive winning pool the payout loop is skipped entirely. -/
theorem settlement_conservation (s : State) (market : Market)
    (winner : OutcomeId) (resolvers : List BotId) (actor : BotId)
    (ev : List EvidenceItem) (votes : List Vote)
    (hb : ∀ t ∈ s.trades, (lookupBot s t.botId).isSome = true)
    (hw : ∀ p ∈ s.treasuryConfig.liquidityBotWeights,
      0 < p.2 ∧ (lookupBot s p.1).isSome = true)
    (hT : 0 ≤ sumSnd market.outcomePools)
    (hsum : (((s.trades.filter (fun t => t.marketId = market.id)).filter
        (fun t => t.outcomeId = winner)).map (fun t => t.amountBdc)).sum =
      alookupD market.outcomePools winner 0) :
    ∃ s7 payouts liqEntries,
      settleMarketResolution s market winner resolvers actor ev votes =
        (s7, .ok { resolution :=
          { marketId := market.id
            resolvedOutcomeId := winner
            resolverBotIds := resolvers
            evidence := ev
            timestamp := s.now }, payouts := payouts }) ∧
      s7.ledger = s.ledger ++ payouts ++ liqEntries ∧
      (∀ e ∈ payouts, e.reason = "payout") ∧
      (∀ e ∈ liqEntries, e.reason = "liquidity_distribution") ∧
      sumSnd market.outcomePools =
        (payouts.map (fun e => e.deltaBdc)).sum +
        (liqEntries.map (fun e => e.deltaBdc)).sum +
        (s7.treasuryBalanceBdc - s.treasuryBalanceBdc) +
        untrackedRemainder (sumSnd market.outcomePools)
          ((payouts.map (fun e => e.deltaBdc)).sum) s.treasuryConfig ∧
      (¬ 0 < alookupD market.outcomePools winner 0 → payouts = []) := by
  obtain ⟨hb0, hp0, hm0, ht0, hl0, htb0, htl0, hcfg0, hr0, hrq0, hac0, hn0⟩ :=
    recordResolution_spec s
      { market with
        status := MarketStatus.resolved
        resolvedAt := some s.now }
      { marketId := market.id
        resolvedOutcomeId := winner
        resolverBotIds := resolvers
        evidence := ev
        timestamp := s.now }
      actor votes
  have hlookup4 : ∀ x, lookupBot (recordResolution s
      { market with
        status := MarketStatus.resolved
        resolvedAt := some s.now }
      { marketId := market.id
        resolvedOutcomeId := winner
        resolverBotIds := resolvers
        evidence := ev
        timestamp := s.now } actor votes) x = lookupBot s x := by
    intro x
    rw [lookupBot, lookupBot, hb0]
  obtain ⟨s7, payouts, liqEntries, heq, hled, hpayR, hliqR, hcons, hzero⟩ :=
    settlePayouts_conservation (recordResolution s
      { market with
        status := MarketStatus.resolved
        resolvedAt := some s.now }
      { marketId := market.id
        resolvedOutcomeId := winner
        resolverBotIds := resolvers
        evidence := ev
        timestamp := s.now } actor votes)
      { market with
        status := MarketStatus.resolved
        resolvedAt := some s.now }
      { marketId := market.id
        resolvedOutcomeId := winner
        resolverBotIds := resolvers
        evidence := ev
        timestamp := s.now }
      (by
        rw [ht0]
        intro t ht
        rw [hlookup4]
        exact hb t ht)
      (by
        rw [hcfg0]
        intro p hp
        rw [hlookup4]
        exact hw p hp)
      hT
      (by
        rw [ht0]
        exact hsum)
  rw [htb0, hcfg0] at hcons
  rw [hl0] at hled
  refine ⟨s7, payouts, liqEntries, ?_, hled, hpayR, hliqR, hcons, hzero⟩
  rw [settleMarketResolution]
  exact heq

/-- C1 witness: the conservation theorem applied to the fixture store. -/
theorem settlement_conservation_witness :
    ∃ s7 payouts liqEntries,
      settleMarketResolution settleStateFx settleMarketFx "YES" [1] 1 [] [] =
        (s7, .ok { resolution :=
          { marketId := settleMarketFx.id
            resolvedOutcomeId := "YES"
            resolverBotIds := [1]
            evidence := []
            timestamp := settleStateFx.now }, payouts := payouts }) ∧
      s7.ledger = settleStateFx.ledger ++ payouts ++ liqEntries ∧
      (∀ e ∈ payouts, e.reason = "payout") ∧
      (∀ e ∈ liqEntries, e.reason = "liquidity_distribution") ∧
      sumSnd settleMarketFx.outcomePools =
        (payouts.map (fun e => e.deltaBdc)).sum +
        (liqEntries.map (fun e => e.deltaBdc)).sum +
        (s7.treasuryBalanceBdc - settleStateFx.treasuryBalanceBdc) +
        untrackedRemainder (sumSnd settleMarketFx.outcomePools)
          ((payouts.map (fun e => e.deltaBdc)).sum)
          settleStateFx.treasuryConfig ∧
      (¬ 0 < alookupD settleMarketFx.outcomePools "YES" 0 → payouts = []) :=
  settlement_conservation settleStateFx settleMarketFx "YES" [1] 1 [] []
    (by decide) (by decide)
    (by norm_num [sumSnd, settleMarketFx])
    (by
      have h1 : decide (("NO" : String) = "YES") = false := by decide
      have h2 : decide (("YES" : String) = "YES") = true := by decide
      norm_num [settleStateFx, settleMarketFx, settleTrade1, settleTrade2,
        alookupD, alookup, List.filter, h1, h2])

/-- C7 witness: the amended theorem applied to the tied-pool fixture. -/
theorem auto_resolve_selection_witness :
    ∃ res : Resolution,
      alookup (autoResolveMarkets tieState).1.resolutions 20 = some res ∧
      (∃ w : OutcomeId × ℚ,
        res.resolvedOutcomeId = w.1 ∧ w ∈ tieMarket.outcomePools ∧
        (∀ q ∈ tieMarket.outcomePools, q.2 ≤ w.2) ∧
        (∀ q ∈ tieMarket.outcomePools, q.2 = w.2 → q.1 ≤ w.1)) ∧
      res.resolverBotIds = [tieMarket.creatorBotId] ∧
      res.evidence =
        [{ source := "system", description := "auto_resolve" }] ∧
      res.marketId = 20 ∧
      (autoResolveMarkets tieState).1.actionLog = tieState.actionLog ∧
      (autoResolveMarkets tieState).1.requestLog = tieState.requestLog ∧
      stakeEntries (autoResolveMarkets tieState).1.ledger =
        stakeEntries tieState.ledger :=
  auto_resolve_selection tieState 20 tieMarket
    ⟨by decide, by decide, by decide⟩ (by decide) (by decide) (by decide)
    (by decide) ("A", 5) [("B", 5)] (by decide)

/-! ### C6: ledger balance lemmas -/

theorem mem_dictInsert_ne {α β : Type} [DecidableEq α] {l : List (α × β)}
    {k : α} {v : β} {p : α × β} (hp : p ∈ dictInsert l k v) :
    p = (k, v) ∨ (p ∈ l ∧ ¬ p.1 = k) := by
  rw [dictInsert] at hp
  by_cases h : l.any (fun q => q.1 = k)
  · rw [if_pos h, List.mem_map] at hp
    obtain ⟨q, hq, hqe⟩ := hp
    by_cases hqk : q.1 = k
    · rw [if_pos hqk] at hqe
      exact Or.inl hqe.symm
    · rw [if_neg hqk] at hqe
      exact Or.inr ⟨hqe ▸ hq, hqe ▸ hqk⟩
  · rw [if_neg h, List.mem_append] at hp
    rcases hp with hp | hp
    · refine Or.inr ⟨hp, ?_⟩
      intro hc
      apply h
      rw [List.any_eq_true]
      exact ⟨p, hp, by simp [hc]⟩
    · rw [List.mem_singleton] at hp
      exact Or.inl hp

theorem ledgerSum_append (l es : List LedgerEntry) (b : BotId) :
    ledgerSum (l ++ es) b = ledgerSum l b + ledgerSum es b := by
  rw [ledgerSum, ledgerSum, ledgerSum, List.filter_append, List.map_append,
    List.sum_append]

theorem ledgerSum_single (e : LedgerEntry) (b : BotId) :
    ledgerSum [e] b = if e.botId = b then e.deltaBdc else 0 := by
  by_cases h : e.botId = b <;>
    simp [ledgerSum, List.filter_cons, h]

theorem treasurySum_append (l es : List TreasuryLedgerEntry) :
    treasurySum (l ++ es) = treasurySum l + treasurySum es := by
  rw [treasurySum, treasurySum, treasurySum, List.map_append,
    List.sum_append]

theorem treasurySum_single (e : TreasuryLedgerEntry) :
    treasurySum [e] = e.deltaBdc := by
  simp [treasurySum]

theorem moneyEq_refl (s : State) : moneyEq s s := ⟨rfl, rfl, rfl, rfl⟩

theorem moneyEq_trans {s1 s2 s3 : State} (h12 : moneyEq s1 s2)
    (h23 : moneyEq s2 s3) : moneyEq s1 s3 := by
  obtain ⟨a1, a2, a3, a4⟩ := h12
  obtain ⟨b1, b2, b3, b4⟩ := h23
  exact ⟨b1.trans a1, b2.trans a2, b3.trans a3, b4.trans a4⟩

theorem balanced_of_moneyEq {s s2 : State} (h : moneyEq s s2)
    (hb : balanced s) : balanced s2 := by
  obtain ⟨h1, h2, h3, h4⟩ := h
  obtain ⟨hb1, hb2⟩ := hb
  constructor
  · rw [h1, h2]
    exact hb1
  · rw [h3, h4]
    exact hb2

theorem balanced_applyLedgerCredit {s : State} {bot : Bot}
    (entry : LedgerEntry) (hb : balanced s)
    (hbot : alookup s.bots bot.id = some bot)
    (hid : entry.botId = bot.id) :
    balanced (applyLedgerCredit s bot entry) := by
  obtain ⟨hb1, hb2⟩ := hb
  constructor
  · intro p hp
    have hpb : p ∈ dictInsert s.bots bot.id
        { bot with walletBalanceBdc :=
            bot.walletBalanceBdc + entry.deltaBdc } := hp
    have hled : (applyLedgerCredit s bot entry).ledger =
        s.ledger ++ [entry] := rfl
    rw [hled, ledgerSum_append, ledgerSum_single]
    rcases mem_dictInsert_ne hpb with hpe | ⟨hpl, hpk⟩
    · rw [hpe]
      refine ⟨rfl, ?_⟩
      rw [hid]
      rw [if_pos rfl]
      have hw := (hb1 (bot.id, bot) (alookup_mem _ _ _ hbot)).2
      show bot.walletBalanceBdc + entry.deltaBdc =
        ledgerSum s.ledger bot.id + entry.deltaBdc
      rw [hw]
    · have hq := hb1 p hpl
      refine ⟨hq.1, ?_⟩
      rw [hq.2, hid, if_neg (fun hc => hpk hc.symm), add_zero]
  · exact hb2

theorem balanced_treasuryCredit {s : State} (a : ℚ)
    (e : TreasuryLedgerEntry) (hb : balanced s) (he : e.deltaBdc = a) :
    balanced (addTreasuryEntry
      { s with treasuryBalanceBdc := s.treasuryBalanceBdc + a } e) := by
  obtain ⟨hb1, hb2⟩ := hb
  constructor
  · intro p hp
    exact hb1 p hp
  · show s.treasuryBalanceBdc + a = treasurySum (s.treasuryLedger ++ [e])
    rw [treasurySum_append, treasurySum_single, hb2, he]

theorem balanced_applyStake {s : State} {bot : Bot} (amount : ℚ)
    (reason : String) (mid : Option MarketId) (hb : balanced s)
    (hbot : alookup s.bots bot.id = some bot) :
    balanced (applyStake s bot amount reason mid).1 := by
  by_cases h0 : amount ≤ 0
  · have hx : (applyStake s bot amount reason mid).1 = s := by
      rw [applyStake, if_pos h0]
    rw [hx]
    exact hb
  · by_cases h1 : bot.walletBalanceBdc < amount
    · have hx : (applyStake s bot amount reason mid).1 =
          recordAlert s (some bot.id) := by
        rw [applyStake, if_neg h0, if_pos h1]
      rw [hx]
      exact balanced_of_moneyEq ⟨rfl, rfl, rfl, rfl⟩ hb
    · have hcred : balanced (applyLedgerCredit s bot
          { botId := bot.id
            marketId := mid
            deltaBdc := -amount
            reason := reason
            timestamp := s.now }) :=
        balanced_applyLedgerCredit _ hb hbot rfl
      have hx : (applyStake s bot amount reason mid).1 =
          addTreasuryEntry
            { applyLedgerCredit s bot
                { botId := bot.id
                  marketId := mid
                  deltaBdc := -amount
                  reason := reason
                  timestamp := s.now } with
              treasuryBalanceBdc :=
                (applyLedgerCredit s bot
                  { botId := bot.id
                    marketId := mid
                    deltaBdc := -amount
                    reason := reason
                    timestamp := s.now }).treasuryBalanceBdc + amount }
            { marketId := mid
              deltaBdc := amount
              reason := reason
              timestamp := s.now } := by
        rw [applyStake, if_neg h0, if_neg h1]
        rfl
      rw [hx]
      exact balanced_treasuryCredit amount _ hcred rfl

theorem balanced_payoutWinningTrades (mid : MarketId) (winner : OutcomeId)
    (wp tp : ℚ) (ts : List Trade) : ∀ (s : State), balanced s →
    balanced (payoutWinningTrades s mid winner wp tp ts).1 := by
  induction ts with
  | nil =>
    intro s hb
    exact hb
  | cons t rest ih =>
    intro s hb
    by_cases ht : t.outcomeId ≠ winner
    · have hx : (payoutWinningTrades s mid winner wp tp (t :: rest)).1 =
          (payoutWinningTrades s mid winner wp tp rest).1 := by
        rw [payoutWinningTrades, if_pos ht]
      rw [hx]
      exact ih s hb
    · cases hbot : lookupBot s t.botId with
      | none =>
        have hx : (payoutWinningTrades s mid winner wp tp (t :: rest)).1 =
            s := by
          simp only [payoutWinningTrades, if_neg ht, hbot]
        rw [hx]
        exact hb
      | some bot =>
        have hbot2 : alookup s.bots t.botId = some bot := hbot
        have hid : bot.id = t.botId :=
          (hb.1 (t.botId, bot) (alookup_mem _ _ _ hbot2)).1
        have hbot3 : alookup s.bots bot.id = some bot := by
          rw [hid]
          exact hbot2
        have hcred : balanced (applyLedgerCredit s bot
            { botId := t.botId
              marketId := some mid
              deltaBdc := t.amountBdc / wp * tp
              reason := "payout"
              timestamp := s.now }) :=
          balanced_applyLedgerCredit _ hb hbot3 hid.symm
        have hx : (payoutWinningTrades s mid winner wp tp (t :: rest)).1 =
            (payoutWinningTrades (applyLedgerCredit s bot
              { botId := t.botId
                marketId := some mid
                deltaBdc := t.amountBdc / wp * tp
                reason := "payout"
                timestamp := s.now }) mid winner wp tp rest).1 := by
          simp only [payoutWinningTrades, if_neg ht, hbot]
          cases hrec : payoutWinningTrades (applyLedgerCredit s bot
              { botId := t.botId
                marketId := some mid
                deltaBdc := t.amountBdc / wp * tp
                reason := "payout"
                timestamp := s.now }) mid winner wp tp rest with
          | mk s2 res =>
            cases res <;> rfl
        rw [hx]
        exact ih _ hcred

theorem balanced_distributeLiquidity (mid : MarketId) (liq wS : ℚ)
    (ws : List (BotId × ℚ)) : ∀ (s : State), balanced s →
    balanced (distributeLiquidity s mid liq wS ws).1 := by
  induction ws with
  | nil =>
    intro s hb
    exact hb
  | cons p rest ih =>
    obtain ⟨bid, w⟩ := p
    intro s hb
    by_cases hw0 : w ≤ 0
    · have hx : (distributeLiquidity s mid liq wS ((bid, w) :: rest)).1 =
          (distributeLiquidity s mid liq wS rest).1 := by
        rw [distributeLiquidity, if_pos hw0]
      rw [hx]
      exact ih s hb
    · by_cases hamt : liq * (w / wS) ≤ 0
      · have hx : (distributeLiquidity s mid liq wS ((bid, w) :: rest)).1 =
            (distributeLiquidity s mid liq wS rest).1 := by
          simp only [distributeLiquidity, if_neg hw0, if_pos hamt]
        rw [hx]
        exact ih s hb
      · cases hbot : lookupBot s bid with
        | none =>
          have hx : (distributeLiquidity s mid liq wS
              ((bid, w) :: rest)).1 = s := by
            simp only [distributeLiquidity, if_neg hw0, if_neg hamt, hbot]
          rw [hx]
          exact hb
        | some bot =>
          have hbot2 : alookup s.bots bid = some bot := hbot
          have hid : bot.id = bid :=
            (hb.1 (bid, bot) (alookup_mem _ _ _ hbot2)).1
          have hbot3 : alookup s.bots bot.id = some bot := by
            rw [hid]
            exact hbot2
          have hcred : balanced (applyLedgerCredit s bot
              { botId := bid
                marketId := some mid
                deltaBdc := liq * (w / wS)
                reason := "liquidity_distribution"
                timestamp := s.now }) :=
            balanced_applyLedgerCredit _ hb hbot3 hid.symm
          have hx : (distributeLiquidity s mid liq wS
              ((bid, w) :: rest)).1 =
              (distributeLiquidity (applyLedgerCredit s bot
                { botId := bid
                  marketId := some mid
                  deltaBdc := liq * (w / wS)
                  reason := "liquidity_distribution"
                  timestamp := s.now }) mid liq wS rest).1 := by
            simp only [distributeLiquidity, if_neg hw0, if_neg hamt, hbot]
          rw [hx]
          exact ih _ hcred

theorem balanced_settlePayouts (s4 : State) (market2 : Market)
    (resolution : Resolution) (hb : balanced s4) :
    balanced (settlePayouts s4 market2 resolution).1 := by
  cases hp :
      (if 0 < alookupD market2.outcomePools resolution.resolvedOutcomeId 0
        then payoutWinningTrades s4 resolution.marketId
          resolution.resolvedOutcomeId
          (alookupD market2.outcomePools resolution.resolvedOutcomeId 0)
          (sumSnd market2.outcomePools)
          (s4.trades.filter (fun t => t.marketId = resolution.marketId))
        else (s4, Except.ok [])) with
  | mk s5 res5 =>
  have h5 : balanced s5 := by
    by_cases hc :
        0 < alookupD market2.outcomePools resolution.resolvedOutcomeId 0
    · rw [if_pos hc] at hp
      have h := balanced_payoutWinningTrades resolution.marketId
        resolution.resolvedOutcomeId
        (alookupD market2.outcomePools resolution.resolvedOutcomeId 0)
        (sumSnd market2.outcomePools)
        (s4.trades.filter (fun t => t.marketId = resolution.marketId))
        s4 hb
      rw [hp] at h
      exact h
    · rw [if_neg hc] at hp
      injection hp with h1 h2
      rw [← h1]
      exact hb
  cases res5 with
  | error e =>
    have hx : (settlePayouts s4 market2 resolution).1 = s5 := by
      rw [settlePayouts]
      simp only [hp]
    rw [hx]
    exact h5
  | ok payouts =>
    rw [settlePayouts]
    simp only [hp]
    by_cases hrem : 0 < sumSnd market2.outcomePools -
        (payouts.map (fun e => e.deltaBdc)).sum
    · rw [if_pos hrem]
      cases hd :
          (if (0 < s5.treasuryConfig.liquidityBotAllocationPct ∧
                s5.treasuryConfig.liquidityBotWeights ≠ []) ∧
              0 < sumSnd s5.treasuryConfig.liquidityBotWeights then
            distributeLiquidity s5 resolution.marketId
              (if (0 < s5.treasuryConfig.liquidityBotAllocationPct ∧
                  s5.treasuryConfig.liquidityBotWeights ≠ []) ∧
                0 < sumSnd s5.treasuryConfig.liquidityBotWeights then
                (sumSnd market2.outcomePools -
                  (payouts.map (fun e => e.deltaBdc)).sum) *
                  s5.treasuryConfig.liquidityBotAllocationPct
              else 0)
              (sumSnd s5.treasuryConfig.liquidityBotWeights)
              s5.treasuryConfig.liquidityBotWeights
          else (s5, Except.ok ())) with
      | mk s6 res6 =>
      have h6 : balanced s6 := by
        by_cases hen : (0 < s5.treasuryConfig.liquidityBotAllocationPct ∧
            s5.treasuryConfig.liquidityBotWeights ≠ []) ∧
            0 < sumSnd s5.treasuryConfig.liquidityBotWeights
        · rw [if_pos hen] at hd
          rw [if_pos hen] at hd
          have h := balanced_distributeLiquidity resolution.marketId
            ((sumSnd market2.outcomePools -
              (payouts.map (fun e => e.deltaBdc)).sum) *
              s5.treasuryConfig.liquidityBotAllocationPct)
            (sumSnd s5.treasuryConfig.liquidityBotWeights)
            s5.treasuryConfig.liquidityBotWeights s5 h5
          rw [hd] at h
          exact h
        · rw [if_neg hen] at hd
          injection hd with h1 h2
          rw [← h1]
          exact h5
      cases res6 with
      | error e =>
        simp only [hd]
        exact h6
      | ok u =>
        simp only [hd]
        by_cases hsend : s5.treasuryConfig.sendUnpaidToTreasury = true ∧
            0 < sumSnd market2.outcomePools -
              (payouts.map (fun e => e.deltaBdc)).sum -
              (if (0 < s5.treasuryConfig.liquidityBotAllocationPct ∧
                  s5.treasuryConfig.liquidityBotWeights ≠ []) ∧
                0 < sumSnd s5.treasuryConfig.liquidityBotWeights then
                (sumSnd market2.outcomePools -
                  (payouts.map (fun e => e.deltaBdc)).sum) *
                  s5.treasuryConfig.liquidityBotAllocationPct
              else 0)
        · rw [if_pos hsend]
          exact balanced_treasuryCredit _ _ h6 rfl
        · rw [if_neg hsend]
          exact h6
    · rw [if_neg hrem]
      exact h5

theorem balanced_settleMarketResolution (s : State) (market : Market)
    (winner : OutcomeId) (resolvers : List BotId) (actor : BotId)
    (ev : List EvidenceItem) (votes : List Vote) (hb : balanced s) :
    balanced (settleMarketResolution s market winner resolvers actor ev
      votes).1 := by
  obtain ⟨hb0, _, _, _, hl0, htb0, htl0, _, _, _, _, _⟩ :=
    recordResolution_spec s
      { market with
        status := MarketStatus.resolved
        resolvedAt := some s.now }
      { marketId := market.id
        resolvedOutcomeId := winner
        resolverBotIds := resolvers
        evidence := ev
        timestamp := s.now }
      actor votes
  have hrec : balanced (recordResolution s
      { market with
        status := MarketStatus.resolved
        resolvedAt := some s.now }
      { marketId := market.id
        resolvedOutcomeId := winner
        resolverBotIds := resolvers
        evidence := ev
        timestamp := s.now } actor votes) :=
    balanced_of_moneyEq ⟨hb0, hl0, htb0, htl0⟩ hb
  rw [settleMarketResolution]
  exact balanced_settlePayouts _ _ _ hrec

theorem balanced_autoResolveList : ∀ (l : List MarketId) (s : State),
    balanced s → balanced (autoResolveList s l).1 := by
  intro l
  induction l with
  | nil =>
    intro s hb
    exact hb
  | cons mid2 rest ih =>
    intro s hb
    cases hm : lookupMarket s mid2 with
    | none =>
      have hx : (autoResolveList s (mid2 :: rest)).1 =
          (autoResolveList s rest).1 := by
        simp only [autoResolveList, hm]
      rw [hx]
      exact ih s hb
    | some mk =>
      by_cases h1 : mk.status ≠ MarketStatus.closed
      · have hx : (autoResolveList s (mid2 :: rest)).1 =
            (autoResolveList s rest).1 := by
          simp only [autoResolveList, hm, if_pos h1]
        rw [hx]
        exact ih s hb
      · by_cases h2 : mk.resolverPolicy ≠ ResolverPolicy.single
        · have hx : (autoResolveList s (mid2 :: rest)).1 =
              (autoResolveList s rest).1 := by
            simp only [autoResolveList, hm, if_neg h1, if_pos h2]
          rw [hx]
          exact ih s hb
        · by_cases h3 : (alookup s.resolutions mk.id).isSome = true
          · have hx : (autoResolveList s (mid2 :: rest)).1 =
                (autoResolveList s rest).1 := by
              simp only [autoResolveList, hm, if_neg h1, if_neg h2,
                if_pos h3]
            rw [hx]
            exact ih s hb
          · cases hsel : (selectAutoResolveOutcome mk).2 with
            | none =>
              have hps : selectAutoResolveOutcome mk =
                  ((selectAutoResolveOutcome mk).1, none) := by
                rw [← hsel]
              have hx : (autoResolveList s (mid2 :: rest)).1 =
                  (autoResolveList s rest).1 := by
                simp only [autoResolveList, hm, if_neg h1, if_neg h2,
                  if_neg h3]
                rw [hps]
              rw [hx]
              exact ih s hb
            | some o =>
              have hps : selectAutoResolveOutcome mk =
                  ((selectAutoResolveOutcome mk).1, some o) := by
                rw [← hsel]
              obtain ⟨s7, res7, hst, h7⟩ : ∃ s7 res7,
                  settleMarketResolution s (selectAutoResolveOutcome mk).1 o
                    [(selectAutoResolveOutcome mk).1.creatorBotId]
                    (selectAutoResolveOutcome mk).1.creatorBotId
                    [{ source := "system", description := "auto_resolve" }]
                    [] = (s7, res7) ∧ balanced s7 :=
                ⟨_, _, rfl,
                  balanced_settleMarketResolution s _ o _ _ _ [] hb⟩
              cases res7 with
              | error e =>
                have hx : (autoResolveList s (mid2 :: rest)).1 = s7 := by
                  simp only [autoResolveList, hm, if_neg h1, if_neg h2,
                    if_neg h3]
                  rw [hps]
                  simp only [hst]
                rw [hx]
                exact h7
              | ok u =>
                have hx : (autoResolveList s (mid2 :: rest)).1 =
                    (autoResolveList s7 rest).1 := by
                  simp only [autoResolveList, hm, if_neg h1, if_neg h2,
                    if_neg h3]
                  rw [hps]
                  simp only [hst]
                rw [hx]
                exact ih s7 h7

theorem balanced_autoResolveMarkets (s : State) (hb : balanced s) :
    balanced (autoResolveMarkets s).1 := by
  rw [autoResolveMarkets]
  exact balanced_autoResolveList _ s hb

theorem ensureBotPolicy_money (s : State) (b : Bot) :
    ∀ s1 p, ensureBotPolicy s b = (s1, p) → moneyEq s s1 := by
  intro s1 p h
  cases hlk : alookup s.botPolicies b.id with
  | some q =>
    simp only [ensureBotPolicy, hlk] at h
    injection h with h1 h2
    rw [← h1]
    exact moneyEq_refl s
  | none =>
    simp only [ensureBotPolicy, hlk] at h
    injection h with h1 h2
    rw [← h1]
    exact ⟨rfl, rfl, rfl, rfl⟩

theorem authenticateBot_money (s : State) (a r : BotId) (key : String)
    (act : Bool) : ∀ s1 res, authenticateBot s a r key act = (s1, res) →
    moneyEq s s1 ∧
    (∀ bot, res = .ok bot → alookup s.bots a = some bot) := by
  intro s1 res h
  by_cases h1 : a ≠ r
  · rw [authenticateBot, if_pos h1] at h
    injection h with hA hB
    rw [← hA]
    refine ⟨moneyEq_refl s, ?_⟩
    intro bot hbot
    rw [← hB] at hbot
    exact Except.noConfusion hbot
  · cases hlb : lookupBot s a with
    | none =>
      simp only [authenticateBot, if_neg h1, hlb] at h
      injection h with hA hB
      rw [← hA]
      refine ⟨moneyEq_refl s, ?_⟩
      intro bot hbot
      rw [← hB] at hbot
      exact Except.noConfusion hbot
    | some bot0 =>
      by_cases h2 : bot0.apiKey ≠ key
      · simp only [authenticateBot, if_neg h1, hlb, if_pos h2] at h
        injection h with hA hB
        rw [← hA]
        refine ⟨moneyEq_refl s, ?_⟩
        intro bot hbot
        rw [← hB] at hbot
        exact Except.noConfusion hbot
      · cases hep : ensureBotPolicy s bot0 with
        | mk s2 policy =>
        have hm2 : moneyEq s s2 := ensureBotPolicy_money s bot0 s2 policy hep
        by_cases h3 : policy.status = BotStatus.paused
        · simp only [authenticateBot, if_neg h1, hlb, if_neg h2, hep,
            if_pos h3] at h
          injection h with hA hB
          rw [← hA]
          refine ⟨hm2, ?_⟩
          intro bot hbot
          rw [← hB] at hbot
          exact Except.noConfusion hbot
        · by_cases h4 : act = true ∧ policy.status ≠ BotStatus.active
          · simp only [authenticateBot, if_neg h1, hlb, if_neg h2, hep,
              if_neg h3, if_pos h4] at h
            injection h with hA hB
            rw [← hA]
            refine ⟨hm2, ?_⟩
            intro bot hbot
            rw [← hB] at hbot
            exact Except.noConfusion hbot
          · by_cases h5 : policy.maxRequestsPerMinute ≤
                (pruneBotRequests s2 bot0.id 60).length
            · simp only [authenticateBot, if_neg h1, hlb, if_neg h2, hep,
                if_neg h3, if_neg h4, if_pos h5] at h
              injection h with hA hB
              rw [← hA]
              refine ⟨moneyEq_trans hm2 ⟨rfl, rfl, rfl, rfl⟩, ?_⟩
              intro bot hbot
              rw [← hB] at hbot
              exact Except.noConfusion hbot
            · simp only [authenticateBot, if_neg h1, hlb, if_neg h2, hep,
                if_neg h3, if_neg h4, if_neg h5] at h
              injection h with hA hB
              rw [← hA]
              refine ⟨moneyEq_trans hm2 ⟨rfl, rfl, rfl, rfl⟩, ?_⟩
              intro bot hbot
              rw [← hB] at hbot
              injection hbot with hbb
              rw [← hbb]
              rw [lookupBot] at hlb
              exact hlb

theorem enforceActionQuota_money (s : State) (b : Bot) (action : String)
    (mx : Nat) : ∀ s1 res, enforceActionQuota s b action mx = (s1, res) →
    moneyEq s s1 := by
  intro s1 res h
  by_cases h0 : mx = 0
  · rw [enforceActionQuota, if_pos h0] at h
    injection h with hA hB
    rw [← hA]
    exact moneyEq_refl s
  · by_cases h1 : mx ≤ (pruneBotActions s b.id action).length
    · simp only [enforceActionQuota, if_neg h0, if_pos h1] at h
      injection h with hA hB
      rw [← hA]
      exact ⟨rfl, rfl, rfl, rfl⟩
    · simp only [enforceActionQuota, if_neg h0, if_neg h1] at h
      injection h with hA hB
      rw [← hA]
      exact ⟨rfl, rfl, rfl, rfl⟩

theorem balanced_depositBdc (s : State) (b : BotId) (a : ℚ)
    (r k : String) (rb : BotId) (hb : balanced s) :
    balanced (depositBdc s b a r k rb).1 := by
  cases hauth : authenticateBot s b rb k false with
  | mk s1 res =>
  obtain ⟨hm, hok⟩ := authenticateBot_money s b rb k false s1 res hauth
  cases res with
  | error e =>
    have hx : (depositBdc s b a r k rb).1 = s1 := by
      simp only [depositBdc, hauth]
    rw [hx]
    exact balanced_of_moneyEq hm hb
  | ok bot =>
    have hbot : alookup s.bots b = some bot := hok bot rfl
    have hid : bot.id = b := (hb.1 (b, bot) (alookup_mem _ _ _ hbot)).1
    have hb1 : balanced s1 := balanced_of_moneyEq hm hb
    have hbot1 : alookup s1.bots bot.id = some bot := by
      rw [hm.1, hid]
      exact hbot
    have hx : (depositBdc s b a r k rb).1 =
        applyLedgerCredit s1 bot
          { botId := bot.id
            marketId := none
            deltaBdc := a
            reason := r
            timestamp := s1.now } := by
      simp only [depositBdc, hauth]
    rw [hx]
    exact balanced_applyLedgerCredit _ hb1 hbot1 rfl

theorem balanced_createTrade (s : State) (m : MarketId) (b : BotId)
    (o : OutcomeId) (a : ℚ) (k : String) (rb : BotId) (hb : balanced s) :
    balanced (createTrade s m b o a k rb).1 := by
  have hbc : balanced (closeExpiredMarkets s) :=
    balanced_of_moneyEq ⟨rfl, rfl, rfl, rfl⟩ hb
  cases hmk : lookupMarket (closeExpiredMarkets s) m with
  | none =>
    have hx : (createTrade s m b o a k rb).1 = closeExpiredMarkets s := by
      simp only [createTrade, hmk]
    rw [hx]
    exact hbc
  | some market =>
    by_cases hst : market.status ≠ MarketStatus.«open»
    · have hx : (createTrade s m b o a k rb).1 = closeExpiredMarkets s := by
        simp only [createTrade, hmk, if_pos hst]
      rw [hx]
      exact hbc
    · cases hauth : authenticateBot (closeExpiredMarkets s) b rb k true with
      | mk s1 res =>
      obtain ⟨hm, hok⟩ :=
        authenticateBot_money (closeExpiredMarkets s) b rb k true s1 res
          hauth
      cases res with
      | error e =>
        have hx : (createTrade s m b o a k rb).1 = s1 := by
          simp only [createTrade, hmk, if_neg hst, hauth]
        rw [hx]
        exact balanced_of_moneyEq hm hbc
      | ok bot =>
        cases hep : ensureBotPolicy s1 bot with
        | mk s2 policy =>
        have hm2 : moneyEq (closeExpiredMarkets s) s2 :=
          moneyEq_trans hm (ensureBotPolicy_money s1 bot s2 policy hep)
        have hb2 : balanced s2 := balanced_of_moneyEq hm2 hbc
        by_cases ho : o ∉ market.outcomes
        · have hx : (createTrade s m b o a k rb).1 = s2 := by
            simp only [createTrade, hmk, if_neg hst, hauth, hep, if_pos ho]
          rw [hx]
          exact hb2
        · by_cases hbal : bot.walletBalanceBdc < a
          · have hx : (createTrade s m b o a k rb).1 = s2 := by
              simp only [createTrade, hmk, if_neg hst, hauth, hep,
                if_neg ho, if_pos hbal]
            rw [hx]
            exact hb2
          · by_cases hlim : policy.maxTradeBdc < a
            · have hx : (createTrade s m b o a k rb).1 = s2 := by
                simp only [createTrade, hmk, if_neg hst, hauth, hep,
                  if_neg ho, if_neg hbal, if_pos hlim]
              rw [hx]
              exact hb2
            · have hbot : alookup (closeExpiredMarkets s).bots b =
                  some bot := hok bot rfl
              have hid : bot.id = b :=
                (hbc.1 (b, bot) (alookup_mem _ _ _ hbot)).1
              have hbot2 : alookup s2.bots bot.id = some bot := by
                rw [hm2.1, hid]
                exact hbot
              have hcred : balanced (applyLedgerCredit s2 bot
                  { botId := bot.id
                    marketId := some market.id
                    deltaBdc := -a
                    reason := "trade"
                    timestamp := s2.now }) :=
                balanced_applyLedgerCredit _ hb2 hbot2 rfl
              have hx : moneyEq (applyLedgerCredit s2 bot
                  { botId := bot.id
                    marketId := some market.id
                    deltaBdc := -a
                    reason := "trade"
                    timestamp := s2.now })
                  (createTrade s m b o a k rb).1 := by
                simp only [createTrade, hmk, if_neg hst, hauth, hep,
                  if_neg ho, if_neg hbal, if_neg hlim]
                exact ⟨rfl, rfl, rfl, rfl⟩
              exact balanced_of_moneyEq hx hcred

theorem balanced_createMarket (s : State) (payload : MarketCreateRequest)
    (k : String) (rb : BotId) (nid : MarketId) (hb : balanced s) :
    balanced (createMarket s payload k rb nid).1 := by
  cases hauth : authenticateBot s payload.creatorBotId rb k true with
  | mk s1 res =>
  obtain ⟨hm, hok⟩ :=
    authenticateBot_money s payload.creatorBotId rb k true s1 res hauth
  cases res with
  | error e =>
    have hx : (createMarket s payload k rb nid).1 = s1 := by
      simp only [createMarket, hauth]
    rw [hx]
    exact balanced_of_moneyEq hm hb
  | ok creator =>
    cases hep : ensureBotPolicy s1 creator with
    | mk s2 policy =>
    have hm2 : moneyEq s s2 :=
      moneyEq_trans hm (ensureBotPolicy_money s1 creator s2 policy hep)
    have hb2 : balanced s2 := balanced_of_moneyEq hm2 hb
    cases hesr : enforceStakeRequirements creator.walletBalanceBdc
        creator.reputationScore policy.minBalanceBdcForMarket
        policy.minReputationScoreForMarket with
    | error e =>
      have hx : (createMarket s payload k rb nid).1 =
          recordAlert s2 (some creator.id) := by
        simp only [createMarket, hauth, hep, hesr]
      rw [hx]
      exact balanced_of_moneyEq (moneyEq_trans hm2 ⟨rfl, rfl, rfl, rfl⟩) hb
    | ok u =>
      cases hq : enforceActionQuota s2 creator "market_create"
          policy.maxMarketsPerDay with
      | mk s3 resq =>
      have hm3 : moneyEq s s3 :=
        moneyEq_trans hm2
          (enforceActionQuota_money s2 creator "market_create"
            policy.maxMarketsPerDay s3 resq hq)
      have hb3 : balanced s3 := balanced_of_moneyEq hm3 hb
      cases resq with
      | error e =>
        have hx : (createMarket s payload k rb nid).1 = s3 := by
          simp only [createMarket, hauth, hep, hesr, hq]
        rw [hx]
        exact hb3
      | ok u2 =>
        by_cases hlimit : policy.maxActiveMarkets ≠ 0 ∧
            policy.maxActiveMarkets ≤ (s3.markets.filter
              (fun p => p.2.creatorBotId = creator.id ∧
                p.2.status = MarketStatus.«open»)).length
        · have hx : (createMarket s payload k rb nid).1 = s3 := by
            simp only [createMarket, hauth, hep, hesr, hq, if_pos hlimit]
          rw [hx]
          exact hb3
        · cases hstake : applyStake s3 creator policy.stakeBdcMarket
              "market_stake" none with
          | mk s4 ress =>
          have hbot : alookup s.bots payload.creatorBotId = some creator :=
            hok creator rfl
          have hid : creator.id = payload.creatorBotId :=
            (hb.1 (payload.creatorBotId, creator)
              (alookup_mem _ _ _ hbot)).1
          have hbot3 : alookup s3.bots creator.id = some creator := by
            rw [hm3.1, hid]
            exact hbot
          have hb4 : balanced s4 := by
            have h := balanced_applyStake policy.stakeBdcMarket
              "market_stake" none hb3 hbot3
            rw [hstake] at h
            exact h
          cases ress with
          | error e =>
            have hx : (createMarket s payload k rb nid).1 = s4 := by
              simp only [createMarket, hauth, hep, hesr, hq,
                if_neg hlimit, hstake]
            rw [hx]
            exact hb4
          | ok u3 =>
            have hx : moneyEq s4 (createMarket s payload k rb nid).1 := by
              simp only [createMarket, hauth, hep, hesr, hq,
                if_neg hlimit, hstake]
              exact ⟨rfl, rfl, rfl, rfl⟩
            exact balanced_of_moneyEq hx hb4

theorem balanced_resolveMarket (s : State) (m : MarketId)
    (payload : ResolutionRequest) (k : String) (rb : BotId)
    (hb : balanced s) :
    balanced (resolveMarket s m payload k rb).1 := by
  have hbc : balanced (closeExpiredMarkets s) :=
    balanced_of_moneyEq ⟨rfl, rfl, rfl, rfl⟩ hb
  cases hmk : lookupMarket (closeExpiredMarkets s) m with
  | none =>
    have hx : (resolveMarket s m payload k rb).1 = closeExpiredMarkets s := by
      simp only [resolveMarket, hmk]
    rw [hx]
    exact hbc
  | some market =>
  by_cases hres : market.status = MarketStatus.resolved
  · have hx : (resolveMarket s m payload k rb).1 = closeExpiredMarkets s := by
      simp only [resolveMarket, hmk, if_pos hres]
    rw [hx]
    exact hbc
  by_cases hnd : ¬ payload.resolverBotIds.Nodup
  · have hx : (resolveMarket s m payload k rb).1 = closeExpiredMarkets s := by
      simp only [resolveMarket, hmk, if_neg hres, if_pos hnd]
    rw [hx]
    exact hbc
  by_cases hemp : payload.resolverBotIds = []
  · have hx : (resolveMarket s m payload k rb).1 = closeExpiredMarkets s := by
      simp only [resolveMarket, hmk, if_neg hres, if_neg hnd, if_pos hemp]
    rw [hx]
    exact hbc
  by_cases hmem : rb ∉ payload.resolverBotIds
  · have hx : (resolveMarket s m payload k rb).1 = closeExpiredMarkets s := by
      simp only [resolveMarket, hmk, if_neg hres, if_neg hnd, if_neg hemp,
        if_pos hmem]
    rw [hx]
    exact hbc
  cases hauth : authenticateBot (closeExpiredMarkets s) rb rb k true with
  | mk s1 res =>
  obtain ⟨hm1, hok⟩ :=
    authenticateBot_money (closeExpiredMarkets s) rb rb k true s1 res hauth
  cases res with
  | error e =>
    have hx : (resolveMarket s m payload k rb).1 = s1 := by
      simp only [resolveMarket, hmk, if_neg hres, if_neg hnd, if_neg hemp,
        if_neg hmem, hauth]
    rw [hx]
    exact balanced_of_moneyEq hm1 hbc
  | ok actorBot =>
  cases hep : ensureBotPolicy s1 actorBot with
  | mk s2 policy =>
  have hm2 : moneyEq (closeExpiredMarkets s) s2 :=
    moneyEq_trans hm1 (ensureBotPolicy_money s1 actorBot s2 policy hep)
  have hb2 : balanced s2 := balanced_of_moneyEq hm2 hbc
  cases hesr : enforceStakeRequirements actorBot.walletBalanceBdc
      actorBot.reputationScore policy.minBalanceBdcForResolution
      policy.minReputationScoreForResolution with
  | error e =>
    have hx : (resolveMarket s m payload k rb).1 =
        recordAlert s2 (some actorBot.id) := by
      simp only [resolveMarket, hmk, if_neg hres, if_neg hnd, if_neg hemp,
        if_neg hmem, hauth, hep, hesr]
    rw [hx]
    exact balanced_of_moneyEq (moneyEq_trans hm2 ⟨rfl, rfl, rfl, rfl⟩) hbc
  | ok u =>
  cases hq : enforceActionQuota s2 actorBot "resolve_market"
      policy.maxResolutionsPerDay with
  | mk s3 resq =>
  have hm3 : moneyEq (closeExpiredMarkets s) s3 :=
    moneyEq_trans hm2
      (enforceActionQuota_money s2 actorBot "resolve_market"
        policy.maxResolutionsPerDay s3 resq hq)
  have hb3 : balanced s3 := balanced_of_moneyEq hm3 hbc
  cases resq with
  | error e =>
    have hx : (resolveMarket s m payload k rb).1 = s3 := by
      simp only [resolveMarket, hmk, if_neg hres, if_neg hnd, if_neg hemp,
        if_neg hmem, hauth, hep, hesr, hq]
    rw [hx]
    exact hb3
  | ok u2 =>
  by_cases hall : ¬ payload.resolverBotIds.all
      (fun rid => (lookupBot s3 rid).isSome)
  · have hx : (resolveMarket s m payload k rb).1 = s3 := by
      simp only [resolveMarket, hmk, if_neg hres, if_neg hnd, if_neg hemp,
        if_neg hmem, hauth, hep, hesr, hq, if_pos hall]
    rw [hx]
    exact hb3
  cases hdec : resolutionDecision s3 market payload with
  | error e =>
    have hx : (resolveMarket s m payload k rb).1 = s3 := by
      simp only [resolveMarket, hmk, if_neg hres, if_neg hnd, if_neg hemp,
        if_neg hmem, hauth, hep, hesr, hq, if_neg hall, hdec]
    rw [hx]
    exact hb3
  | ok out =>
  by_cases hexp : payload.resolvedOutcomeId.any (fun o => o != out) = true
  · have hx : (resolveMarket s m payload k rb).1 = s3 := by
      simp only [resolveMarket, hmk, if_neg hres, if_neg hnd, if_neg hemp,
        if_neg hmem, hauth, hep, hesr, hq, if_neg hall, hdec, if_pos hexp]
    rw [hx]
    exact hb3
  have hbot : alookup (closeExpiredMarkets s).bots rb = some actorBot :=
    hok actorBot rfl
  have hid : actorBot.id = rb :=
    (hbc.1 (rb, actorBot) (alookup_mem _ _ _ hbot)).1
  have hbot3 : alookup s3.bots actorBot.id = some actorBot := by
    rw [hm3.1, hid]
    exact hbot
  cases hstake : applyStake s3 actorBot policy.stakeBdcResolution
      "resolution_stake" (some market.id) with
  | mk s4 ress =>
  have hb4 : balanced s4 := by
    have h := balanced_applyStake policy.stakeBdcResolution
      "resolution_stake" (some market.id) hb3 hbot3
    rw [hstake] at h
    exact h
  cases ress with
  | error e =>
    have hx : (resolveMarket s m payload k rb).1 = s4 := by
      simp only [resolveMarket, hmk, if_neg hres, if_neg hnd, if_neg hemp,
        if_neg hmem, hauth, hep, hesr, hq, if_neg hall, hdec, if_neg hexp,
        hstake]
    rw [hx]
    exact hb4
  | ok u3 =>
  cases hset : settleMarketResolution s4 market out
      payload.resolverBotIds rb payload.evidence
      (if market.resolverPolicy = ResolverPolicy.single then []
        else payload.votes) with
  | mk s5 res5 =>
  have hb5 : balanced s5 := by
    have h := balanced_settleMarketResolution s4 market out
      payload.resolverBotIds rb payload.evidence
      (if market.resolverPolicy = ResolverPolicy.single then []
        else payload.votes) hb4
    rw [hset] at h
    exact h
  cases res5 with
  | error e =>
    have hx : (resolveMarket s m payload k rb).1 = s5 := by
      simp only [resolveMarket, hmk, if_neg hres, if_neg hnd, if_neg hemp,
        if_neg hmem, hauth, hep, hesr, hq, if_neg hall, hdec, if_neg hexp,
        hstake, hset]
    rw [hx]
    exact hb5
  | ok resp =>
    have hx : (resolveMarket s m payload k rb).1 =
        recordAction s5 actorBot "resolve_market" := by
      simp only [resolveMarket, hmk, if_neg hres, if_neg hnd, if_neg hemp,
        if_neg hmem, hauth, hep, hesr, hq, if_neg hall, hdec, if_neg hexp,
        hstake, hset]
    rw [hx]
    exact balanced_of_moneyEq ⟨rfl, rfl, rfl, rfl⟩ hb5

theorem balanced_applyOp (s : State) (op : Op) (hb : balanced s) :
    balanced (applyOp s op) := by
  cases op with
  | deposit b a r k rb => exact balanced_depositBdc s b a r k rb hb
  | trade m b o a k rb => exact balanced_createTrade s m b o a k rb hb
  | createMkt p k rb nid => exact balanced_createMarket s p k rb nid hb
  | resolve m p k rb => exact balanced_resolveMarket s m p k rb hb
  | autoResolve => exact balanced_autoResolveMarkets s hb

theorem balanced_applyOps (ops : List Op) : ∀ s, balanced s →
    balanced (applyOps s ops) := by
  induction ops with
  | nil =>
    intro s hb
    exact hb
  | cons op rest ih =>
    intro s hb
    have hx : applyOps s (op :: rest) = applyOps (applyOp s op) rest := rfl
    rw [hx]
    exact ih (applyOp s op) (balanced_applyOp s op hb)

/-- C6: the ledger-balance invariant.  From any store where every bot's
wallet equals the running sum of its ledger deltas and the treasury
balance equals the running sum of the treasury ledger deltas, any sequence
of public operations (deposit, trade, market creation with its stake,
resolve with its stake, payouts and liquidity distribution, auto-resolve)
preserves both equalities — every balance mutation on any path, error
paths included, is paired with exactly one matching ledger entry; and a
successful stake charge debits the bot's wallet by the stake amount with a
negative ledger entry while crediting the treasury balance with the
mirrored positive treasury ledger entry in the same operation. -/
theorem ledger_balance_invariant (s : State) (ops : List Op)
    (hb : balanced s) :
    balanced (applyOps s ops) ∧
    (∀ (bot : Bot) (amount : ℚ) (reason : String) (mid : Option MarketId),
      0 < amount → amount ≤ bot.walletBalanceBdc →
      applyStake s bot amount reason mid =
        ({ s with
            bots := dictInsert s.bots bot.id
              { bot with walletBalanceBdc :=
                  bot.walletBalanceBdc + -amount }
            ledger := s.ledger ++
              [{ botId := bot.id
                 marketId := mid
                 deltaBdc := -amount
                 reason := reason
                 timestamp := s.now }]
            treasuryBalanceBdc := s.treasuryBalanceBdc + amount
            treasuryLedger := s.treasuryLedger ++
              [{ marketId := mid
                 deltaBdc := amount
                 reason := reason
                 timestamp := s.now }] }, .ok ())) := by
  constructor
  · exact balanced_applyOps ops s hb
  · intro bot amount reason mid h0 h1
    rw [applyStake, if_neg (not_le.mpr h0), if_neg (not_lt.mpr h1)]
    rfl

/-- C6 witness: the invariant theorem applied to the one-bot fixture with a
deposit operation. -/
theorem ledger_balance_invariant_witness :
    balanced (applyOps balancedStateFx
      [Op.deposit 1 25 "deposit" "kb" 1]) ∧
    (∀ (bot : Bot) (amount : ℚ) (reason : String) (mid : Option MarketId),
      0 < amount → amount ≤ bot.walletBalanceBdc →
      applyStake balancedStateFx bot amount reason mid =
        ({ balancedStateFx with
            bots := dictInsert balancedStateFx.bots bot.id
              { bot with walletBalanceBdc :=
                  bot.walletBalanceBdc + -amount }
            ledger := balancedStateFx.ledger ++
              [{ botId := bot.id
                 marketId := mid
                 deltaBdc := -amount
                 reason := reason
                 timestamp := balancedStateFx.now }]
            treasuryBalanceBdc := balancedStateFx.treasuryBalanceBdc + amount
            treasuryLedger := balancedStateFx.treasuryLedger ++
              [{ marketId := mid
                 deltaBdc := amount
                 reason := reason
                 timestamp := balancedStateFx.now }] }, .ok ())) :=
  ledger_balance_invariant balancedStateFx
    [Op.deposit 1 25 "deposit" "kb" 1] ⟨by decide, by decide⟩

end PrediClaw
